import Mathlib

/-!
Verification of the `@umi-top/umi-core-js` library (file `lib/index.mjs`)
against its natural-language specification.

The JavaScript source is shallowly embedded: byte buffers become `List Nat`
(each entry a byte value), strings become `List Char`, numbers become `Nat`,
`Int` or `ℚ` depending on what the JS code can observe, and functions that
`throw` return `Except`.  JS bitwise operators coerce their operands with
ToInt32/ToUint32 (truncation to 32 bits); wherever an embedded definition uses
plain `Nat` operators instead, a comment justifies that the coercion is
unobservable at that point (the surrounding code only ever reads bits that
both semantics agree on).  Mutating methods are embedded as functions from the
entity to `Except (String × Entity) Entity`: the error case carries the state
of the entity's buffer at the moment the JS code would throw, so that
atomicity (buffer unchanged on failure) is a provable, not definitional,
property.
-/

set_option maxRecDepth 8000
set_option maxHeartbeats 1000000

namespace UmiCore

/-- JS `arrayNew(length)`: a fresh array of `length` zeroes. -/
def arrayNew (length : Nat) : List Nat := List.replicate length 0

/-- JS `arraySet(a, b, offset, length)`: copy `length` leading elements of `b`
into `a` starting at `offset`, extending `a` when the write runs past its end
(callers that rely on extension write contiguously from an empty array, so no
holes arise).  The JS parameter defaults `offset || 0` and `length || b.length`
are expanded at every call site. -/
def arraySet [Inhabited α] (a b : List α) (off len : Nat) : List α :=
  (List.range (max a.length (off + len))).map fun i =>
    if off ≤ i ∧ i < off + len then b.getD (i - off) default else a.getD i default

/-- JS `arraySlice(a, begin, end)` and `Array.prototype.slice(begin, end)`:
the elements at indices `[b, e)`. -/
def arraySlice (a : List α) (b e : Nat) : List α := (a.take e).drop b

/-- JS `arrayConcat(a, b)`: a fresh array holding `a`'s elements followed by
`b`'s. -/
def arrayConcat (a b : List α) : List α := a ++ b

/-- JS `uint16ToBytes`: big-endian 2-byte encoding of a 16-bit value. -/
def uint16ToBytes (value : Nat) : List Nat :=
  [(value >>> 8) &&& 0xff, value &&& 0xff]

/-- JS `bytesToUint16`: big-endian read of 2 bytes. -/
def bytesToUint16 (bytes : List Nat) : Nat :=
  (bytes.getD 0 0 <<< 8) ||| bytes.getD 1 0

/-- JS `uint64ToBytes`: big-endian 8-byte encoding.  In JS, `value >>> 24`
coerces with ToUint32 (truncation mod 2^32), which the explicit `% 2^32`
reproduces; the byte extractions use the signed shift `>>`, which agrees with
the unsigned `>>>` modulo the `& 0xff` mask because `h` and `l` are below
2^32 whenever `value < 2^64` (guaranteed by `validateInt` at every call
site). -/
def uint64ToBytes (value : Nat) : List Nat :=
  let l := (((value % 2 ^ 32) >>> 24) * 16777216) + ((value % 2 ^ 32) &&& 0x00ffffff)
  let h := (value - l) / 4294967296
  [(h >>> 24) &&& 0xff, (h >>> 16) &&& 0xff, (h >>> 8) &&& 0xff, h &&& 0xff,
   (l >>> 24) &&& 0xff, (l >>> 16) &&& 0xff, (l >>> 8) &&& 0xff, l &&& 0xff]

/-- JS `bytesToUint64`: big-endian read of 8 bytes.  The JS expression
`(h * 4294967296) + l` is exact double arithmetic only up to 2^53; the
embedding computes the exact integer (see the design note on 64-bit
precision in the spec). -/
def bytesToUint64 (bytes : List Nat) : Nat :=
  let h := (bytes.getD 0 0 * 16777216) + (bytes.getD 1 0 <<< 16) +
           (bytes.getD 2 0 <<< 8) + bytes.getD 3 0
  let l := (bytes.getD 4 0 * 16777216) + (bytes.getD 5 0 <<< 16) +
           (bytes.getD 6 0 <<< 8) + bytes.getD 7 0
  (h * 4294967296) + l

/-- A JavaScript argument as far as `validateInt` can observe it: a number
(modelled as an exact rational — IEEE-754 rounding of out-of-precision
literals is outside this embedding) or a value of any other runtime type. -/
inductive JsArg where
  | num (q : ℚ)
  | other
deriving DecidableEq

/-- Numeric payload of a JS argument; meaningful only once `validateInt` has
established that the argument is an integral number in a non-negative range. -/
def JsArg.asNat : JsArg → Nat
  | .num q => q.num.toNat
  | .other => 0

/-- JS `validateInt(arg, min, max)`: reject non-numbers, non-integers
(`Math.floor(arg) !== arg`) and out-of-range values. -/
def validateInt (arg : JsArg) (mn mx : ℚ) : Except String Unit :=
  match arg with
  | .other => throw "invalid type"
  | .num q =>
    if (⌊q⌋ : ℚ) ≠ q then throw "invalid integer"
    else if q < mn ∨ q > mx then throw "invalid value"
    else pure ()

/-- `validateInt` specialised to internally produced `Nat` arguments (the
`typeof` and `Math.floor` checks hold by construction for such values). -/
def validateIntNat (v mn mx : Nat) : Except String Unit :=
  if v < mn ∨ v > mx then throw "invalid value" else pure ()

/-- JS `validateStr(arg, len)` at the call sites that pass a length: reject
strings of the wrong length (the `typeof` check holds by construction). -/
def validateStr (s : List Char) (len : Nat) : Except String Unit :=
  if s.length ≠ len then throw "invalid length" else pure ()

/-- The reserved prefix string `genesis`. -/
def genesisPfx : List Char := ['g', 'e', 'n', 'e', 's', 'i', 's']

/-- JS `checkPrefixChars` (`Pfx` abbreviates `prefix` throughout, which this
file cannot use as an identifier): every letter code must lie in 1..26. -/
def checkPfxChars : List Int → Except String Unit
  | [] => pure ()
  | x :: rest =>
    if x < 1 ∨ x > 26 then throw "bech32: invalid prefix character"
    else checkPfxChars rest

/-- JS `versionToPrefix`: version 0 is `genesis`; otherwise the three 5-bit
groups of a 15-bit version become letters `a`..`z` (codes 1..26 only). -/
def versionToPfx (version : Nat) : Except String (List Char) := do
  validateIntNat version 0 65535
  if version = 0 then
    pure genesisPfx
  else if version &&& 0x8000 = 0x8000 then
    throw "bech32: invalid version"
  else
    let a := (version &&& 0x7C00) >>> 10
    let b := (version &&& 0x03E0) >>> 5
    let c := version &&& 0x001F
    checkPfxChars [(a : Int), (b : Int), (c : Int)]
    pure [Char.ofNat (a + 96), Char.ofNat (b + 96), Char.ofNat (c + 96)]

/-- JS `prefixToVersion`: `genesis` maps to 0; otherwise the string must be
three letters with codes 1..26, packed as 5-bit groups.  The letter codes are
`charCodeAt(i) - 96`, which in JS can be negative, hence `Int`; after
`checkPfxChars` they are in 1..26 so the final `toNat` conversions are
exact. -/
def pfxToVersion (p : List Char) : Except String Nat :=
  if p = genesisPfx then pure 0
  else do
    validateStr p 3
    let a : Int := ((p.getD 0 'a').toNat : Int) - 96
    let b : Int := ((p.getD 1 'a').toNat : Int) - 96
    let c : Int := ((p.getD 2 'a').toNat : Int) - 96
    checkPfxChars [a, b, c]
    pure ((a.toNat <<< 10) + (b.toNat <<< 5) + c.toNat)

/-- JS `String.prototype.indexOf` for a single character: the first index of
`c` in `s`, or `-1` when absent. -/
def jsIndexOf (s : List Char) (c : Char) : Int :=
  match s.indexOf? c with
  | some i => (i : Int)
  | none => -1

/-- JS `String.prototype.lastIndexOf` for a single character. -/
def jsLastIndexOf (s : List Char) (c : Char) : Int :=
  match s.reverse.indexOf? c with
  | some i => ((s.length - 1 - i : Nat) : Int)
  | none => -1

/-- JS `String.prototype.toLowerCase`, restricted to ASCII (the only
characters that reach it in this library). -/
def asciiToLower (c : Char) : Char :=
  if 'A' ≤ c ∧ c ≤ 'Z' then Char.ofNat (c.toNat + 32) else c

/-- JS `String.prototype.replace(c, r)` with a single-character pattern and
replacement: replace the first occurrence of `c`, if any. -/
def jsReplaceFirst (s : List Char) (c r : Char) : List Char :=
  match s with
  | [] => []
  | x :: rest => if x = c then r :: rest else x :: jsReplaceFirst rest c r

/-- JS `String.prototype.replace(c, '')`: drop the first occurrence of `c`. -/
def jsRemoveFirst (s : List Char) (c : Char) : List Char :=
  match s with
  | [] => []
  | x :: rest => if x = c then rest else x :: jsRemoveFirst rest c

/-- JS `encodeUtf8Mb4`: the four-byte UTF-8 form of a code point ≥ 0x10000. -/
def encodeUtf8Mb4 (code : Nat) : List Nat :=
  [0xf0 ||| (code >>> 18), 0x80 ||| ((code >>> 12) &&& 0x3f),
   0x80 ||| ((code >>> 6) &&& 0x3f), 0x80 ||| (code &&& 0x3f)]

/-- JS `textEncode`: UTF-8 bytes of a string.  The JS function iterates UTF-16
code units and reassembles surrogate pairs in its last branch; the embedding
iterates Unicode scalar values (Lean's `Char`), for which the surrogate branch
is exactly the `code ≥ 0x10000` case and produces the same bytes. -/
def textEncode (text : List Char) : List Nat :=
  text.flatMap fun ch =>
    let code := ch.toNat
    if code < 0x80 then [code]
    else if code < 0x800 then [0xc0 ||| (code >>> 6), 0x80 ||| (code &&& 0x3f)]
    else if code < 0x10000 then
      [0xe0 ||| (code >>> 12), 0x80 ||| ((code >>> 6) &&& 0x3f), 0x80 ||| (code &&& 0x3f)]
    else encodeUtf8Mb4 code

/-- JS `textDecode`: string from UTF-8 bytes.  Reads past the end of the input
(JS `bytes[i++]` giving `undefined`) coerce to 0, exactly as the JS bitwise
operators do; the four-byte branch computes the code point that the JS
surrogate-pair output denotes.  `Char.ofNat` of an invalid scalar value (which
only malformed input can produce) is Lean's default character. -/
def textDecode : List Nat → List Char
  | [] => []
  | b0 :: r0 =>
    if b0 < 0x80 then Char.ofNat b0 :: textDecode r0
    else if b0 > 0xBF ∧ b0 < 0xE0 then
      match r0 with
      | [] => [Char.ofNat ((b0 &&& 0x1F) <<< 6)]
      | b1 :: r1 => Char.ofNat (((b0 &&& 0x1F) <<< 6) ||| (b1 &&& 0x3F)) :: textDecode r1
    else if b0 > 0xDF ∧ b0 < 0xF0 then
      match r0 with
      | b1 :: b2 :: r2 =>
        Char.ofNat (((b0 &&& 0x0F) <<< 12) ||| ((b1 &&& 0x3F) <<< 6) ||| (b2 &&& 0x3F)) ::
          textDecode r2
      | short =>
        [Char.ofNat (((b0 &&& 0x0F) <<< 12) ||| ((short.getD 0 0 &&& 0x3F) <<< 6) |||
          (short.getD 1 0 &&& 0x3F))]
    else
      match r0 with
      | b1 :: b2 :: b3 :: r3 =>
        Char.ofNat (((b0 &&& 0x07) <<< 18) ||| ((b1 &&& 0x3F) <<< 12) |||
          ((b2 &&& 0x3F) <<< 6) ||| (b3 &&& 0x3F)) :: textDecode r3
      | short =>
        [Char.ofNat (((b0 &&& 0x07) <<< 18) ||| ((short.getD 0 0 &&& 0x3F) <<< 12) |||
          ((short.getD 1 0 &&& 0x3F) <<< 6) ||| (short.getD 2 0 &&& 0x3F))]

/-- The Base64 alphabet string. -/
def base64Alphabet : List Char :=
  "ABCDEFGHIJKLMNOPQRSTUVWXYZabcdefghijklmnopqrstuvwxyz0123456789+/".toList

/-- JS `checkBase64Alphabet`: reject lengths that are not multiples of 4 and,
after dropping the *first two* `=` characters wherever they occur (that is
what two chained `replace('=', '')` calls do), any character outside the
alphabet.  Returns the decoded byte count. -/
def checkBase64Alphabet (chars : List Char) : Except String Nat :=
  if chars.length % 4 ≠ 0 then throw "base64: invalid length"
  else
    let charz := jsRemoveFirst (jsRemoveFirst chars '=') '='
    if charz.any (fun ch => jsIndexOf base64Alphabet ch = -1) then
      throw "base64: invalid character"
    else
      pure ((chars.length / 4 * 3) - (chars.length - charz.length))

/-- The 4-characters-to-3-bytes loop of JS `base64Decode`.  After
`checkBase64Alphabet` every character of `b64` is in the alphabet, so the
`toNat` on `jsIndexOf` (collapsing an impossible `-1`) is exact. -/
def b64Quads : List Char → List Nat
  | c0 :: c1 :: c2 :: c3 :: rest =>
    let x := ((jsIndexOf base64Alphabet c0).toNat <<< 18) |||
             ((jsIndexOf base64Alphabet c1).toNat <<< 12) |||
             ((jsIndexOf base64Alphabet c2).toNat <<< 6) |||
             (jsIndexOf base64Alphabet c3).toNat
    ((x >>> 16) &&& 0xff) :: ((x >>> 8) &&& 0xff) :: (x &&& 0xff) :: b64Quads rest
  | _ => []

/-- JS `base64Decode`. -/
def base64Decode (base64 : List Char) : Except String (List Nat) := do
  let len ← checkBase64Alphabet base64
  let b64 := jsReplaceFirst (jsReplaceFirst base64 '=' 'A') '=' 'A'
  pure ((b64Quads b64).take len)

/-- The Bech32 alphabet string. -/
def bech32Alphabet : List Char := "qpzry9x8gf2tvdw0s3jn54khce6mua7l".toList

/-- JS `bech32Alphabet.charAt(v)` for `v < 32`. -/
def bech32CharAt (v : Nat) : Char := bech32Alphabet.getD v ' '

/-- JS `strToBytes`: alphabet index of every character.  Every caller either
runs after `checkAlphabet` or passes characters produced by `bech32CharAt`,
so `indexOf` never returns `-1` and the `toNat` is exact. -/
def strToBytes (str : List Char) : List Nat :=
  str.map fun c => (jsIndexOf bech32Alphabet c).toNat

/-- JS `checkAlphabet`: every character must be in the Bech32 alphabet. -/
def checkAlphabet : List Char → Except String Unit
  | [] => pure ()
  | c :: rest =>
    if jsIndexOf bech32Alphabet c = -1 then throw "bech32: invalid character"
    else checkAlphabet rest

/-- The inner `while (bits >= 5)` loop of JS `convert8to5`: pops 5-bit groups
off `value` (most significant first) while at least 5 bits remain, returning
the groups and the final `bits`. -/
def emit5 (value : Nat) (bits : Nat) : List Nat × Nat :=
  if h : 5 ≤ bits then
    let rest := emit5 value (bits - 5)
    (((value >>> (bits - 5)) &&& 0x1f) :: rest.1, rest.2)
  else ([], bits)

/-- The byte-consuming loop of JS `convert8to5`, with the `(value, bits)`
accumulator made explicit.  JS stores `value` as an int32
(`value = (value << 8) | data[i]`); the embedding keeps the untruncated
natural number, which is observationally equal because every read of `value`
extracts bits below position 13. -/
def c85 : List Nat → Nat → Nat → List Nat × Nat × Nat
  | [], value, bits => ([], value, bits)
  | b :: rest, value, bits =>
    let value2 := (value <<< 8) ||| b
    let em := emit5 value2 (bits + 8)
    let tail := c85 rest value2 em.2
    (em.1 ++ tail.1, tail.2)

/-- JS `convert8to5` without the final alphabet lookup: the 5-bit values,
including the left-shifted partial final group. -/
def convert8to5 (data : List Nat) : List Nat :=
  let core := c85 data 0 0
  let value := core.2.1
  let bits := core.2.2
  if bits > 0 then core.1 ++ [(value <<< (5 - bits)) &&& 0x1f] else core.1

/-- JS `convert8to5` proper: the JS function maps each 5-bit value through the
alphabet as it is produced; the embedding factors that map out. -/
def convert8to5Chars (data : List Nat) : List Char :=
  (convert8to5 data).map bech32CharAt

/-- The inner `while (bits >= 8)` loop of JS `convert5to8`. -/
def emit8 (value : Nat) (bits : Nat) : List Nat × Nat :=
  if h : 8 ≤ bits then
    let rest := emit8 value (bits - 8)
    (((value >>> (bits - 8)) &&& 0xff) :: rest.1, rest.2)
  else ([], bits)

/-- The value-consuming loop of JS `convert5to8` (same int32 remark as
`c85`). -/
def c58 : List Nat → Nat → Nat → List Nat × Nat × Nat
  | [], value, bits => ([], value, bits)
  | b :: rest, value, bits =>
    let value2 := (value <<< 5) ||| b
    let em := emit8 value2 (bits + 5)
    let tail := c58 rest value2 em.2
    (em.1 ++ tail.1, tail.2)

/-- JS `convert5to8`: regroup 5-bit characters into bytes; fail if 5 or more
bits remain or the remaining padding bits are not zero. -/
def convert5to8 (data : List Char) : Except String (List Nat) :=
  let core := c58 (strToBytes data) 0 0
  let value := core.2.1
  let bits := core.2.2
  if 5 ≤ bits ∨ (value <<< (8 - bits)) &&& 0xff ≠ 0 then
    throw "bech32: invalid data"
  else
    pure core.1

/-- The Bech32 checksum generator constants. -/
def bech32Gen : List Nat := [0x3b6a57b2, 0x26508e6d, 0x1ea119fa, 0x3d4233dd, 0x2a1462b3]

/-- One iteration of the outer loop of JS `polyMod`.  The JS int32 operators
agree with the unsigned `Nat` ones because `chk` stays below 2^30 and every
input value is below 32. -/
def polyModStep (chk v : Nat) : Nat :=
  let top := chk >>> 25
  let chk2 := ((chk &&& 0x1ffffff) <<< 5) ^^^ v
  List.foldl (fun c j => c ^^^ (if (top >>> j) &&& 1 = 1 then bech32Gen.getD j 0 else 0))
    chk2 [0, 1, 2, 3, 4]

/-- JS `polyMod`: BCH checksum state after absorbing `values`, from seed 1. -/
def polyMod (values : List Nat) : Nat := values.foldl polyModStep 1

/-- JS `prefixExpand`: high 3 bits of every character, a zero separator, then
the low 5 bits of every character (the JS function writes the same layout
into a pre-zeroed array of length `2*l + 1`). -/
def pfxExpand (p : List Char) : List Nat :=
  (p.map fun ch => ch.toNat >>> 5) ++ [0] ++ (p.map fun ch => ch.toNat &&& 31)

/-- JS `createChecksum`: six checksum characters for `p` and `data`. -/
def createChecksum (p : List Char) (data : List Char) : List Char :=
  let bytes := strToBytes data
  let pfx := pfxExpand p
  let values := pfx ++ bytes ++ List.replicate 6 0
  let poly := polyMod values ^^^ 1
  (List.range 6).map fun i => bech32CharAt ((poly >>> (5 * (5 - i))) &&& 31)

/-- JS `verifyChecksum`: the checksum over `p` and `data` must be exactly 1. -/
def verifyChecksum (p : List Char) (data : List Char) : Except String Unit :=
  if polyMod (pfxExpand p ++ strToBytes data) ≠ 1 then
    throw "bech32: invalid checksum"
  else pure ()

/-- JS `bech32Encode`: prefix, separator `1`, 5-bit data characters,
checksum. -/
def bech32Encode (bytes : List Nat) : Except String (List Char) := do
  let p ← versionToPfx ((bytes.getD 0 0 <<< 8) + bytes.getD 1 0)
  let data := convert8to5Chars (bytes.drop 2)
  let checksum := createChecksum p data
  pure (p ++ ['1'] ++ data ++ checksum)

/-- JS `bech32Decode`. -/
def bech32Decode (bech32 : List Char) : Except String (List Nat) := do
  if bech32.length ≠ 62 ∧ bech32.length ≠ 66 then throw "bech32: invalid length"
  let str := bech32.map asciiToLower
  let sepPos := jsLastIndexOf str '1'
  if sepPos = -1 then throw "bech32: missing separator"
  let pfx := str.take sepPos.toNat
  let ver ← pfxToVersion pfx
  let data := str.drop (sepPos.toNat + 1)
  checkAlphabet data
  verifyChecksum pfx data
  let payload ← convert5to8 (data.take (data.length - 6))
  pure (arrayConcat (uint16ToBytes ver) payload)

/-- The SHA-256 round constants. -/
def sha256K : List Nat :=
  [0x428A2F98, 0x71374491, 0xB5C0FBCF, 0xE9B5DBA5, 0x3956C25B, 0x59F111F1, 0x923F82A4, 0xAB1C5ED5,
   0xD807AA98, 0x12835B01, 0x243185BE, 0x550C7DC3, 0x72BE5D74, 0x80DEB1FE, 0x9BDC06A7, 0xC19BF174,
   0xE49B69C1, 0xEFBE4786, 0x0FC19DC6, 0x240CA1CC, 0x2DE92C6F, 0x4A7484AA, 0x5CB0A9DC, 0x76F988DA,
   0x983E5152, 0xA831C66D, 0xB00327C8, 0xBF597FC7, 0xC6E00BF3, 0xD5A79147, 0x06CA6351, 0x14292967,
   0x27B70A85, 0x2E1B2138, 0x4D2C6DFC, 0x53380D13, 0x650A7354, 0x766A0ABB, 0x81C2C92E, 0x92722C85,
   0xA2BFE8A1, 0xA81A664B, 0xC24B8B70, 0xC76C51A3, 0xD192E819, 0xD6990624, 0xF40E3585, 0x106AA070,
   0x19A4C116, 0x1E376C08, 0x2748774C, 0x34B0BCB5, 0x391C0CB3, 0x4ED8AA4A, 0x5B9CCA4F, 0x682E6FF3,
   0x748F82EE, 0x78A5636F, 0x84C87814, 0x8CC70208, 0x90BEFFFA, 0xA4506CEB, 0xBEF9A3F7, 0xC67178F2]

/-- JS `rotr(n, i)`: 32-bit right rotation.  JS coerces `n` to 32 bits before
shifting; the `% 2^32` masks reproduce the value mod 2^32, which (up to the
sign convention, unobservable here) is what JS computes. -/
def rotr (n i : Nat) : Nat :=
  ((n % 2 ^ 32) >>> i) ||| (((n % 2 ^ 32) <<< (32 - i)) % 2 ^ 32)

/-- The padded byte sequence built inside JS `sha256PreProcess`: the message
is copied into a zero-filled buffer whose length is the least multiple of 64
strictly greater than `message.length + 8`, the byte `0x80` is written just
after the message, and the *low 16 bits* of the bit length are written into
the final two bytes.  (The JS code writes no other length bytes: the FIPS
64-bit length field is truncated to 16 bits.) -/
def sha256PadBytes (message : List Nat) : List Nat :=
  let n := message.length
  let l := n + 8 + (64 - ((n + 8) % 64))
  let base := (List.range l).map fun i => message.getD i 0
  let b1 := base.set n 0x80
  let b2 := b1.set (l - 2) ((((n * 8) % 2 ^ 32) >>> 8) &&& 0xff)
  b2.set (l - 1) ((n * 8) &&& 0xff)

/-- The 16 big-endian 32-bit words of the 64-byte block at offset `off`. -/
def sha256Words (bytez : List Nat) (off : Nat) : List Nat :=
  (List.range 16).map fun j =>
    (bytez.getD (off + 4 * j) 0 <<< 24) + (bytez.getD (off + 4 * j + 1) 0 <<< 16) +
    (bytez.getD (off + 4 * j + 2) 0 <<< 8) + bytez.getD (off + 4 * j + 3) 0

/-- JS `sha256PreProcess`: the padded bytes split into 16-word chunks. -/
def sha256PreProcess (message : List Nat) : List (List Nat) :=
  let bytez := sha256PadBytes message
  (List.range (bytez.length / 64)).map fun i => sha256Words bytez (64 * i)

/-- One step of the message-schedule extension inside JS `sha256`
(`w[i] = w[i-16] + s0 + w[i-7] + s1`, appended at index `i = w.length`).
The JS double additions are exact at these magnitudes and go unmasked, as in
the source; `rotr` and `>>>` read their operands mod 2^32. -/
def sha256ExtendStep (w : List Nat) (i : Nat) : List Nat :=
  let s0 := rotr (w.getD (i - 15) 0) 7 ^^^ rotr (w.getD (i - 15) 0) 18 ^^^
            ((w.getD (i - 15) 0 % 2 ^ 32) >>> 3)
  let s1 := rotr (w.getD (i - 2) 0) 17 ^^^ rotr (w.getD (i - 2) 0) 19 ^^^
            ((w.getD (i - 2) 0 % 2 ^ 32) >>> 10)
  w ++ [w.getD (i - 16) 0 + s0 + w.getD (i - 7) 0 + s1]

/-- The `for (i = 16; i < 64; i++)` schedule-extension loop of JS `sha256`. -/
def sha256Extend (w : List Nat) : List Nat :=
  (List.range' 16 48).foldl sha256ExtendStep w

/-- One round of the inner loop of JS `sha256Block`, acting on the 8-element
work array.  JS `~x` and `&`/`^` coerce to 32 bits: the embedding masks each
operand with `% 2^32` and writes `~x` as `x ^^^ 0xffffffff`. -/
def sha256Round (w : List Nat) (a : List Nat) (i : Nat) : List Nat :=
  let S1 := rotr (a.getD 4 0) 6 ^^^ rotr (a.getD 4 0) 11 ^^^ rotr (a.getD 4 0) 25
  let ch := ((a.getD 4 0 % 2 ^ 32) &&& (a.getD 5 0 % 2 ^ 32)) ^^^
            (((a.getD 4 0 % 2 ^ 32) ^^^ 0xffffffff) &&& (a.getD 6 0 % 2 ^ 32))
  let t1 := a.getD 7 0 + S1 + ch + sha256K.getD i 0 + w.getD i 0
  let S0 := rotr (a.getD 0 0) 2 ^^^ rotr (a.getD 0 0) 13 ^^^ rotr (a.getD 0 0) 22
  let ma := ((a.getD 0 0 % 2 ^ 32) &&& (a.getD 1 0 % 2 ^ 32)) ^^^
            ((a.getD 0 0 % 2 ^ 32) &&& (a.getD 2 0 % 2 ^ 32)) ^^^
            ((a.getD 1 0 % 2 ^ 32) &&& (a.getD 2 0 % 2 ^ 32))
  let t2 := S0 + ma
  [t1 + t2, a.getD 0 0, a.getD 1 0, a.getD 2 0,
   a.getD 3 0 + t1, a.getD 4 0, a.getD 5 0, a.getD 6 0]

/-- JS `sha256Block`: 64 rounds from the copied state, then the
`h[i] = h[i] + a[i] | 0` update (ToInt32, i.e. mod 2^32 up to sign, and the
digest extraction below reads mod 2^32). -/
def sha256Block (h w : List Nat) : List Nat :=
  let a := (List.range 64).foldl (sha256Round w) h
  (List.range 8).map fun i => (h.getD i 0 + a.getD i 0) % 2 ^ 32

/-- The body of JS `sha256` after preprocessing: schedule extension and
compression over every chunk from the standard initial state, then big-endian
digest serialization.  Shared verbatim by the FIPS reference model, which
differs from the JS code only in its padding. -/
def sha256Core (chunks : List (List Nat)) : List Nat :=
  let h0 : List Nat := [0x6A09E667, 0xBB67AE85, 0x3C6EF372, 0xA54FF53A,
                        0x510E527F, 0x9B05688C, 0x1F83D9AB, 0x5BE0CD19]
  let hh := chunks.foldl (fun h chunk => sha256Block h (sha256Extend chunk)) h0
  hh.flatMap fun x => [(x >>> 24) &&& 0xff, (x >>> 16) &&& 0xff, (x >>> 8) &&& 0xff, x &&& 0xff]

/-- JS `sha256`. -/
def sha256 (message : List Nat) : List Nat := sha256Core (sha256PreProcess message)

/-- The FIPS 180-4 reference padding, following the spec's words: append
`0x80`, then the minimal number of zero bytes bringing the length to 56 mod
64, then the message bit length as an 8-byte big-endian integer. -/
def fipsPadBytes (message : List Nat) : List Nat :=
  let n := message.length
  let z := (64 + 56 - ((n + 1) % 64)) % 64
  message ++ [0x80] ++ List.replicate z 0 ++
    ((List.range 8).map fun k => ((n * 8) >>> (8 * (7 - k))) &&& 0xff)

/-- The FIPS 180-4 SHA-256 reference: standard padding followed by the same
compression as the JS code. -/
def sha256Fips (message : List Nat) : List Nat :=
  let bytez := fipsPadBytes message
  sha256Core ((List.range (bytez.length / 64)).map fun i => sha256Words bytez (64 * i))

/-- The SHA-512 round constants, each as a `(high, low)` pair of 32-bit
halves, exactly as the JS source stores them. -/
def sha512K : List (Nat × Nat) :=
  [(0x428a2f98, 0xd728ae22), (0x71374491, 0x23ef65cd), (0xb5c0fbcf, 0xec4d3b2f), (0xe9b5dba5, 0x8189dbbc),
   (0x3956c25b, 0xf348b538), (0x59f111f1, 0xb605d019), (0x923f82a4, 0xaf194f9b), (0xab1c5ed5, 0xda6d8118),
   (0xd807aa98, 0xa3030242), (0x12835b01, 0x45706fbe), (0x243185be, 0x4ee4b28c), (0x550c7dc3, 0xd5ffb4e2),
   (0x72be5d74, 0xf27b896f), (0x80deb1fe, 0x3b1696b1), (0x9bdc06a7, 0x25c71235), (0xc19bf174, 0xcf692694),
   (0xe49b69c1, 0x9ef14ad2), (0xefbe4786, 0x384f25e3), (0x0fc19dc6, 0x8b8cd5b5), (0x240ca1cc, 0x77ac9c65),
   (0x2de92c6f, 0x592b0275), (0x4a7484aa, 0x6ea6e483), (0x5cb0a9dc, 0xbd41fbd4), (0x76f988da, 0x831153b5),
   (0x983e5152, 0xee66dfab), (0xa831c66d, 0x2db43210), (0xb00327c8, 0x98fb213f), (0xbf597fc7, 0xbeef0ee4),
   (0xc6e00bf3, 0x3da88fc2), (0xd5a79147, 0x930aa725), (0x06ca6351, 0xe003826f), (0x14292967, 0x0a0e6e70),
   (0x27b70a85, 0x46d22ffc), (0x2e1b2138, 0x5c26c926), (0x4d2c6dfc, 0x5ac42aed), (0x53380d13, 0x9d95b3df),
   (0x650a7354, 0x8baf63de), (0x766a0abb, 0x3c77b2a8), (0x81c2c92e, 0x47edaee6), (0x92722c85, 0x1482353b),
   (0xa2bfe8a1, 0x4cf10364), (0xa81a664b, 0xbc423001), (0xc24b8b70, 0xd0f89791), (0xc76c51a3, 0x0654be30),
   (0xd192e819, 0xd6ef5218), (0xd6990624, 0x5565a910), (0xf40e3585, 0x5771202a), (0x106aa070, 0x32bbd1b8),
   (0x19a4c116, 0xb8d2d0c8), (0x1e376c08, 0x5141ab53), (0x2748774c, 0xdf8eeb99), (0x34b0bcb5, 0xe19b48a8),
   (0x391c0cb3, 0xc5c95a63), (0x4ed8aa4a, 0xe3418acb), (0x5b9cca4f, 0x7763e373), (0x682e6ff3, 0xd6b2b8a3),
   (0x748f82ee, 0x5defb2fc), (0x78a5636f, 0x43172f60), (0x84c87814, 0xa1f0ab72), (0x8cc70208, 0x1a6439ec),
   (0x90befffa, 0x23631e28), (0xa4506ceb, 0xde82bde9), (0xbef9a3f7, 0xb2c67915), (0xc67178f2, 0xe372532b),
   (0xca273ece, 0xea26619c), (0xd186b8c7, 0x21c0c207), (0xeada7dd6, 0xcde0eb1e), (0xf57d4f7f, 0xee6ed178),
   (0x06f067aa, 0x72176fba), (0x0a637dc5, 0xa2c898a6), (0x113f9804, 0xbef90dae), (0x1b710b35, 0x131c471b),
   (0x28db77f5, 0x23047d84), (0x32caab7b, 0x40c72493), (0x3c9ebe0a, 0x15c9bebc), (0x431d67c4, 0x9c100d4c),
   (0x4cc5d4be, 0xcb3e42b6), (0x597f299c, 0xfc657e2a), (0x5fcb6fab, 0x3ad6faec), (0x6c44198c, 0x4a475817)]

/-- JS `shft64`: 64-bit logical right shift (`i < 32`) on a `(high, low)`
pair.  The JS `<<` result feeds `|`, so masking it mod 2^32 is exact. -/
def shft64 (n : Nat × Nat) (i : Nat) : Nat × Nat :=
  (n.1 >>> i, (n.2 >>> i) ||| ((n.1 <<< (32 - i)) % 2 ^ 32))

/-- JS `rotr64`: 64-bit right rotation on a `(high, low)` pair. -/
def rotr64 (n : Nat × Nat) (i : Nat) : Nat × Nat :=
  if i < 32 then
    ((n.1 >>> i) ||| ((n.2 <<< (32 - i)) % 2 ^ 32),
     (n.2 >>> i) ||| ((n.1 <<< (32 - i)) % 2 ^ 32))
  else
    ((n.2 >>> (i - 32)) ||| ((n.1 <<< (32 - (i - 32))) % 2 ^ 32),
     (n.1 >>> (i - 32)) ||| ((n.2 <<< (32 - (i - 32))) % 2 ^ 32))

/-- JS `xor64`. -/
def xor64 (a b : Nat × Nat) : Nat × Nat := (a.1 ^^^ b.1, a.2 ^^^ b.2)

/-- JS `and64`. -/
def and64 (a b : Nat × Nat) : Nat × Nat := (a.1 &&& b.1, a.2 &&& b.2)

/-- JS `not64` (`~` coerces to 32 bits; the components are kept below 2^32,
so the complement is `^^^ 0xffffffff`). -/
def not64 (n : Nat × Nat) : Nat × Nat := (n.1 ^^^ 0xffffffff, n.2 ^^^ 0xffffffff)

/-- JS `sum64`: 64-bit addition via four 16-bit half-adds. -/
def sum64 (a b : Nat × Nat) : Nat × Nat :=
  let x3 := (a.2 &&& 0xffff) + (b.2 &&& 0xffff)
  let x2 := (a.2 >>> 16) + (b.2 >>> 16) + (x3 >>> 16)
  let x1 := (a.1 &&& 0xffff) + (b.1 &&& 0xffff) + (x2 >>> 16)
  let x0 := (a.1 >>> 16) + (b.1 >>> 16) + (x1 >>> 16)
  (((x0 &&& 0xffff) <<< 16) + (x1 &&& 0xffff), ((x2 &&& 0xffff) <<< 16) + (x3 &&& 0xffff))

/-- The padded byte sequence of JS `sha512PreProcess`: identical in shape to
the SHA-256 preprocessing (128-byte blocks, 16 reserved length bytes) and with
the same 16-bit truncation of the bit-length field. -/
def sha512PadBytes (message : List Nat) : List Nat :=
  let n := message.length
  let l := n + 16 + (128 - ((n + 16) % 128))
  let base := (List.range l).map fun i => message.getD i 0
  let b1 := base.set n 0x80
  let b2 := b1.set (l - 2) ((((n * 8) % 2 ^ 32) >>> 8) &&& 0xff)
  b2.set (l - 1) ((n * 8) &&& 0xff)

/-- The 16 big-endian 64-bit words (as `(high, low)` pairs) of the 128-byte
block at offset `off`. -/
def sha512Words (bytez : List Nat) (off : Nat) : List (Nat × Nat) :=
  (List.range 16).map fun j =>
    let n := off + 8 * j
    ((bytez.getD n 0 <<< 24) + (bytez.getD (n + 1) 0 <<< 16) +
     (bytez.getD (n + 2) 0 <<< 8) + bytez.getD (n + 3) 0,
     (bytez.getD (n + 4) 0 <<< 24) + (bytez.getD (n + 5) 0 <<< 16) +
     (bytez.getD (n + 6) 0 <<< 8) + bytez.getD (n + 7) 0)

/-- JS `sha512PreProcess`. -/
def sha512PreProcess (message : List Nat) : List (List (Nat × Nat)) :=
  let bytez := sha512PadBytes message
  (List.range (bytez.length / 128)).map fun i => sha512Words bytez (128 * i)

/-- One step of the message-schedule extension inside JS `sha512`. -/
def sha512ExtendStep (w : List (Nat × Nat)) (i : Nat) : List (Nat × Nat) :=
  let s0 := xor64 (xor64 (rotr64 (w.getD (i - 15) (0, 0)) 1) (rotr64 (w.getD (i - 15) (0, 0)) 8))
                  (shft64 (w.getD (i - 15) (0, 0)) 7)
  let s1 := xor64 (xor64 (rotr64 (w.getD (i - 2) (0, 0)) 19) (rotr64 (w.getD (i - 2) (0, 0)) 61))
                  (shft64 (w.getD (i - 2) (0, 0)) 6)
  w ++ [sum64 (sum64 (w.getD (i - 16) (0, 0)) s0) (sum64 (w.getD (i - 7) (0, 0)) s1)]

/-- The `for (i = 16; i < 80; i++)` schedule-extension loop of JS `sha512`. -/
def sha512Extend (w : List (Nat × Nat)) : List (Nat × Nat) :=
  (List.range' 16 64).foldl sha512ExtendStep w

/-- One round of the inner loop of JS `sha512Block`. -/
def sha512Round (w : List (Nat × Nat)) (a : List (Nat × Nat)) (i : Nat) : List (Nat × Nat) :=
  let S1 := xor64 (xor64 (rotr64 (a.getD 4 (0, 0)) 14) (rotr64 (a.getD 4 (0, 0)) 18))
                  (rotr64 (a.getD 4 (0, 0)) 41)
  let ch := xor64 (and64 (a.getD 4 (0, 0)) (a.getD 5 (0, 0)))
                  (and64 (not64 (a.getD 4 (0, 0))) (a.getD 6 (0, 0)))
  let t1 := sum64 (sum64 (sum64 (a.getD 7 (0, 0)) S1) (sum64 ch (sha512K.getD i (0, 0))))
                  (w.getD i (0, 0))
  let S0 := xor64 (xor64 (rotr64 (a.getD 0 (0, 0)) 28) (rotr64 (a.getD 0 (0, 0)) 34))
                  (rotr64 (a.getD 0 (0, 0)) 39)
  let ma := xor64 (xor64 (and64 (a.getD 0 (0, 0)) (a.getD 1 (0, 0)))
                         (and64 (a.getD 0 (0, 0)) (a.getD 2 (0, 0))))
                  (and64 (a.getD 1 (0, 0)) (a.getD 2 (0, 0)))
  let t2 := sum64 S0 ma
  [sum64 t1 t2, a.getD 0 (0, 0), a.getD 1 (0, 0), a.getD 2 (0, 0),
   sum64 (a.getD 3 (0, 0)) t1, a.getD 4 (0, 0), a.getD 5 (0, 0), a.getD 6 (0, 0)]

/-- JS `sha512Block`: 80 rounds then the `sum64` state update. -/
def sha512Block (h w : List (Nat × Nat)) : List (Nat × Nat) :=
  let a := (List.range 80).foldl (sha512Round w) h
  (List.range 8).map fun i => sum64 (h.getD i (0, 0)) (a.getD i (0, 0))

/-- JS `sha512`. -/
def sha512 (message : List Nat) : List Nat :=
  let h0 : List (Nat × Nat) :=
    [(0x6a09e667, 0xf3bcc908), (0xbb67ae85, 0x84caa73b), (0x3c6ef372, 0xfe94f82b), (0xa54ff53a, 0x5f1d36f1),
     (0x510e527f, 0xade682d1), (0x9b05688c, 0x2b3e6c1f), (0x1f83d9ab, 0xfb41bd6b), (0x5be0cd19, 0x137e2179)]
  let hh := (sha512PreProcess message).foldl (fun h chunk => sha512Block h (sha512Extend chunk)) h0
  hh.flatMap fun x =>
    [(x.1 >>> 24) &&& 0xff, (x.1 >>> 16) &&& 0xff, (x.1 >>> 8) &&& 0xff, x.1 &&& 0xff,
     (x.2 >>> 24) &&& 0xff, (x.2 >>> 16) &&& 0xff, (x.2 >>> 8) &&& 0xff, x.2 &&& 0xff]

/-! Curve25519 field and point arithmetic.  Limb vectors are `List Int` of
length 16; all JS numbers here are integer-valued doubles on which the JS
bitwise operators act through ToInt32/ToUint32, modelled by the `js*`
helpers below. -/

/-- ToUint32 of an integer-valued JS number. -/
def toUint32 (x : Int) : Nat := (x % (2 ^ 32 : Int)).toNat

/-- ToInt32 of an integer-valued JS number. -/
def toInt32 (x : Int) : Int :=
  let u := x % (2 ^ 32 : Int)
  if u < 2 ^ 31 then u else u - 2 ^ 32

/-- JS `x & y` on integer-valued numbers. -/
def jsAndI (x y : Int) : Int := toInt32 ((toUint32 x &&& toUint32 y : Nat) : Int)

/-- JS `x ^ y` on integer-valued numbers. -/
def jsXorI (x y : Int) : Int := toInt32 ((toUint32 x ^^^ toUint32 y : Nat) : Int)

/-- JS `~x` on integer-valued numbers. -/
def jsNotI (x : Int) : Int := toInt32 ((toUint32 x ^^^ 0xffffffff : Nat) : Int)

/-- JS `x >> k` (arithmetic shift of the int32 value = floor division). -/
def jsShrI (x : Int) (k : Nat) : Int := Int.fdiv (toInt32 x) (2 ^ k)

/-- The zero field element. -/
def gf0 : List Int := List.replicate 16 0

/-- The unit field element. -/
def gf1 : List Int := 1 :: List.replicate 15 0

/-- The curve constant 2·d. -/
def D2 : List Int :=
  [0xf159, 0x26b2, 0x9b94, 0xebd6, 0xb156, 0x8283, 0x149a, 0x00e0,
   0xd130, 0xeef3, 0x80f2, 0x198e, 0xfce7, 0x56df, 0xd9dc, 0x2406]

/-- The base-point x coordinate. -/
def X : List Int :=
  [0xd51a, 0x8f25, 0x2d60, 0xc956, 0xa7b2, 0x9525, 0xc760, 0x692c,
   0xdc5c, 0xfdd6, 0xe231, 0xc0a4, 0x53fe, 0xcd6e, 0x36d3, 0x2169]

/-- The base-point y coordinate. -/
def Y : List Int :=
  [0x6658, 0x6666, 0x6666, 0x6666, 0x6666, 0x6666, 0x6666, 0x6666,
   0x6666, 0x6666, 0x6666, 0x6666, 0x6666, 0x6666, 0x6666, 0x6666]

/-- The curve constant d. -/
def D : List Int :=
  [0x78a3, 0x1359, 0x4dca, 0x75eb, 0xd8ab, 0x4141, 0x0a4d, 0x0070,
   0xe898, 0x7779, 0x4079, 0x8cc7, 0xfe73, 0x2b6f, 0x6cee, 0x5203]

/-- The constant sqrt(-1). -/
def I : List Int :=
  [0xa0b0, 0x4a0e, 0x1b27, 0xc4ee, 0xe478, 0xad2f, 0x1806, 0x2f43,
   0xd7a7, 0x3dfb, 0x0099, 0x2b4d, 0xdf0b, 0x4fc1, 0x2480, 0x2b83]

/-- The group order as a byte table (`L` in the JS source), as integers for
the multiplications in `modL`. -/
def L : List Int :=
  [0xed, 0xd3, 0xf5, 0x5c, 0x1a, 0x63, 0x12, 0x58, 0xd6, 0x9c, 0xf7, 0xa2,
   0xde, 0xf9, 0xde, 0x14, 0, 0, 0, 0, 0, 0, 0, 0, 0, 0, 0, 0, 0, 0, 0, 0x10]

/-- JS `sel25519`: branch-free conditional swap of two limb vectors driven by
`b` (`c = ~(b-1)` is all-ones for `b = 1`, zero for `b = 0`); the per-index
`t` is computed from the original vectors, exactly as the in-place JS loop
does. -/
def sel25519 (p q : List Int) (b : Int) : List Int × List Int :=
  let c := jsNotI (b - 1)
  ((List.range 16).map fun i =>
      jsXorI (p.getD i 0) (jsAndI c (jsXorI (p.getD i 0) (q.getD i 0))),
   (List.range 16).map fun i =>
      jsXorI (q.getD i 0) (jsAndI c (jsXorI (p.getD i 0) (q.getD i 0))))

/-- One index of JS `car25519` (the write order follows the source; the carry
target differs from `i`, so the final subtraction commutes with it). -/
def car25519Step (o : List Int) (i : Nat) : List Int :=
  let o1 := o.set i (o.getD i 0 + 65536)
  let oi := o1.getD i 0
  let c := (oi - oi % 65536) / 65536
  let j := (i + 1) * (if i < 15 then 1 else 0)
  let o2 := o1.set j (o1.getD j 0 + c - 1 + 37 * (c - 1) * (if i = 15 then 1 else 0))
  o2.set i (o2.getD i 0 - c * 65536)

/-- JS `car25519`: one carry-propagation pass over the 16 limbs.
`o[i] & 0xffff` is `o[i]` mod 2^16 at the magnitudes occurring here, so `c`
is the floor division of the limb by 2^16. -/
def car25519 (o : List Int) : List Int := (List.range 16).foldl car25519Step o

/-- JS `fnA`: limbwise sum. -/
def fnA (a b : List Int) : List Int := (List.range 16).map fun i => a.getD i 0 + b.getD i 0

/-- JS `fnZ`: limbwise difference. -/
def fnZ (a b : List Int) : List Int := (List.range 16).map fun i => a.getD i 0 - b.getD i 0

/-- JS `fnM`: schoolbook product into 31 columns, fold-back of the high
columns by 38, truncation to 16 limbs (`arraySet(o, t, 0, 16)` into the
16-limb output), and two carry passes. -/
def fnM (a b : List Int) : List Int :=
  let t0 : List Int := List.replicate 31 0
  let t1 := (List.range 16).foldl (fun t i =>
    (List.range 16).foldl (fun t j =>
      t.set (i + j) (t.getD (i + j) 0 + a.getD i 0 * b.getD j 0)) t) t0
  let t2 := (List.range 15).foldl (fun t i => t.set i (t.getD i 0 + 38 * t.getD (i + 16) 0)) t1
  car25519 (car25519 (t2.take 16))

/-- JS `inv25519`: Fermat inversion with a fixed 254-step square-and-multiply
chain (squares always; multiplies except at exponent bits 2 and 4). -/
def inv25519 (i : List Int) : List Int :=
  ((List.range 254).reverse).foldl
    (fun c a =>
      let c2 := fnM c c
      if a ≠ 2 ∧ a ≠ 4 then fnM c2 i else c2) i

/-- JS `pow2523`: the fixed 251-step chain for raising to (p-5)/8. -/
def pow2523 (i : List Int) : List Int :=
  ((List.range 251).reverse).foldl
    (fun c a =>
      let c2 := fnM c c
      if a ≠ 1 then fnM c2 i else c2) i

/-- One `j`-pass of JS `pack25519`: subtract the field prime with borrow
propagation and conditionally swap the result back in constant time. -/
def pack25519Pass (t : List Int) : List Int :=
  let m := (List.replicate 16 (0 : Int)).set 0 (t.getD 0 0 - 0xffed)
  let m := (List.range' 1 14).foldl (fun m i =>
      let mi := t.getD i 0 - 0xffff - jsAndI (jsShrI (m.getD (i - 1) 0) 16) 1
      (m.set i mi).set (i - 1) (jsAndI (m.getD (i - 1) 0) 0xffff)) m
  let m := m.set 15 (t.getD 15 0 - 0x7fff - jsAndI (jsShrI (m.getD 14 0) 16) 1)
  let b := jsAndI (jsShrI (m.getD 15 0) 16) 1
  let m := m.set 14 (jsAndI (m.getD 14 0) 0xffff)
  (sel25519 t m (1 - b)).1

/-- JS `pack25519`: three carry passes, two reduction passes, then the
little-endian byte serialization (limbs are canonical, hence in [0, 2^16), so
the `toNat` conversions are exact). -/
def pack25519 (n : List Int) : List Nat :=
  let t := car25519 (car25519 (car25519 n))
  let t2 := pack25519Pass (pack25519Pass t)
  (List.range 16).flatMap fun i =>
    [(jsAndI (t2.getD i 0) 0xff).toNat, (jsShrI (t2.getD i 0) 8).toNat]

/-- JS `par25519`: parity of the packed representation. -/
def par25519 (a : List Int) : Nat := (pack25519 a).getD 0 0 &&& 1

/-- JS `unpack25519`. -/
def unpack25519 (n : List Nat) : List Int :=
  let o := (List.range 16).map fun i =>
    ((n.getD (2 * i) 0 + (n.getD (2 * i + 1) 0 <<< 8) : Nat) : Int)
  o.set 15 (jsAndI (o.getD 15 0) 0x7fff)

/-- JS `add`: extended-coordinates point addition, written into the first
point (here returned).  Points are 4-element lists [x, y, z, t]. -/
def add (p q : List (List Int)) : List (List Int) :=
  let a := fnZ (p.getD 1 []) (p.getD 0 [])
  let t := fnZ (q.getD 1 []) (q.getD 0 [])
  let a := fnM a t
  let b := fnA (p.getD 0 []) (p.getD 1 [])
  let t := fnA (q.getD 0 []) (q.getD 1 [])
  let b := fnM b t
  let c := fnM (p.getD 3 []) (q.getD 3 [])
  let c := fnM c D2
  let d := fnM (p.getD 2 []) (q.getD 2 [])
  let d := fnA d d
  let e := fnZ b a
  let f := fnZ d c
  let g := fnA d c
  let h := fnA b a
  [fnM e f, fnM h g, fnM g f, fnM e h]

/-- JS `cswap`: `sel25519` on each of the four coordinates. -/
def cswap (p q : List (List Int)) (b : Int) : List (List Int) × List (List Int) :=
  let s0 := sel25519 (p.getD 0 []) (q.getD 0 []) b
  let s1 := sel25519 (p.getD 1 []) (q.getD 1 []) b
  let s2 := sel25519 (p.getD 2 []) (q.getD 2 []) b
  let s3 := sel25519 (p.getD 3 []) (q.getD 3 []) b
  ([s0.1, s1.1, s2.1, s3.1], [s0.2, s1.2, s2.2, s3.2])

/-- The loop indices of JS `scalarmult`: `for (let i = 255; i >= 0; --i)`. -/
def scalarmultIndices : List Nat := (List.range 256).reverse

/-- One iteration of the JS `scalarmult` loop: extract scalar bit `i`, swap,
`add(q, p)`, double `p` via `add(p, p)`, swap back.  `add(q, p)` runs before
`add(p, p)`, so both read the pre-doubling `p`, as in the source. -/
def scalarmultStep (s : List Nat) (pq : List (List Int) × List (List Int)) (i : Nat) :
    List (List Int) × List (List Int) :=
  let b : Int := (((s.getD (i / 8) 0 >>> (i % 8)) &&& 1 : Nat) : Int)
  let pq1 := cswap pq.1 pq.2 b
  let q2 := add pq1.2 pq1.1
  let p2 := add pq1.1 pq1.1
  cswap p2 q2 b

/-- JS `scalarmult(p, q, s)`: initialize `p` to the neutral element, then run
the double-and-add-with-conditional-swap loop over `scalarmultIndices`.
Returns the final `(p, q)` pair; the product is the first component. -/
def scalarmult (q : List (List Int)) (s : List Nat) :
    List (List Int) × List (List Int) :=
  scalarmultIndices.foldl (scalarmultStep s) ([gf0, gf1, gf1, gf0], q)

/-- JS `scalarbase`: scalar multiple of the base point. -/
def scalarbase (s : List Nat) : List (List Int) × List (List Int) :=
  scalarmult [X, Y, gf1, fnM X Y] s

/-- JS `pack`: project to affine, serialize y, fold the sign of x into the
top bit. -/
def pack (p : List (List Int)) : List Nat :=
  let zi := inv25519 (p.getD 2 [])
  let tx := fnM (p.getD 0 []) zi
  let ty := fnM (p.getD 1 []) zi
  let r := pack25519 ty
  r.set 31 (r.getD 31 0 ^^^ (par25519 tx <<< 7))

/-- One outer iteration (`i` from 63 down to 32) of JS `modL`, with the
running `carry` threaded through the inner loop. -/
def modLOuter (x : List Int) (i : Nat) : List Int :=
  let st := (List.range' (i - 32) 20).foldl
    (fun (st : List Int × Int) j =>
      let x := st.1
      let xj := x.getD j 0 + st.2 - 16 * x.getD i 0 * L.getD (j - (i - 32)) 0
      let carry := Int.fdiv (xj + 128) 256
      (x.set j (xj - carry * 256), carry))
    (x, 0)
  let x2 := st.1.set (i - 12) (st.1.getD (i - 12) 0 + st.2)
  x2.set i 0

/-- JS `modLSub`: final reduction and serialization of the low 32 bytes into
`r` (entries end in [0, 256), so the `toNat` is exact). -/
def modLSub (r : List Nat) (x : List Int) : List Nat :=
  let st := (List.range 32).foldl
    (fun (st : List Int × Int) i =>
      let x := st.1
      let xi := x.getD i 0 + st.2 - jsShrI (x.getD 31 0) 4 * L.getD i 0
      let carry := jsShrI xi 8
      (x.set i (jsAndI xi 255), carry))
    (x, 0)
  let x3 := (List.range 32).foldl (fun x i => x.set i (x.getD i 0 - st.2 * L.getD i 0)) st.1
  let fin := (List.range 32).foldl
    (fun (xr : List Int × List Nat) i =>
      let x := xr.1.set (i + 1) (xr.1.getD (i + 1) 0 + jsShrI (xr.1.getD i 0) 8)
      (x, xr.2.set i (jsAndI (x.getD i 0) 255).toNat))
    (x3, r)
  fin.2

/-- JS `modL`: limb reduction against the group order, then `modLSub`. -/
def modL (r : List Nat) (x : List Int) : List Nat :=
  modLSub r (((List.range' 32 32).reverse).foldl modLOuter x)

/-- JS `reduce`: reduce a 64-byte value modulo the group order in place (the
result's top 32 bytes are the zeroes `arrayFill` wrote). -/
def reduce (r : List Nat) : List Nat :=
  modL (List.replicate 64 0) (r.map fun b => (b : Int))

/-- JS `secretKeyFromSeed`: SHA-512 the seed, clamp, multiply the base point,
pack; secret key = seed ‖ packed public key. -/
def secretKeyFromSeed (seed : List Nat) : List Nat :=
  let d := sha512 seed
  let d := (d.set 0 (d.getD 0 0 &&& 248)).set 31 ((d.getD 31 0 &&& 127) ||| 64)
  arrayConcat seed (pack (scalarbase d).1)

/-- JS `sign(message, secretKey)`: deterministic Ed25519 signing. -/
def signBytes (message secretKey : List Nat) : List Nat :=
  let d := sha512 (arraySlice secretKey 0 32)
  let d := (d.set 0 (d.getD 0 0 &&& 248)).set 31 ((d.getD 31 0 &&& 127) ||| 64)
  let sm := arraySet d message 64 message.length
  let r := reduce (sha512 (sm.drop 32))
  let sm := arraySet sm (pack (scalarbase r).1) 0 32
  let sm := arraySet sm (arraySlice secretKey 32 secretKey.length) 32 32
  let h := reduce (sha512 sm)
  let racc := (List.range 32).foldl (fun acc i =>
      (List.range 32).foldl (fun (acc : List Int) j =>
        acc.set (i + j) (acc.getD (i + j) 0 + (h.getD i 0 : Int) * (d.getD j 0 : Int))) acc)
    (r.map fun b => (b : Int))
  arrayConcat (sm.take 32) ((modL (sm.drop 32) racc).take 32)

/-- JS `cryptoVerify32`: constant-time 32-byte comparison.  `(d - 1) >>> 8`
coerces the possibly negative `d - 1` with ToUint32, which `toUint32`
reproduces. -/
def cryptoVerify32 (x y : List Nat) : Bool :=
  let d := (List.range 32).foldl (fun d i => d ||| (x.getD i 0 ^^^ y.getD i 0)) 0
  1 &&& (toUint32 ((d : Int) - 1) >>> 8) == 1

/-- JS `neq25519` (despite the name: `true` when the packed forms are
equal). -/
def neq25519 (a b : List Int) : Bool := cryptoVerify32 (pack25519 a) (pack25519 b)

/-- JS `unpackneg`: decompress a public key to the negated point; `none`
models the `return false` of the source. -/
def unpackneg (p : List Nat) : Option (List (List Int)) :=
  let r1 := unpack25519 p
  let num := fnM r1 r1
  let den := fnM num D
  let num := fnZ num gf1
  let den := fnA gf1 den
  let den2 := fnM den den
  let den4 := fnM den2 den2
  let den6 := fnM den4 den2
  let t := fnM den6 num
  let t := fnM t den
  let t := pow2523 t
  let t := fnM t num
  let t := fnM t den
  let t := fnM t den
  let r0 := fnM t den
  let chk := fnM r0 r0
  let chk := fnM chk den
  let r0 := if neq25519 chk num = false then fnM r0 I else r0
  let chk2 := fnM r0 r0
  let chk2 := fnM chk2 den
  if neq25519 chk2 num = false then none
  else
    let r0 := if par25519 r0 = (p.getD 31 0 >>> 7) then fnZ gf0 r0 else r0
    some [r0, r1, gf1, fnM r0 r1]

/-- JS `verify(signature, message, pubKey)`. -/
def verifyBytes (signature message pubKey : List Nat) : Bool :=
  match unpackneg (arraySlice pubKey 0 pubKey.length) with
  | none => false
  | some q =>
    let sm := arraySet (arraySet ([] : List Nat) signature 0 signature.length) message 64
      message.length
    let m := arraySet sm pubKey 32 pubKey.length
    let h := reduce (sha512 m)
    let p := (scalarmult q h).1
    let p2 := add p (scalarbase (sm.drop 32)).1
    cryptoVerify32 sm (pack p2)

/-- Propagate an exception raised by a helper out of a mutating method,
recording the state of the entity at the moment of the JS `throw`. -/
def liftErr (ent : α) (r : Except String β) : Except (String × α) β :=
  match r with
  | .ok x => .ok x
  | .error e => .error (e, ent)

/-- The `PublicKey` class: a 32-byte buffer. -/
structure PublicKey where
  bytes : List Nat
deriving DecidableEq

/-- The `PublicKey` constructor: rejects any length other than 32, then
copies the input (`arraySet` into the fresh empty `_bytes`). -/
def PublicKey.create (bytes : List Nat) : Except String PublicKey :=
  if bytes.length ≠ 32 then throw "invalid length"
  else pure ⟨arraySet ([] : List Nat) bytes 0 bytes.length⟩

/-- `PublicKey.getBytes` (a copy in JS; identical as a value). -/
def PublicKey.getBytes (k : PublicKey) : List Nat := k.bytes

/-- `PublicKey.verifySignature`. -/
def PublicKey.verifySignature (k : PublicKey) (signature message : List Nat) :
    Except String Bool :=
  if signature.length ≠ 64 then throw "invalid length"
  else pure (verifyBytes signature message k.bytes)

/-- The `SecretKey` class: a 64-byte buffer. -/
structure SecretKey where
  bytes : List Nat
deriving DecidableEq

/-- The `SecretKey` constructor: rejects any length other than 64. -/
def SecretKey.create (bytes : List Nat) : Except String SecretKey :=
  if bytes.length ≠ 64 then throw "invalid length"
  else pure ⟨arraySet ([] : List Nat) bytes 0 bytes.length⟩

/-- `SecretKey.fromSeed`: seeds of any length other than 32 are first hashed
down with SHA-256. -/
def SecretKey.fromSeed (seed : List Nat) : Except String SecretKey :=
  let entropy := if seed.length ≠ 32 then sha256 seed else seed
  SecretKey.create (secretKeyFromSeed entropy)

/-- `SecretKey.getBytes`. -/
def SecretKey.getBytes (k : SecretKey) : List Nat := k.bytes

/-- `SecretKey.getPublicKey`: the trailing 32 bytes, through the `PublicKey`
constructor. -/
def SecretKey.getPublicKey (k : SecretKey) : Except String PublicKey :=
  PublicKey.create (arraySlice k.bytes 32 64)

/-- `SecretKey.sign`. -/
def SecretKey.sign (k : SecretKey) (message : List Nat) : List Nat :=
  signBytes message k.bytes

/-- The `Address` class: a 34-byte buffer (2-byte version + 32-byte key). -/
structure Address where
  bytes : List Nat
deriving DecidableEq

/-- The zeroed buffer the `Address` constructor allocates before it calls
`setPrefix('umi')`. -/
def Address.blank : Address := ⟨arrayNew 34⟩

/-- `Address.setPrefix` (`Pfx` abbreviates `prefix`). -/
def Address.setPfx (a : Address) (p : List Char) : Except (String × Address) Address := do
  let v ← liftErr a (pfxToVersion p)
  pure ⟨arraySet a.bytes (uint16ToBytes v) 0 2⟩

/-- `new Address()`: zeroed buffer plus `setPrefix('umi')`, which cannot
fail (the error arm is unreachable). -/
def Address.new : Address :=
  match Address.blank.setPfx ['u', 'm', 'i'] with
  | .ok a => a
  | .error pa => pa.2

/-- `Address.fromBech32`. -/
def Address.fromBech32 (bech32 : List Char) : Except String Address := do
  let bs ← bech32Decode bech32
  pure ⟨arraySet Address.new.bytes bs 0 bs.length⟩

/-- `Address.fromBytes`. -/
def Address.fromBytes (bytes : List Nat) : Except String Address :=
  if bytes.length ≠ 34 then throw "length must be 34 bytes"
  else pure ⟨arraySet Address.new.bytes bytes 0 bytes.length⟩

/-- `Address.getBech32`. -/
def Address.getBech32 (a : Address) : Except String (List Char) := bech32Encode a.bytes

/-- `Address.getBytes`. -/
def Address.getBytes (a : Address) : List Nat := a.bytes

/-- `Address.getPrefix`. -/
def Address.getPfx (a : Address) : Except String (List Char) :=
  versionToPfx (bytesToUint16 (arraySlice a.bytes 0 2))

/-- `Address.getPublicKey`. -/
def Address.getPublicKey (a : Address) : Except String PublicKey :=
  PublicKey.create (a.bytes.drop 2)

/-- `Address.setPublicKey` (cannot fail; `Except`-typed for uniformity with
the other mutators). -/
def Address.setPublicKey (a : Address) (publicKey : PublicKey) :
    Except (String × Address) Address :=
  .ok ⟨arraySet a.bytes publicKey.getBytes 2 publicKey.getBytes.length⟩

/-- The `Transaction` class: a 150-byte buffer. -/
structure Transaction where
  bytes : List Nat
deriving DecidableEq

/-- `Transaction.getVersion`. -/
def Transaction.getVersion (tx : Transaction) : Nat := tx.bytes.getD 0 0

/-- `Transaction.checkVersion`: succeed iff the stored version is in the
permitted set (the JS loop over `versions` realizes list membership). -/
def Transaction.checkVersion (tx : Transaction) (versions : List Nat) : Except String Unit :=
  if tx.getVersion ∈ versions then pure () else throw "invalid version"

/-- `Transaction.setVersion`. -/
def Transaction.setVersion (tx : Transaction) (version : JsArg) :
    Except (String × Transaction) Transaction := do
  liftErr tx (validateInt version 0 7)
  pure ⟨tx.bytes.set 0 version.asNat⟩

/-- The zeroed buffer the `Transaction` constructor allocates. -/
def Transaction.blank : Transaction := ⟨arrayNew 150⟩

/-- `new Transaction()`: zeroed buffer plus `setVersion(Transaction.Basic)`,
which cannot fail. -/
def Transaction.new : Transaction :=
  match Transaction.blank.setVersion (.num 1) with
  | .ok t => t
  | .error p => p.2

/-- `Transaction.fromBytes`. -/
def Transaction.fromBytes (bytes : List Nat) : Except String Transaction :=
  if bytes.length ≠ 150 then throw "invalid length"
  else pure ⟨arraySet Transaction.new.bytes bytes 0 bytes.length⟩

/-- `Transaction.getBytes`. -/
def Transaction.getBytes (tx : Transaction) : List Nat := tx.bytes

/-- `Transaction.getHash`. -/
def Transaction.getHash (tx : Transaction) : List Nat := sha256 tx.bytes

/-- `Transaction.getSender`. -/
def Transaction.getSender (tx : Transaction) : Except String Address :=
  Address.fromBytes (arraySlice tx.bytes 1 35)

/-- `Transaction.setSender` (cannot fail). -/
def Transaction.setSender (tx : Transaction) (address : Address) :
    Except (String × Transaction) Transaction :=
  .ok ⟨arraySet tx.bytes address.getBytes 1 34⟩

/-- `Transaction.getRecipient`: versions 0, 1, 4, 5, 6, 7 only. -/
def Transaction.getRecipient (tx : Transaction) : Except String Address := do
  tx.checkVersion [0, 1, 4, 5, 6, 7]
  Address.fromBytes (arraySlice tx.bytes 35 69)

/-- `Transaction.setRecipient`. -/
def Transaction.setRecipient (tx : Transaction) (address : Address) :
    Except (String × Transaction) Transaction := do
  liftErr tx (tx.checkVersion [0, 1, 4, 5, 6, 7])
  pure ⟨arraySet tx.bytes address.getBytes 35 address.getBytes.length⟩

/-- `Transaction.getValue`: versions 0 and 1 only. -/
def Transaction.getValue (tx : Transaction) : Except String Nat := do
  tx.checkVersion [0, 1]
  pure (bytesToUint64 (arraySlice tx.bytes 69 77))

/-- `Transaction.setValue`. -/
def Transaction.setValue (tx : Transaction) (value : JsArg) :
    Except (String × Transaction) Transaction := do
  liftErr tx (tx.checkVersion [0, 1])
  liftErr tx (validateInt value 1 18446744073709551615)
  pure ⟨arraySet tx.bytes (uint64ToBytes value.asNat) 69 8⟩

/-- `Transaction.getNonce`. -/
def Transaction.getNonce (tx : Transaction) : Nat :=
  bytesToUint64 (arraySlice tx.bytes 77 85)

/-- `Transaction.setNonce`. -/
def Transaction.setNonce (tx : Transaction) (nonce : JsArg) :
    Except (String × Transaction) Transaction := do
  liftErr tx (validateInt nonce 0 18446744073709551615)
  pure ⟨arraySet tx.bytes (uint64ToBytes nonce.asNat) 77 8⟩

/-- `Transaction.getSignature`: bytes 85..148. -/
def Transaction.getSignature (tx : Transaction) : List Nat :=
  arraySlice tx.bytes 85 149

/-- `Transaction.setSignature`. -/
def Transaction.setSignature (tx : Transaction) (signature : List Nat) :
    Except (String × Transaction) Transaction :=
  if signature.length ≠ 64 then .error ("invalid length", tx)
  else .ok ⟨arraySet tx.bytes signature 85 signature.length⟩

/-- `Transaction.sign`: stamp the nonce with the current time (`now` models
`new Date().getTime()`), then store the signature over bytes 0..84 of the
nonce-stamped buffer (JS evaluates `this._bytes.slice(0, 85)` after
`setNonce` has run). -/
def Transaction.sign (tx : Transaction) (secretKey : SecretKey) (now : JsArg) :
    Except (String × Transaction) Transaction := do
  let t1 ← tx.setNonce now
  t1.setSignature (secretKey.sign (arraySlice t1.bytes 0 85))

/-- `Transaction.getPrefix`: versions 2 and 3 only. -/
def Transaction.getPfx (tx : Transaction) : Except String (List Char) := do
  tx.checkVersion [2, 3]
  versionToPfx (bytesToUint16 (arraySlice tx.bytes 35 37))

/-- `Transaction.setPrefix`. -/
def Transaction.setPfx (tx : Transaction) (p : List Char) :
    Except (String × Transaction) Transaction := do
  liftErr tx (tx.checkVersion [2, 3])
  let v ← liftErr tx (pfxToVersion p)
  pure ⟨arraySet tx.bytes (uint16ToBytes v) 35 2⟩

/-- `Transaction.getName`: versions 2 and 3; the stored length byte must be
at most 35. -/
def Transaction.getName (tx : Transaction) : Except String (List Char) := do
  tx.checkVersion [2, 3]
  if tx.bytes.getD 41 0 > 35 then throw "invalid length"
  pure (textDecode (arraySlice tx.bytes 42 (42 + tx.bytes.getD 41 0)))

/-- `Transaction.setName`: encode, reject over-long names, zero the whole
name region, write the bytes, then the length byte. -/
def Transaction.setName (tx : Transaction) (name : List Char) :
    Except (String × Transaction) Transaction := do
  liftErr tx (tx.checkVersion [2, 3])
  let bs := textEncode name
  if bs.length > 35 then throw ("name is too long", tx)
  let b1 := arraySet tx.bytes (arrayNew 36) 41 36
  let b2 := arraySet b1 bs 42 bs.length
  pure ⟨b2.set 41 bs.length⟩

/-- `Transaction.getProfitPercent`: versions 2 and 3 only. -/
def Transaction.getProfitPercent (tx : Transaction) : Except String Nat := do
  tx.checkVersion [2, 3]
  pure (bytesToUint16 (arraySlice tx.bytes 37 39))

/-- `Transaction.setProfitPercent`. -/
def Transaction.setProfitPercent (tx : Transaction) (percent : JsArg) :
    Except (String × Transaction) Transaction := do
  liftErr tx (tx.checkVersion [2, 3])
  liftErr tx (validateInt percent 100 500)
  pure ⟨arraySet tx.bytes (uint16ToBytes percent.asNat) 37 2⟩

/-- `Transaction.getFeePercent`: versions 2 and 3 only. -/
def Transaction.getFeePercent (tx : Transaction) : Except String Nat := do
  tx.checkVersion [2, 3]
  pure (bytesToUint16 (arraySlice tx.bytes 39 41))

/-- `Transaction.setFeePercent`. -/
def Transaction.setFeePercent (tx : Transaction) (percent : JsArg) :
    Except (String × Transaction) Transaction := do
  liftErr tx (tx.checkVersion [2, 3])
  liftErr tx (validateInt percent 0 2000)
  pure ⟨arraySet tx.bytes (uint16ToBytes percent.asNat) 39 2⟩

/-- `Transaction.verify`. -/
def Transaction.verify (tx : Transaction) : Except String Bool := do
  let sender ← tx.getSender
  let pk ← sender.getPublicKey
  pk.verifySignature tx.getSignature (arraySlice tx.bytes 0 85)

/-- A call to one of the two point routines the `scalarmult` loop body uses.
`sel25519` (inside `cswap`) is branch-free: it always executes, with the bit
only driving its masks, so a `cswap` call appears in the trace for either bit
value. -/
inductive CurveOp where
  | cswapOp
  | addOp
deriving DecidableEq

/-- `scalarmultStep` instrumented with the sequence of point-routine calls it
performs, in source order (`cswap`, `add(q, p)`, `add(p, p)`, `cswap`).  The
state component repeats `scalarmultStep`'s body verbatim. -/
def scalarmultStepT (s : List Nat) (pq : List (List Int) × List (List Int)) (i : Nat) :
    (List (List Int) × List (List Int)) × List CurveOp :=
  let b : Int := (((s.getD (i / 8) 0 >>> (i % 8)) &&& 1 : Nat) : Int)
  let pq1 := cswap pq.1 pq.2 b
  let q2 := add pq1.2 pq1.1
  let p2 := add pq1.1 pq1.1
  (cswap p2 q2 b, [.cswapOp, .addOp, .addOp, .cswapOp])

/-- `scalarmult` instrumented with the concatenated trace of all its loop
iterations. -/
def scalarmultT (q : List (List Int)) (s : List Nat) :
    (List (List Int) × List (List Int)) × List CurveOp :=
  scalarmultIndices.foldl
    (fun st i =>
      let r := scalarmultStepT s st.1 i
      (r.1, st.2 ++ r.2))
    (([gf0, gf1, gf1, gf0], q), [])

/-- One mutating call on a `Transaction`, with its JS arguments. -/
inductive TxOp where
  | opSetVersion (version : JsArg)
  | opSetSender (address : Address)
  | opSetRecipient (address : Address)
  | opSetValue (value : JsArg)
  | opSetNonce (nonce : JsArg)
  | opSetSignature (signature : List Nat)
  | opSetPfx (p : List Char)
  | opSetName (name : List Char)
  | opSetProfitPercent (percent : JsArg)
  | opSetFeePercent (percent : JsArg)
  | opSign (secretKey : SecretKey) (now : JsArg)

/-- The transaction a mutating call leaves behind: on success the updated
transaction, on a JS throw the state the failed call left (the buffer the
error value carries). -/
def orKeep (r : Except (String × Transaction) Transaction) : Transaction :=
  match r with
  | .ok t => t
  | .error p => p.2

/-- Run one mutating call. -/
def TxOp.apply (tx : Transaction) : TxOp → Transaction
  | .opSetVersion v => orKeep (tx.setVersion v)
  | .opSetSender a => orKeep (tx.setSender a)
  | .opSetRecipient a => orKeep (tx.setRecipient a)
  | .opSetValue v => orKeep (tx.setValue v)
  | .opSetNonce v => orKeep (tx.setNonce v)
  | .opSetSignature sg => orKeep (tx.setSignature sg)
  | .opSetPfx p => orKeep (tx.setPfx p)
  | .opSetName n => orKeep (tx.setName n)
  | .opSetProfitPercent v => orKeep (tx.setProfitPercent v)
  | .opSetFeePercent v => orKeep (tx.setFeePercent v)
  | .opSign k now => orKeep (tx.sign k now)

/-- A sequence of mutating calls, applied left to right. -/
def applyOps (tx : Transaction) (ops : List TxOp) : Transaction :=
  ops.foldl TxOp.apply tx

/-- Arguments a `TxOp` can receive from the library's own API: `Address`
objects always hold exactly 34 bytes (every `Address` constructor path
enforces it), which matters only for `setRecipient`, whose write length is
the address buffer's length. -/
def TxOp.wfArgs : TxOp → Prop
  | .opSetRecipient a => a.bytes.length = 34
  | _ => True

/-- The version values `versionToPfx` accepts, phrased in its own terms:
0 (genesis), or a value up to 0xFFFF with the high bit clear whose three
5-bit groups are letter codes 1..26. -/
def validVersionVal (v : Nat) : Prop :=
  v = 0 ∨ (v ≤ 65535 ∧ v &&& 0x8000 = 0 ∧
    (1 ≤ (v &&& 0x7C00) >>> 10 ∧ (v &&& 0x7C00) >>> 10 ≤ 26) ∧
    (1 ≤ (v &&& 0x03E0) >>> 5 ∧ (v &&& 0x03E0) >>> 5 ≤ 26) ∧
    (1 ≤ v &&& 0x001F ∧ v &&& 0x001F ≤ 26))

instance : DecidablePred validVersionVal := fun v => by
  unfold validVersionVal; infer_instance

/-- Big-endian base-256 value of a byte list (proof-layer measure for the
`convert8to5`/`convert5to8` pair). -/
def toNat8 (bs : List Nat) : Nat := bs.foldl (fun acc b => acc * 256 + b) 0

/-- Big-endian base-32 value of a 5-bit-group list (proof-layer measure). -/
def toNat5 (vs : List Nat) : Nat := vs.foldl (fun acc v => acc * 32 + v) 0

/-! ### General lemmas about the array helpers -/

theorem except_bind_ok (x : α) (f : α → Except ε β) :
    (Except.ok x >>= f : Except ε β) = f x := rfl

theorem except_bind_error (e : ε) (f : α → Except ε β) :
    (Except.error e >>= f : Except ε β) = Except.error e := rfl

theorem except_pure_eq (x : α) : (pure x : Except ε α) = Except.ok x := rfl

theorem except_throw_eq (e : ε) : (throw e : Except ε α) = Except.error e := rfl

theorem getD_map_range (f : Nat → α) (n i : Nat) (d : α) :
    ((List.range n).map f).getD i d = if i < n then f i else d := by
  by_cases h : i < n
  · simp [List.getD_eq_getElem?_getD, List.getElem?_range, h]
  · have : n ≤ i := by omega
    simp [List.getD_eq_getElem?_getD, List.getElem?_eq_none
      (by simpa using this : (List.map f (List.range n)).length ≤ i), h]

theorem arraySet_length [Inhabited α] (a b : List α) (o l : Nat) :
    (arraySet a b o l).length = max a.length (o + l) := by
  simp [arraySet]

theorem arraySet_getD [Inhabited α] (a b : List α) (o l i : Nat)
    (hi : i < max a.length (o + l)) :
    (arraySet a b o l).getD i default =
      if o ≤ i ∧ i < o + l then b.getD (i - o) default else a.getD i default := by
  unfold arraySet
  rw [getD_map_range]
  simp [hi]

theorem arraySet_getD_out [Inhabited α] (a b : List α) (o l i : Nat)
    (h : i < o ∨ o + l ≤ i) :
    (arraySet a b o l).getD i default = a.getD i default := by
  by_cases hi : i < max a.length (o + l)
  · rw [arraySet_getD a b o l i hi]
    have : ¬(o ≤ i ∧ i < o + l) := by omega
    simp [this]
  · have h1 : (arraySet a b o l).length ≤ i := by
      rw [arraySet_length]; omega
    have h2 : a.length ≤ i := by omega
    rw [List.getD_eq_default _ _ h1, List.getD_eq_default _ _ h2]

theorem arraySet_getD_in [Inhabited α] (a b : List α) (o l i : Nat)
    (h1 : o ≤ i) (h2 : i < o + l) :
    (arraySet a b o l).getD i default = b.getD (i - o) default := by
  have hi : i < max a.length (o + l) := by omega
  rw [arraySet_getD a b o l i hi]
  simp [h1, h2]

theorem arraySet_getD_out0 (a b : List Nat) (o l i : Nat)
    (h : i < o ∨ o + l ≤ i) :
    (arraySet a b o l).getD i 0 = a.getD i 0 := arraySet_getD_out a b o l i h

theorem arraySet_getD_in0 (a b : List Nat) (o l i : Nat)
    (h1 : o ≤ i) (h2 : i < o + l) :
    (arraySet a b o l).getD i 0 = b.getD (i - o) 0 := arraySet_getD_in a b o l i h1 h2

theorem arraySlice_length (a : List α) (b e : Nat) :
    (arraySlice a b e).length = min e a.length - b := by
  simp [arraySlice]

theorem arraySlice_getD [Inhabited α] (a : List α) (b e i : Nat)
    (h : b + i < e) :
    (arraySlice a b e).getD i default = a.getD (b + i) default := by
  unfold arraySlice
  by_cases hlen : b + i < a.length
  · have h1 : i < ((a.take e).drop b).length := by
      simp only [List.length_drop, List.length_take]; omega
    have h2 : b + i < (a.take e).length := by
      simp only [List.length_take]; omega
    rw [List.getD_eq_getElem _ _ h1, List.getD_eq_getElem _ _ hlen]
    rw [List.getElem_drop, List.getElem_take]
  · have h1 : ((a.take e).drop b).length ≤ i := by
      simp only [List.length_drop, List.length_take]; omega
    rw [List.getD_eq_default _ _ h1, List.getD_eq_default _ _ (by omega)]

/-- A list is recovered from its `getD` reads at indices below its length. -/
theorem eq_map_range_getD [Inhabited α] (b : List α) :
    (List.range b.length).map (fun k => b.getD k default) = b := by
  apply List.ext_getElem
  · simp
  · intro i h1 h2
    rw [List.getElem_map, List.getElem_range, List.getD_eq_getElem b default h2]

theorem arraySlice_arraySet [Inhabited α] (a b : List α) (o : Nat) :
    arraySlice (arraySet a b o b.length) o (o + b.length) = b := by
  apply List.ext_getElem
  · simp only [arraySlice_length, arraySet_length, List.length_drop, List.length_take]
    omega
  · intro i h1 h2
    have hlen : i < (arraySlice (arraySet a b o b.length) o (o + b.length)).length := h1
    rw [← List.getD_eq_getElem _ default h1, ← List.getD_eq_getElem _ default h2]
    rw [arraySlice_getD _ _ _ _ (by omega)]
    rw [arraySet_getD_in _ _ _ _ _ (by omega) (by omega)]
    congr 1
    omega

/-! ### Bitwise-to-arithmetic bridges -/

theorem and_two_pow_sub_one' (x n : Nat) : x &&& (2 ^ n - 1) = x % 2 ^ n := by
  have := Nat.and_pow_two_sub_one_eq_mod x n
  omega

theorem and_255 (x : Nat) : x &&& 255 = x % 256 := by
  have := and_two_pow_sub_one' x 8; norm_num at this; exact this

theorem and_mask24 (x : Nat) : x &&& 16777215 = x % 16777216 := by
  have := and_two_pow_sub_one' x 24; norm_num at this; exact this

theorem and_mask16 (x : Nat) : x &&& 65535 = x % 65536 := by
  have := and_two_pow_sub_one' x 16; norm_num at this; exact this

theorem and_mask5 (x : Nat) : x &&& 31 = x % 32 := by
  have := and_two_pow_sub_one' x 5; norm_num at this; exact this

theorem and_mask25 (x : Nat) : x &&& 33554431 = x % 33554432 := by
  have := and_two_pow_sub_one' x 25; norm_num at this; exact this

/-- Big-endian 8-byte serialization of a value below 2^64 round-trips. -/
theorem uint64_roundtrip (v : Nat) (hv : v < 2 ^ 64) :
    bytesToUint64 (uint64ToBytes v) = v := by
  unfold uint64ToBytes bytesToUint64
  simp only [Nat.shiftRight_eq_div_pow, Nat.shiftLeft_eq, and_255, and_mask24,
    List.getD_cons_zero, List.getD_cons_succ]
  norm_num
  omega

/-! ### `validateInt` on internally produced naturals -/

theorem validateInt_natCast (v : Nat) (mn mx : ℚ) (h1 : mn ≤ (v : ℚ)) (h2 : (v : ℚ) ≤ mx) :
    validateInt (.num (v : ℚ)) mn mx = .ok () := by
  simp only [validateInt, ne_eq]
  rw [if_neg (by simp [Int.floor_natCast])]
  rw [if_neg (by push_neg; exact ⟨h1, h2⟩)]
  rfl

theorem jsArg_asNat_natCast (v : Nat) : (JsArg.num (v : ℚ)).asNat = v := by
  simp [JsArg.asNat]

/-! ### Claim C5: value and nonce range checks and round-trips -/

theorem checkVersion_ok (tx : Transaction) (vs : List Nat) (h : tx.getVersion ∈ vs) :
    tx.checkVersion vs = .ok () := by
  simp [Transaction.checkVersion, h, except_pure_eq]

theorem setValue_ok (tx : Transaction) (v : Nat)
    (hver : tx.getVersion = 0 ∨ tx.getVersion = 1)
    (h1 : 1 ≤ v) (h2 : v ≤ 18446744073709551615) :
    tx.setValue (.num (v : ℚ)) =
      .ok ⟨arraySet tx.bytes (uint64ToBytes v) 69 8⟩ := by
  have hcv : tx.checkVersion [0, 1] = .ok () := by
    apply checkVersion_ok; rcases hver with h | h <;> simp [h]
  have hvi : validateInt (.num (v : ℚ)) 1 18446744073709551615 = .ok () := by
    apply validateInt_natCast <;> [exact_mod_cast h1; exact_mod_cast h2]
  simp [Transaction.setValue, hcv, hvi, liftErr, jsArg_asNat_natCast, except_bind_ok,
    except_pure_eq]

theorem getValue_after_set (tx : Transaction) (v : Nat)
    (hver : tx.getVersion = 0 ∨ tx.getVersion = 1)
    (hv : v < 2 ^ 64) :
    (Transaction.mk (arraySet tx.bytes (uint64ToBytes v) 69 8)).getValue = .ok v := by
  have hver2 : (Transaction.mk (arraySet tx.bytes (uint64ToBytes v) 69 8)).getVersion
      = tx.getVersion := by
    show (arraySet tx.bytes (uint64ToBytes v) 69 8).getD 0 0 = tx.bytes.getD 0 0
    exact arraySet_getD_out _ _ _ _ _ (by omega)
  have hcv : (Transaction.mk (arraySet tx.bytes (uint64ToBytes v) 69 8)).checkVersion [0, 1]
      = .ok () := by
    apply checkVersion_ok; rw [hver2]; rcases hver with h | h <;> simp [h]
  have hlen : (uint64ToBytes v).length = 8 := by rfl
  have hsl : arraySlice (arraySet tx.bytes (uint64ToBytes v) 69 8) 69 77 = uint64ToBytes v := by
    have := arraySlice_arraySet tx.bytes (uint64ToBytes v) 69
    rwa [hlen] at this
  simp [Transaction.getValue, hcv, hsl, uint64_roundtrip v hv]

/-- C5: for every integer `v` with `1 ≤ v ≤ 2^64 − 1`, `setValue(v)` on a
Basic or Genesis transaction succeeds and `getValue()` then returns exactly
`v`; `setNonce`/`getNonce` likewise for `0 ≤ v ≤ 2^64 − 1` (on any version);
arguments outside the range, non-integer numbers, and non-number arguments
all raise an error. -/
theorem c5_value_nonce_roundtrip :
    (∀ (tx : Transaction) (v : Nat), tx.getVersion = 0 ∨ tx.getVersion = 1 →
      1 ≤ v → v ≤ 18446744073709551615 →
      ∃ tx2, tx.setValue (.num (v : ℚ)) = .ok tx2 ∧ tx2.getValue = .ok v) ∧
    (∀ (tx : Transaction) (v : Nat), v ≤ 18446744073709551615 →
      ∃ tx2, tx.setNonce (.num (v : ℚ)) = .ok tx2 ∧ tx2.getNonce = v) ∧
    (∀ (tx : Transaction) (q : ℚ), tx.getVersion = 0 ∨ tx.getVersion = 1 →
      (q < 1 ∨ 18446744073709551615 < q) →
      tx.setValue (.num q) = .error ("invalid value", tx) ∨
      tx.setValue (.num q) = .error ("invalid integer", tx)) ∧
    (∀ (tx : Transaction) (q : ℚ), (⌊q⌋ : ℚ) ≠ q →
      tx.setNonce (.num q) = .error ("invalid integer", tx)) ∧
    (∀ tx : Transaction, tx.setNonce .other = .error ("invalid type", tx)) := by
  refine ⟨?_, ?_, ?_, ?_, ?_⟩
  · intro tx v hver h1 h2
    refine ⟨_, setValue_ok tx v hver h1 h2, ?_⟩
    exact getValue_after_set tx v hver (by omega)
  · intro tx v h2
    have hvi : validateInt (.num (v : ℚ)) 0 18446744073709551615 = .ok () := by
      apply validateInt_natCast
      · positivity
      · exact_mod_cast h2
    refine ⟨⟨arraySet tx.bytes (uint64ToBytes v) 77 8⟩, ?_, ?_⟩
    · simp [Transaction.setNonce, hvi, liftErr, jsArg_asNat_natCast, except_bind_ok,
        except_pure_eq]
    · have hlen : (uint64ToBytes v).length = 8 := by rfl
      have hsl : arraySlice (arraySet tx.bytes (uint64ToBytes v) 77 8) 77 85
          = uint64ToBytes v := by
        have := arraySlice_arraySet tx.bytes (uint64ToBytes v) 77
        rwa [hlen] at this
      simp [Transaction.getNonce, hsl]
      exact uint64_roundtrip v (by omega)
  · intro tx q hver hout
    have hcv : tx.checkVersion [0, 1] = .ok () := by
      apply checkVersion_ok; rcases hver with h | h <;> simp [h]
    by_cases hint : (⌊q⌋ : ℚ) ≠ q
    · right
      simp [Transaction.setValue, hcv, liftErr, validateInt, hint, except_bind_ok,
        except_bind_error, except_throw_eq]
    · left
      simp only [not_not] at hint
      simp [Transaction.setValue, hcv, liftErr, validateInt, hint, hout, except_bind_ok,
        except_bind_error, except_throw_eq]
  · intro tx q hint
    simp [Transaction.setNonce, liftErr, validateInt, hint, except_bind_ok,
      except_bind_error, except_throw_eq]
  · intro tx
    simp [Transaction.setNonce, liftErr, validateInt, except_bind_ok,
      except_bind_error, except_throw_eq]

/-- Witness for C5 at concrete inputs. -/
theorem c5_value_nonce_roundtrip_witness :
    (∃ tx2, Transaction.new.setValue (.num ((42 : Nat) : ℚ)) = .ok tx2 ∧
      tx2.getValue = .ok 42) ∧
    Transaction.new.setNonce (.num (1 / 2 : ℚ)) =
      .error ("invalid integer", Transaction.new) := by
  constructor
  · exact c5_value_nonce_roundtrip.1 Transaction.new 42 (by right; rfl) (by omega) (by omega)
  · exact c5_value_nonce_roundtrip.2.2.2.1 Transaction.new (1 / 2) (by norm_num)

/-! ### Claim C4: version gating -/

theorem checkVersion_err (tx : Transaction) (vs : List Nat) (h : tx.getVersion ∉ vs) :
    tx.checkVersion vs = .error "invalid version" := by
  simp [Transaction.checkVersion, h, except_throw_eq]

theorem validateIntNat_ok (v mn mx : Nat) (h1 : mn ≤ v) (h2 : v ≤ mx) :
    validateIntNat v mn mx = .ok () := by
  unfold validateIntNat
  rw [if_neg (by omega)]
  rfl

theorem checkPfxChars_ok (xs : List Int) (h : ∀ x ∈ xs, 1 ≤ x ∧ x ≤ 26) :
    checkPfxChars xs = .ok () := by
  induction xs with
  | nil => rfl
  | cons x rest ih =>
    have hx := h x (by simp)
    unfold checkPfxChars
    rw [if_neg (by omega)]
    exact ih fun y hy => h y (by simp [hy])

theorem versionToPfx_zero : versionToPfx 0 = .ok genesisPfx := rfl

theorem versionToPfx_ok_pos (v : Nat) (h : validVersionVal v) (hv : v ≠ 0) :
    versionToPfx v = .ok [Char.ofNat (((v &&& 0x7C00) >>> 10) + 96),
      Char.ofNat (((v &&& 0x03E0) >>> 5) + 96), Char.ofNat ((v &&& 0x001F) + 96)] := by
  rcases h with h0 | ⟨hle, h8, ha, hb, hc⟩
  · exact absurd h0 hv
  unfold versionToPfx
  rw [validateIntNat_ok v 0 65535 (by omega) hle, except_bind_ok]
  rw [if_neg hv, if_neg (by omega)]
  have hch : checkPfxChars [(((v &&& 0x7C00) >>> 10 : Nat) : Int),
      (((v &&& 0x03E0) >>> 5 : Nat) : Int), ((v &&& 0x001F : Nat) : Int)] = .ok () := by
    apply checkPfxChars_ok
    intro x hx
    simp only [List.mem_cons, List.not_mem_nil, or_false] at hx
    rcases hx with rfl | rfl | rfl <;> omega
  simp only [hch, except_bind_ok, except_pure_eq]

theorem versionToPfx_ok_of_valid (v : Nat) (h : validVersionVal v) :
    ∃ p, versionToPfx v = .ok p := by
  by_cases hv : v = 0
  · subst hv; exact ⟨genesisPfx, versionToPfx_zero⟩
  · exact ⟨_, versionToPfx_ok_pos v h hv⟩

/-- C4: version gating is enforced on every get and every set.  With version
CreateStructure (2): the value and recipient accessors raise the
invalid-version error (gets and sets alike, whatever the argument) while
`getPrefix`, `getName`, `getProfitPercent` and `getFeePercent` succeed (the
latter two unconditionally; `getName` whenever the stored length byte is
legal, `getPrefix` whenever the stored prefix code is legal — both hold for
every transaction built through the library's setters).  With version Basic
(1) the converse: value and recipient accessors succeed and every
structure-field accessor raises the invalid-version error. -/
theorem c4_version_gating :
    (∀ tx : Transaction, tx.getVersion = 2 →
      tx.getValue = .error "invalid version" ∧
      (∀ v, tx.setValue v = .error ("invalid version", tx)) ∧
      tx.getRecipient = .error "invalid version" ∧
      (∀ a, tx.setRecipient a = .error ("invalid version", tx)) ∧
      (∃ n, tx.getProfitPercent = .ok n) ∧
      (∃ n, tx.getFeePercent = .ok n) ∧
      (tx.bytes.getD 41 0 ≤ 35 → ∃ s, tx.getName = .ok s) ∧
      (validVersionVal (bytesToUint16 (arraySlice tx.bytes 35 37)) →
        ∃ p, tx.getPfx = .ok p)) ∧
    (∀ tx : Transaction, tx.getVersion = 1 →
      (∃ n, tx.getValue = .ok n) ∧
      (tx.bytes.length = 150 → ∃ a, tx.getRecipient = .ok a) ∧
      (∀ v : Nat, 1 ≤ v → v ≤ 18446744073709551615 →
        ∃ tx2, tx.setValue (.num (v : ℚ)) = .ok tx2) ∧
      (∀ a : Address, ∃ tx2, tx.setRecipient a = .ok tx2) ∧
      tx.getPfx = .error "invalid version" ∧
      (∀ p, tx.setPfx p = .error ("invalid version", tx)) ∧
      tx.getName = .error "invalid version" ∧
      (∀ n, tx.setName n = .error ("invalid version", tx)) ∧
      tx.getProfitPercent = .error "invalid version" ∧
      (∀ v, tx.setProfitPercent v = .error ("invalid version", tx)) ∧
      tx.getFeePercent = .error "invalid version" ∧
      (∀ v, tx.setFeePercent v = .error ("invalid version", tx))) := by
  constructor
  · intro tx h2
    have herr : tx.checkVersion [0, 1] = .error "invalid version" :=
      checkVersion_err tx _ (by simp [h2])
    have herr2 : tx.checkVersion [0, 1, 4, 5, 6, 7] = .error "invalid version" :=
      checkVersion_err tx _ (by simp [h2])
    have hok : tx.checkVersion [2, 3] = .ok () := checkVersion_ok tx _ (by simp [h2])
    refine ⟨?_, ?_, ?_, ?_, ?_, ?_, ?_, ?_⟩
    · simp [Transaction.getValue, herr, except_bind_error]
    · intro v
      simp [Transaction.setValue, herr, liftErr, except_bind_error]
    · simp [Transaction.getRecipient, herr2, except_bind_error]
    · intro a
      simp [Transaction.setRecipient, herr2, liftErr, except_bind_error]
    · refine ⟨bytesToUint16 (arraySlice tx.bytes 37 39), ?_⟩
      simp [Transaction.getProfitPercent, hok, except_bind_ok, except_pure_eq]
    · refine ⟨bytesToUint16 (arraySlice tx.bytes 39 41), ?_⟩
      simp [Transaction.getFeePercent, hok, except_bind_ok, except_pure_eq]
    · intro hn
      refine ⟨textDecode (arraySlice tx.bytes 42 (42 + tx.bytes.getD 41 0)), ?_⟩
      simp only [Transaction.getName, hok, except_bind_ok]
      rw [if_neg (by omega)]
      rfl
    · intro hval
      obtain ⟨p, hp⟩ := versionToPfx_ok_of_valid _ hval
      exact ⟨p, by simp [Transaction.getPfx, hok, except_bind_ok, hp]⟩
  · intro tx h1
    have hok : tx.checkVersion [0, 1] = .ok () := checkVersion_ok tx _ (by simp [h1])
    have hok2 : tx.checkVersion [0, 1, 4, 5, 6, 7] = .ok () :=
      checkVersion_ok tx _ (by simp [h1])
    have herr : tx.checkVersion [2, 3] = .error "invalid version" :=
      checkVersion_err tx _ (by simp [h1])
    refine ⟨?_, ?_, ?_, ?_, ?_, ?_, ?_, ?_, ?_, ?_, ?_, ?_⟩
    · refine ⟨bytesToUint64 (arraySlice tx.bytes 69 77), ?_⟩
      simp [Transaction.getValue, hok, except_bind_ok, except_pure_eq]
    · intro hlen
      refine ⟨⟨arraySet Address.new.bytes (arraySlice tx.bytes 35 69) 0
        (arraySlice tx.bytes 35 69).length⟩, ?_⟩
      simp only [Transaction.getRecipient, hok2, except_bind_ok, Address.fromBytes]
      rw [if_neg (by rw [arraySlice_length, hlen]; norm_num)]
      rfl
    · intro v hv1 hv2
      exact ⟨_, setValue_ok tx v (Or.inr h1) hv1 hv2⟩
    · intro a
      refine ⟨⟨arraySet tx.bytes a.getBytes 35 a.getBytes.length⟩, ?_⟩
      simp [Transaction.setRecipient, hok2, liftErr, except_bind_ok, except_pure_eq]
    · simp [Transaction.getPfx, herr, except_bind_error]
    · intro p
      simp [Transaction.setPfx, herr, liftErr, except_bind_error]
    · simp [Transaction.getName, herr, except_bind_error]
    · intro n
      simp [Transaction.setName, herr, liftErr, except_bind_error]
    · simp [Transaction.getProfitPercent, herr, except_bind_error]
    · intro v
      simp [Transaction.setProfitPercent, herr, liftErr, except_bind_error]
    · simp [Transaction.getFeePercent, herr, except_bind_error]
    · intro v
      simp [Transaction.setFeePercent, herr, liftErr, except_bind_error]

/-- Witness for C4 at concrete transactions. -/
theorem c4_version_gating_witness :
    (Transaction.mk ((arrayNew 150).set 0 2)).getValue = .error "invalid version" ∧
    (∃ n, (Transaction.mk ((arrayNew 150).set 0 2)).getProfitPercent = .ok n) ∧
    Transaction.new.getPfx = .error "invalid version" ∧
    (∃ n, Transaction.new.getValue = .ok n) := by
  refine ⟨?_, ?_, ?_, ?_⟩
  · exact (c4_version_gating.1 _ (by decide)).1
  · exact (c4_version_gating.1 _ (by decide)).2.2.2.2.1
  · exact (c4_version_gating.2 Transaction.new (by decide)).2.2.2.2.1
  · exact (c4_version_gating.2 Transaction.new (by decide)).1

/-! ### Claim C8: failed setters leave the buffer untouched -/

theorem setValue_atomic (tx : Transaction) (v : JsArg) (e : String) (tx2 : Transaction)
    (h : tx.setValue v = .error (e, tx2)) : tx2 = tx := by
  unfold Transaction.setValue at h
  cases hcv : tx.checkVersion [0, 1] <;> rw [hcv] at h <;>
    simp only [liftErr, except_bind_error, except_bind_ok] at h
  case error e1 =>
    simp only [Except.error.injEq, Prod.mk.injEq] at h
    exact h.2.symm
  case ok u =>
    cases hvi : validateInt v 1 18446744073709551615 <;> rw [hvi] at h <;>
      simp only [liftErr, except_bind_error, except_bind_ok, except_pure_eq] at h
    case error e1 =>
      simp only [Except.error.injEq, Prod.mk.injEq] at h
      exact h.2.symm
    case ok u2 => simp at h

theorem setVersion_atomic (tx : Transaction) (v : JsArg) (e : String) (tx2 : Transaction)
    (h : tx.setVersion v = .error (e, tx2)) : tx2 = tx := by
  unfold Transaction.setVersion at h
  cases hvi : validateInt v 0 7 <;> rw [hvi] at h <;>
    simp only [liftErr, except_bind_error, except_bind_ok, except_pure_eq] at h
  case error e1 =>
    simp only [Except.error.injEq, Prod.mk.injEq] at h
    exact h.2.symm
  case ok u => simp at h

theorem setNonce_atomic (tx : Transaction) (v : JsArg) (e : String) (tx2 : Transaction)
    (h : tx.setNonce v = .error (e, tx2)) : tx2 = tx := by
  unfold Transaction.setNonce at h
  cases hvi : validateInt v 0 18446744073709551615 <;> rw [hvi] at h <;>
    simp only [liftErr, except_bind_error, except_bind_ok, except_pure_eq] at h
  case error e1 =>
    simp only [Except.error.injEq, Prod.mk.injEq] at h
    exact h.2.symm
  case ok u => simp at h

theorem setSignature_atomic (tx : Transaction) (sg : List Nat) (e : String)
    (tx2 : Transaction) (h : tx.setSignature sg = .error (e, tx2)) : tx2 = tx := by
  unfold Transaction.setSignature at h
  by_cases hl : sg.length ≠ 64
  · rw [if_pos hl] at h
    simp only [Except.error.injEq, Prod.mk.injEq] at h
    exact h.2.symm
  · rw [if_neg hl] at h
    simp at h

theorem setPfx_atomic (tx : Transaction) (p : List Char) (e : String) (tx2 : Transaction)
    (h : tx.setPfx p = .error (e, tx2)) : tx2 = tx := by
  unfold Transaction.setPfx at h
  cases hcv : tx.checkVersion [2, 3] <;> rw [hcv] at h <;>
    simp only [liftErr, except_bind_error, except_bind_ok] at h
  case error e1 =>
    simp only [Except.error.injEq, Prod.mk.injEq] at h
    exact h.2.symm
  case ok u =>
    cases hpv : pfxToVersion p <;> rw [hpv] at h <;>
      simp only [liftErr, except_bind_error, except_bind_ok, except_pure_eq] at h
    case error e1 =>
      simp only [Except.error.injEq, Prod.mk.injEq] at h
      exact h.2.symm
    case ok v => simp at h

theorem setName_atomic (tx : Transaction) (name : List Char) (e : String)
    (tx2 : Transaction) (h : tx.setName name = .error (e, tx2)) : tx2 = tx := by
  unfold Transaction.setName at h
  cases hcv : tx.checkVersion [2, 3] <;> rw [hcv] at h <;>
    simp only [liftErr, except_bind_error, except_bind_ok] at h
  case error e1 =>
    simp only [Except.error.injEq, Prod.mk.injEq] at h
    exact h.2.symm
  case ok u =>
    by_cases hl : (textEncode name).length > 35
    · rw [if_pos hl] at h
      simp only [except_throw_eq, except_bind_error, Except.error.injEq, Prod.mk.injEq] at h
      exact h.2.symm
    · rw [if_neg hl] at h
      simp [except_pure_eq, except_bind_ok] at h

theorem setProfitPercent_atomic (tx : Transaction) (v : JsArg) (e : String)
    (tx2 : Transaction) (h : tx.setProfitPercent v = .error (e, tx2)) : tx2 = tx := by
  unfold Transaction.setProfitPercent at h
  cases hcv : tx.checkVersion [2, 3] <;> rw [hcv] at h <;>
    simp only [liftErr, except_bind_error, except_bind_ok] at h
  case error e1 =>
    simp only [Except.error.injEq, Prod.mk.injEq] at h
    exact h.2.symm
  case ok u =>
    cases hvi : validateInt v 100 500 <;> rw [hvi] at h <;>
      simp only [liftErr, except_bind_error, except_bind_ok, except_pure_eq] at h
    case error e1 =>
      simp only [Except.error.injEq, Prod.mk.injEq] at h
      exact h.2.symm
    case ok u2 => simp at h

theorem setFeePercent_atomic (tx : Transaction) (v : JsArg) (e : String)
    (tx2 : Transaction) (h : tx.setFeePercent v = .error (e, tx2)) : tx2 = tx := by
  unfold Transaction.setFeePercent at h
  cases hcv : tx.checkVersion [2, 3] <;> rw [hcv] at h <;>
    simp only [liftErr, except_bind_error, except_bind_ok] at h
  case error e1 =>
    simp only [Except.error.injEq, Prod.mk.injEq] at h
    exact h.2.symm
  case ok u =>
    cases hvi : validateInt v 0 2000 <;> rw [hvi] at h <;>
      simp only [liftErr, except_bind_error, except_bind_ok, except_pure_eq] at h
    case error e1 =>
      simp only [Except.error.injEq, Prod.mk.injEq] at h
      exact h.2.symm
    case ok u2 => simp at h

theorem setRecipient_atomic (tx : Transaction) (a : Address) (e : String)
    (tx2 : Transaction) (h : tx.setRecipient a = .error (e, tx2)) : tx2 = tx := by
  unfold Transaction.setRecipient at h
  cases hcv : tx.checkVersion [0, 1, 4, 5, 6, 7] <;> rw [hcv] at h <;>
    simp only [liftErr, except_bind_error, except_bind_ok, except_pure_eq] at h
  case error e1 =>
    simp only [Except.error.injEq, Prod.mk.injEq] at h
    exact h.2.symm
  case ok u => simp at h

theorem addressSetPfx_atomic (a : Address) (p : List Char) (e : String) (a2 : Address)
    (h : a.setPfx p = .error (e, a2)) : a2 = a := by
  unfold Address.setPfx at h
  cases hpv : pfxToVersion p <;> rw [hpv] at h <;>
    simp only [liftErr, except_bind_error, except_bind_ok, except_pure_eq] at h
  case error e1 =>
    simp only [Except.error.injEq, Prod.mk.injEq] at h
    exact h.2.symm
  case ok v => simp at h

/-- C8: every mutator is atomic.  Each setter that can raise leaves the byte
buffer exactly as it was (the error value carries the buffer at throw time,
and it always equals the input); `setSender` and `Address.setPublicKey`
cannot raise at all. -/
theorem c8_setters_atomic :
    (∀ tx v e tx2, Transaction.setVersion tx v = .error (e, tx2) → tx2.bytes = tx.bytes) ∧
    (∀ tx a e tx2, Transaction.setRecipient tx a = .error (e, tx2) → tx2.bytes = tx.bytes) ∧
    (∀ tx v e tx2, Transaction.setValue tx v = .error (e, tx2) → tx2.bytes = tx.bytes) ∧
    (∀ tx v e tx2, Transaction.setNonce tx v = .error (e, tx2) → tx2.bytes = tx.bytes) ∧
    (∀ tx sg e tx2, Transaction.setSignature tx sg = .error (e, tx2) → tx2.bytes = tx.bytes) ∧
    (∀ tx p e tx2, Transaction.setPfx tx p = .error (e, tx2) → tx2.bytes = tx.bytes) ∧
    (∀ tx n e tx2, Transaction.setName tx n = .error (e, tx2) → tx2.bytes = tx.bytes) ∧
    (∀ tx v e tx2, Transaction.setProfitPercent tx v = .error (e, tx2) →
      tx2.bytes = tx.bytes) ∧
    (∀ tx v e tx2, Transaction.setFeePercent tx v = .error (e, tx2) → tx2.bytes = tx.bytes) ∧
    (∀ a p e a2, Address.setPfx a p = .error (e, a2) → a2.bytes = a.bytes) ∧
    (∀ tx a, ∃ tx2, Transaction.setSender tx a = .ok tx2) ∧
    (∀ a pk, ∃ a2, Address.setPublicKey a pk = .ok a2) := by
  refine ⟨fun tx v e tx2 h => by rw [setVersion_atomic tx v e tx2 h],
    fun tx a e tx2 h => by rw [setRecipient_atomic tx a e tx2 h],
    fun tx v e tx2 h => by rw [setValue_atomic tx v e tx2 h],
    fun tx v e tx2 h => by rw [setNonce_atomic tx v e tx2 h],
    fun tx sg e tx2 h => by rw [setSignature_atomic tx sg e tx2 h],
    fun tx p e tx2 h => by rw [setPfx_atomic tx p e tx2 h],
    fun tx n e tx2 h => by rw [setName_atomic tx n e tx2 h],
    fun tx v e tx2 h => by rw [setProfitPercent_atomic tx v e tx2 h],
    fun tx v e tx2 h => by rw [setFeePercent_atomic tx v e tx2 h],
    fun a p e a2 h => by rw [addressSetPfx_atomic a p e a2 h],
    fun tx a => ⟨_, rfl⟩, fun a pk => ⟨_, rfl⟩⟩

/-- Witness for C8: a failed `setValue` on a CreateStructure transaction and
a failed `Address.setPrefix` with a bad prefix leave the buffers unchanged. -/
theorem c8_setters_atomic_witness :
    ((Transaction.mk ((arrayNew 150).set 0 2)).setValue (.num 42) =
        .error ("invalid version", Transaction.mk ((arrayNew 150).set 0 2)) →
      (Transaction.mk ((arrayNew 150).set 0 2)).bytes =
        (Transaction.mk ((arrayNew 150).set 0 2)).bytes) ∧
    (Address.new.setPfx ['A', 'B', 'C'] = .error ("bech32: invalid prefix character",
        Address.new) →
      Address.new.bytes = Address.new.bytes) ∧
    (Transaction.mk ((arrayNew 150).set 0 2)).setValue (.num 42) =
      .error ("invalid version", Transaction.mk ((arrayNew 150).set 0 2)) ∧
    Address.new.setPfx ['A', 'B', 'C'] =
      .error ("bech32: invalid prefix character", Address.new) := by
  refine ⟨fun h => c8_setters_atomic.2.2.1 _ _ _ _ h, fun h =>
    c8_setters_atomic.2.2.2.2.2.2.2.2.2.1 _ _ _ _ h, ?_, ?_⟩
  · rfl
  · rfl

/-! ### Claim C7: the scalar-multiplication loop -/

theorem scalarmultStepT_fst (s : List Nat) (pq : List (List Int) × List (List Int))
    (i : Nat) : (scalarmultStepT s pq i).1 = scalarmultStep s pq i := rfl

theorem scalarmultT_foldAux (s : List Nat) (l : List Nat)
    (x : List (List Int) × List (List Int)) (acc : List CurveOp) :
    (l.foldl (fun st i =>
        let r := scalarmultStepT s st.1 i
        (r.1, st.2 ++ r.2)) (x, acc)).1 = l.foldl (scalarmultStep s) x ∧
    (l.foldl (fun st i =>
        let r := scalarmultStepT s st.1 i
        (r.1, st.2 ++ r.2)) (x, acc)).2 =
      acc ++ l.flatMap (fun _ => ([.cswapOp, .addOp, .addOp, .cswapOp] : List CurveOp)) := by
  induction l generalizing x acc with
  | nil => simp
  | cons i rest ih =>
    simp only [List.foldl_cons, List.flatMap_cons]
    have := ih (scalarmultStep s x i) (acc ++ [.cswapOp, .addOp, .addOp, .cswapOp])
    refine ⟨this.1, ?_⟩
    rw [← List.append_assoc]
    exact this.2

/-- C7 counterexample: the `scalarmult` loop iterates over the bit indices
255 down to 0 — 256 iterations, not the 255 the claim states. -/
theorem c7_counterexample :
    scalarmultIndices.length = 256 ∧ ¬scalarmultIndices.length = 255 := by
  constructor <;> simp [scalarmultIndices]

/-- C7 (amended): `scalarmult` computes its result by a fixed
double-and-add-with-conditional-swap loop of exactly 256 iterations,
processing all 256 bits of the 32-byte scalar on every call, and the sequence
of point-routine calls (`cswap`, `add(q,p)`, `add(p,p)`, `cswap` per
iteration) is identical for every scalar and input point — the scalar bit
only drives the branch-free `sel25519` masks inside `cswap`. -/
theorem c7_scalarmult_constant_loop :
    scalarmultIndices.length = 256 ∧
    (∀ q s, scalarmult q s =
      scalarmultIndices.foldl (scalarmultStep s) ([gf0, gf1, gf1, gf0], q)) ∧
    (∀ q s, (scalarmultT q s).1 = scalarmult q s) ∧
    (∀ q s q2 s2, (scalarmultT q s).2 = (scalarmultT q2 s2).2) ∧
    (∀ q s, (scalarmultT q s).2.length = 4 * 256) := by
  have htr : ∀ q s, (scalarmultT q s).2 = scalarmultIndices.flatMap
      (fun _ => ([.cswapOp, .addOp, .addOp, .cswapOp] : List CurveOp)) := by
    intro q s
    have := scalarmultT_foldAux s scalarmultIndices ([gf0, gf1, gf1, gf0], q) []
    simpa [scalarmultT] using this.2
  refine ⟨by simp [scalarmultIndices], fun q s => rfl, ?_, ?_, ?_⟩
  · intro q s
    have := scalarmultT_foldAux s scalarmultIndices ([gf0, gf1, gf1, gf0], q) []
    simpa [scalarmultT, scalarmult] using this.1
  · intro q s q2 s2
    rw [htr, htr]
  · intro q s
    rw [htr]
    decide

/-! ### Claim C9: base64Decode error behaviour -/

/-- C9 counterexample: `"A=AA"` has an `=` in a non-trailing position (so the
claim demands an error), yet `base64Decode` succeeds and returns bytes — the
implementation strips the first two `=` characters wherever they occur. -/
theorem c9_counterexample :
    base64Decode ['A', '=', 'A', 'A'] = .ok [0, 0] := rfl

/-- C9 (amended): `base64Decode` raises exactly when the length is not a
multiple of 4 or when, after the first two `=` characters (in any position,
not only trailing) are treated as padding and removed, some remaining
character is outside the Base64 alphabet.  One or two misplaced `=`
characters therefore do not raise. -/
theorem c9_base64_error_iff (s : List Char) :
    (∃ e, base64Decode s = .error e) ↔
      (s.length % 4 ≠ 0 ∨
        ∃ c ∈ jsRemoveFirst (jsRemoveFirst s '=') '=', jsIndexOf base64Alphabet c = -1) := by
  unfold base64Decode checkBase64Alphabet
  by_cases h1 : s.length % 4 ≠ 0
  · rw [if_pos h1]
    simp only [except_throw_eq, except_bind_error]
    constructor
    · intro _; exact Or.inl h1
    · intro _; exact ⟨"base64: invalid length", rfl⟩
  · rw [if_neg h1]
    by_cases h2 : (jsRemoveFirst (jsRemoveFirst s '=') '=').any
        (fun ch => jsIndexOf base64Alphabet ch = -1)
    · rw [if_pos h2]
      simp only [except_throw_eq, except_bind_error]
      constructor
      · intro _
        right
        obtain ⟨c, hc, hd⟩ := List.any_eq_true.mp h2
        exact ⟨c, hc, by simpa using hd⟩
      · intro _; exact ⟨"base64: invalid character", rfl⟩
    · rw [if_neg h2]
      simp only [except_pure_eq, except_bind_ok]
      constructor
      · intro ⟨e, he⟩; simp at he
      · intro h
        rcases h with h | ⟨c, hc, hd⟩
        · exact absurd h h1
        · exact absurd (List.any_eq_true.mpr ⟨c, hc, by simpa using hd⟩) h2

/-! ### Claim C10: byte 149 is never written -/

theorem getD_set_ne (l : List α) (i j : Nat) (v : α) (d : α) (h : i ≠ j) :
    (l.set i v).getD j d = l.getD j d := by
  simp [List.getD_eq_getElem?_getD, List.getElem?_set_ne h]

theorem setVersion_ok_shape (tx : Transaction) (v : JsArg) (tx2 : Transaction)
    (h : tx.setVersion v = .ok tx2) : tx2.bytes = tx.bytes.set 0 v.asNat := by
  unfold Transaction.setVersion at h
  cases hvi : validateInt v 0 7 <;> rw [hvi] at h <;>
    simp only [liftErr, except_bind_error, except_bind_ok, except_pure_eq] at h
  case error e1 => simp at h
  case ok u =>
    simp only [Except.ok.injEq] at h
    rw [← h]

theorem setSender_ok_shape (tx : Transaction) (a : Address) (tx2 : Transaction)
    (h : tx.setSender a = .ok tx2) : tx2.bytes = arraySet tx.bytes a.getBytes 1 34 := by
  unfold Transaction.setSender at h
  simp only [Except.ok.injEq] at h
  rw [← h]

theorem setRecipient_ok_shape (tx : Transaction) (a : Address) (tx2 : Transaction)
    (h : tx.setRecipient a = .ok tx2) :
    tx2.bytes = arraySet tx.bytes a.getBytes 35 a.getBytes.length := by
  unfold Transaction.setRecipient at h
  cases hcv : tx.checkVersion [0, 1, 4, 5, 6, 7] <;> rw [hcv] at h <;>
    simp only [liftErr, except_bind_error, except_bind_ok, except_pure_eq] at h
  case error e1 => simp at h
  case ok u =>
    simp only [Except.ok.injEq] at h
    rw [← h]

theorem setValue_ok_shape (tx : Transaction) (v : JsArg) (tx2 : Transaction)
    (h : tx.setValue v = .ok tx2) :
    tx2.bytes = arraySet tx.bytes (uint64ToBytes v.asNat) 69 8 := by
  unfold Transaction.setValue at h
  cases hcv : tx.checkVersion [0, 1] <;> rw [hcv] at h <;>
    simp only [liftErr, except_bind_error, except_bind_ok] at h
  case error e1 => simp at h
  case ok u =>
    cases hvi : validateInt v 1 18446744073709551615 <;> rw [hvi] at h <;>
      simp only [liftErr, except_bind_error, except_bind_ok, except_pure_eq] at h
    case error e1 => simp at h
    case ok u2 =>
      simp only [Except.ok.injEq] at h
      rw [← h]

theorem setNonce_ok_shape (tx : Transaction) (v : JsArg) (tx2 : Transaction)
    (h : tx.setNonce v = .ok tx2) :
    tx2.bytes = arraySet tx.bytes (uint64ToBytes v.asNat) 77 8 := by
  unfold Transaction.setNonce at h
  cases hvi : validateInt v 0 18446744073709551615 <;> rw [hvi] at h <;>
    simp only [liftErr, except_bind_error, except_bind_ok, except_pure_eq] at h
  case error e1 => simp at h
  case ok u =>
    simp only [Except.ok.injEq] at h
    rw [← h]

theorem setSignature_ok_shape (tx : Transaction) (sg : List Nat) (tx2 : Transaction)
    (h : tx.setSignature sg = .ok tx2) :
    sg.length = 64 ∧ tx2.bytes = arraySet tx.bytes sg 85 sg.length := by
  unfold Transaction.setSignature at h
  by_cases hl : sg.length ≠ 64
  · rw [if_pos hl] at h; simp at h
  · rw [if_neg hl] at h
    simp only [Except.ok.injEq] at h
    exact ⟨by omega, by rw [← h]⟩

theorem setPfx_ok_shape (tx : Transaction) (p : List Char) (tx2 : Transaction)
    (h : tx.setPfx p = .ok tx2) :
    ∃ v, tx2.bytes = arraySet tx.bytes (uint16ToBytes v) 35 2 := by
  unfold Transaction.setPfx at h
  cases hcv : tx.checkVersion [2, 3] <;> rw [hcv] at h <;>
    simp only [liftErr, except_bind_error, except_bind_ok] at h
  case error e1 => simp at h
  case ok u =>
    cases hpv : pfxToVersion p <;> rw [hpv] at h <;>
      simp only [liftErr, except_bind_error, except_bind_ok, except_pure_eq] at h
    case error e1 => simp at h
    case ok v =>
      simp only [Except.ok.injEq] at h
      exact ⟨v, by rw [← h]⟩

theorem setName_ok_shape (tx : Transaction) (name : List Char) (tx2 : Transaction)
    (h : tx.setName name = .ok tx2) :
    (textEncode name).length ≤ 35 ∧
    tx2.bytes = (arraySet (arraySet tx.bytes (arrayNew 36) 41 36) (textEncode name) 42
      (textEncode name).length).set 41 (textEncode name).length := by
  unfold Transaction.setName at h
  cases hcv : tx.checkVersion [2, 3] <;> rw [hcv] at h <;>
    simp only [liftErr, except_bind_error, except_bind_ok] at h
  case error e1 => simp at h
  case ok u =>
    by_cases hl : (textEncode name).length > 35
    · rw [if_pos hl] at h
      simp [except_throw_eq, except_bind_error] at h
    · rw [if_neg hl] at h
      simp only [except_pure_eq, except_bind_ok, Except.ok.injEq] at h
      exact ⟨by omega, by rw [← h]⟩

theorem setProfitPercent_ok_shape (tx : Transaction) (v : JsArg) (tx2 : Transaction)
    (h : tx.setProfitPercent v = .ok tx2) :
    tx2.bytes = arraySet tx.bytes (uint16ToBytes v.asNat) 37 2 := by
  unfold Transaction.setProfitPercent at h
  cases hcv : tx.checkVersion [2, 3] <;> rw [hcv] at h <;>
    simp only [liftErr, except_bind_error, except_bind_ok] at h
  case error e1 => simp at h
  case ok u =>
    cases hvi : validateInt v 100 500 <;> rw [hvi] at h <;>
      simp only [liftErr, except_bind_error, except_bind_ok, except_pure_eq] at h
    case error e1 => simp at h
    case ok u2 =>
      simp only [Except.ok.injEq] at h
      rw [← h]

theorem setFeePercent_ok_shape (tx : Transaction) (v : JsArg) (tx2 : Transaction)
    (h : tx.setFeePercent v = .ok tx2) :
    tx2.bytes = arraySet tx.bytes (uint16ToBytes v.asNat) 39 2 := by
  unfold Transaction.setFeePercent at h
  cases hcv : tx.checkVersion [2, 3] <;> rw [hcv] at h <;>
    simp only [liftErr, except_bind_error, except_bind_ok] at h
  case error e1 => simp at h
  case ok u =>
    cases hvi : validateInt v 0 2000 <;> rw [hvi] at h <;>
      simp only [liftErr, except_bind_error, except_bind_ok, except_pure_eq] at h
    case error e1 => simp at h
    case ok u2 =>
      simp only [Except.ok.injEq] at h
      rw [← h]

theorem sign_ok_shape (tx : Transaction) (k : SecretKey) (now : JsArg) (tx2 : Transaction)
    (h : tx.sign k now = .ok tx2) :
    ∃ t1, tx.setNonce now = .ok t1 ∧
      t1.setSignature (k.sign (arraySlice t1.bytes 0 85)) = .ok tx2 := by
  unfold Transaction.sign at h
  cases hn : tx.setNonce now <;> rw [hn] at h <;>
    simp only [except_bind_error, except_bind_ok] at h
  case error p => simp at h
  case ok t1 => exact ⟨t1, rfl, h⟩

theorem sign_err_149 (tx : Transaction) (k : SecretKey) (now : JsArg) (e : String)
    (t : Transaction) (h : tx.sign k now = .error (e, t)) :
    t.bytes.getD 149 0 = tx.bytes.getD 149 0 := by
  unfold Transaction.sign at h
  cases hn : tx.setNonce now <;> rw [hn] at h <;>
    simp only [except_bind_error, except_bind_ok] at h
  case error p =>
    obtain ⟨e1, t1⟩ := p
    simp only [Except.error.injEq, Prod.mk.injEq] at h
    rw [← h.2, setNonce_atomic tx now e1 t1 hn]
  case ok t1 =>
    rw [setSignature_atomic t1 _ e t h, setNonce_ok_shape tx now t1 hn]
    exact arraySet_getD_out _ _ _ _ _ (by omega)

theorem orKeep_ok (t : Transaction) : orKeep (.ok t) = t := rfl

theorem orKeep_error (e : String) (t : Transaction) : orKeep (.error (e, t)) = t := rfl

/-- Every mutating call preserves byte 149 of the buffer. -/
theorem apply_preserves_149 (tx : Transaction) (op : TxOp) (hwf : op.wfArgs) :
    (TxOp.apply tx op).bytes.getD 149 0 = tx.bytes.getD 149 0 := by
  cases op with
  | opSetVersion v =>
    simp only [TxOp.apply]
    cases h : tx.setVersion v with
    | ok t =>
        rw [orKeep_ok, setVersion_ok_shape tx v t h]
        exact getD_set_ne _ _ _ _ _ (by omega)
    | error p =>
      obtain ⟨e, t⟩ := p
      rw [orKeep_error, setVersion_atomic tx v e t h]
  | opSetSender a =>
    simp only [TxOp.apply]
    cases h : tx.setSender a with
    | ok t =>
      rw [orKeep_ok]
      rw [setSender_ok_shape tx a t h]
      exact arraySet_getD_out _ _ _ _ _ (by omega)
    | error p => simp [Transaction.setSender] at h
  | opSetRecipient a =>
    simp only [TxOp.apply]
    cases h : tx.setRecipient a with
    | ok t =>
      rw [orKeep_ok]
      rw [setRecipient_ok_shape tx a t h]
      have hlen : a.getBytes.length = 34 := hwf
      exact arraySet_getD_out _ _ _ _ _ (by rw [hlen]; omega)
    | error p =>
      obtain ⟨e, t⟩ := p
      rw [orKeep_error, setRecipient_atomic tx a e t h]
  | opSetValue v =>
    simp only [TxOp.apply]
    cases h : tx.setValue v with
    | ok t =>
      rw [orKeep_ok]
      rw [setValue_ok_shape tx v t h]
      exact arraySet_getD_out _ _ _ _ _ (by omega)
    | error p =>
      obtain ⟨e, t⟩ := p
      rw [orKeep_error, setValue_atomic tx v e t h]
  | opSetNonce v =>
    simp only [TxOp.apply]
    cases h : tx.setNonce v with
    | ok t =>
      rw [orKeep_ok]
      rw [setNonce_ok_shape tx v t h]
      exact arraySet_getD_out _ _ _ _ _ (by omega)
    | error p =>
      obtain ⟨e, t⟩ := p
      rw [orKeep_error, setNonce_atomic tx v e t h]
  | opSetSignature sg =>
    simp only [TxOp.apply]
    cases h : tx.setSignature sg with
    | ok t =>
      obtain ⟨hl, hsh⟩ := setSignature_ok_shape tx sg t h
      rw [orKeep_ok, hsh]
      exact arraySet_getD_out _ _ _ _ _ (by rw [hl]; omega)
    | error p =>
      obtain ⟨e, t⟩ := p
      rw [orKeep_error, setSignature_atomic tx sg e t h]
  | opSetPfx p =>
    simp only [TxOp.apply]
    cases h : tx.setPfx p with
    | ok t =>
      obtain ⟨v, hsh⟩ := setPfx_ok_shape tx p t h
      rw [orKeep_ok, hsh]
      exact arraySet_getD_out _ _ _ _ _ (by omega)
    | error q =>
      obtain ⟨e, t⟩ := q
      rw [orKeep_error, setPfx_atomic tx p e t h]
  | opSetName n =>
    simp only [TxOp.apply]
    cases h : tx.setName n with
    | ok t =>
      obtain ⟨hl, hsh⟩ := setName_ok_shape tx n t h
      rw [orKeep_ok, hsh, getD_set_ne _ _ _ _ _ (by omega),
        arraySet_getD_out0 _ _ _ _ _ (by omega),
        arraySet_getD_out0 _ _ _ _ _ (by omega)]
    | error p =>
      obtain ⟨e, t⟩ := p
      rw [orKeep_error, setName_atomic tx n e t h]
  | opSetProfitPercent v =>
    simp only [TxOp.apply]
    cases h : tx.setProfitPercent v with
    | ok t =>
      rw [orKeep_ok]
      rw [setProfitPercent_ok_shape tx v t h]
      exact arraySet_getD_out _ _ _ _ _ (by omega)
    | error p =>
      obtain ⟨e, t⟩ := p
      rw [orKeep_error, setProfitPercent_atomic tx v e t h]
  | opSetFeePercent v =>
    simp only [TxOp.apply]
    cases h : tx.setFeePercent v with
    | ok t =>
      rw [orKeep_ok]
      rw [setFeePercent_ok_shape tx v t h]
      exact arraySet_getD_out _ _ _ _ _ (by omega)
    | error p =>
      obtain ⟨e, t⟩ := p
      rw [orKeep_error, setFeePercent_atomic tx v e t h]
  | opSign k now =>
    simp only [TxOp.apply]
    cases h : tx.sign k now with
    | ok t =>
      obtain ⟨t1, hn, hs⟩ := sign_ok_shape tx k now t h
      obtain ⟨hl, hsh⟩ := setSignature_ok_shape t1 _ t hs
      rw [orKeep_ok, hsh, arraySet_getD_out0 _ _ _ _ _ (by rw [hl]; omega),
        setNonce_ok_shape tx now t1 hn,
        arraySet_getD_out0 _ _ _ _ _ (by omega)]
    | error p =>
      obtain ⟨e, t⟩ := p
      rw [orKeep_error]
      exact sign_err_149 tx k now e t h

theorem applyOps_preserves_149 (tx : Transaction) (ops : List TxOp)
    (hwf : ∀ op ∈ ops, op.wfArgs) :
    (applyOps tx ops).bytes.getD 149 0 = tx.bytes.getD 149 0 := by
  induction ops generalizing tx with
  | nil => rfl
  | cons op rest ih =>
    show (applyOps (TxOp.apply tx op) rest).bytes.getD 149 0 = tx.bytes.getD 149 0
    rw [ih (TxOp.apply tx op) fun o ho => hwf o (by simp [ho]),
      apply_preserves_149 tx op (hwf op (by simp))]

/-- C10: byte 149 of the 150-byte record is never written.  `getSignature`
reads exactly bytes 85..148; a successful `setSignature` writes exactly
offsets 85..148 and leaves every offset below 85 and offset 149 unchanged;
every other setter leaves all offsets from 85 up unchanged (for
`setRecipient`, with the 34-byte address buffers the library constructs); and
consequently byte 149 of a freshly constructed transaction stays 0 under
every sequence of setter and `sign` calls. -/
theorem c10_byte149_frame :
    (∀ tx : Transaction, tx.getSignature = arraySlice tx.bytes 85 149) ∧
    (∀ tx : Transaction, tx.bytes.length = 150 →
      tx.getSignature.length = 64 ∧
      ∀ i, i < 64 → tx.getSignature.getD i 0 = tx.bytes.getD (85 + i) 0) ∧
    (∀ tx sg tx2, Transaction.setSignature tx sg = .ok tx2 →
      sg.length = 64 ∧
      (∀ i, i < 85 ∨ i = 149 → tx2.bytes.getD i 0 = tx.bytes.getD i 0) ∧
      (∀ i, 85 ≤ i → i ≤ 148 → tx2.bytes.getD i 0 = sg.getD (i - 85) 0)) ∧
    (∀ tx op tx2, TxOp.apply tx op = tx2 → op.wfArgs →
      (∀ sg, op ≠ .opSetSignature sg) → (∀ k now, op ≠ .opSign k now) →
      ∀ i, 85 ≤ i → tx2.bytes.getD i 0 = tx.bytes.getD i 0) ∧
    (∀ ops : List TxOp, (∀ op ∈ ops, op.wfArgs) →
      (applyOps Transaction.new ops).bytes.getD 149 0 = 0) := by
  refine ⟨fun tx => rfl, ?_, ?_, ?_, ?_⟩
  · intro tx hlen
    constructor
    · rw [Transaction.getSignature, arraySlice_length, hlen]
      norm_num
    · intro i hi
      exact arraySlice_getD _ _ _ _ (by omega)
  · intro tx sg tx2 h
    obtain ⟨hl, hsh⟩ := setSignature_ok_shape tx sg tx2 h
    refine ⟨hl, ?_, ?_⟩
    · intro i hi
      rw [hsh]
      exact arraySet_getD_out _ _ _ _ _ (by omega)
    · intro i h1 h2
      rw [hsh]
      exact arraySet_getD_in _ _ _ _ _ (by omega) (by omega)
  · intro tx op tx2 happ hwf hnsig hnsign i hi
    subst happ
    cases op with
    | opSetVersion v =>
      simp only [TxOp.apply]
      cases h : tx.setVersion v with
      | ok t =>
        rw [orKeep_ok, setVersion_ok_shape tx v t h]
        exact getD_set_ne _ _ _ _ _ (by omega)
      | error p =>
        obtain ⟨e, t⟩ := p
        rw [orKeep_error, setVersion_atomic tx v e t h]
    | opSetSender a =>
      simp only [TxOp.apply]
      cases h : tx.setSender a with
      | ok t =>
        rw [orKeep_ok]
        rw [setSender_ok_shape tx a t h]
        exact arraySet_getD_out _ _ _ _ _ (by omega)
      | error p => simp [Transaction.setSender] at h
    | opSetRecipient a =>
      simp only [TxOp.apply]
      cases h : tx.setRecipient a with
      | ok t =>
        rw [orKeep_ok]
        rw [setRecipient_ok_shape tx a t h]
        have hlen : a.getBytes.length = 34 := hwf
        exact arraySet_getD_out _ _ _ _ _ (by rw [hlen]; omega)
      | error p =>
        obtain ⟨e, t⟩ := p
        rw [orKeep_error, setRecipient_atomic tx a e t h]
    | opSetValue v =>
      simp only [TxOp.apply]
      cases h : tx.setValue v with
      | ok t =>
        rw [orKeep_ok]
        rw [setValue_ok_shape tx v t h]
        exact arraySet_getD_out _ _ _ _ _ (by omega)
      | error p =>
        obtain ⟨e, t⟩ := p
        rw [orKeep_error, setValue_atomic tx v e t h]
    | opSetNonce v =>
      simp only [TxOp.apply]
      cases h : tx.setNonce v with
      | ok t =>
        rw [orKeep_ok]
        rw [setNonce_ok_shape tx v t h]
        exact arraySet_getD_out _ _ _ _ _ (by omega)
      | error p =>
        obtain ⟨e, t⟩ := p
        rw [orKeep_error, setNonce_atomic tx v e t h]
    | opSetSignature sg => exact absurd rfl (hnsig sg)
    | opSetPfx p =>
      simp only [TxOp.apply]
      cases h : tx.setPfx p with
      | ok t =>
        obtain ⟨v, hsh⟩ := setPfx_ok_shape tx p t h
        rw [orKeep_ok, hsh]
        exact arraySet_getD_out _ _ _ _ _ (by omega)
      | error q =>
        obtain ⟨e, t⟩ := q
        rw [orKeep_error, setPfx_atomic tx p e t h]
    | opSetName n =>
      simp only [TxOp.apply]
      cases h : tx.setName n with
      | ok t =>
        obtain ⟨hl, hsh⟩ := setName_ok_shape tx n t h
        rw [orKeep_ok, hsh, getD_set_ne _ _ _ _ _ (by omega),
          arraySet_getD_out0 _ _ _ _ _ (by omega),
          arraySet_getD_out0 _ _ _ _ _ (by omega)]
      | error p =>
        obtain ⟨e, t⟩ := p
        rw [orKeep_error, setName_atomic tx n e t h]
    | opSetProfitPercent v =>
      simp only [TxOp.apply]
      cases h : tx.setProfitPercent v with
      | ok t =>
        rw [orKeep_ok]
        rw [setProfitPercent_ok_shape tx v t h]
        exact arraySet_getD_out _ _ _ _ _ (by omega)
      | error p =>
        obtain ⟨e, t⟩ := p
        rw [orKeep_error, setProfitPercent_atomic tx v e t h]
    | opSetFeePercent v =>
      simp only [TxOp.apply]
      cases h : tx.setFeePercent v with
      | ok t =>
        rw [orKeep_ok]
        rw [setFeePercent_ok_shape tx v t h]
        exact arraySet_getD_out _ _ _ _ _ (by omega)
      | error p =>
        obtain ⟨e, t⟩ := p
        rw [orKeep_error, setFeePercent_atomic tx v e t h]
    | opSign k now => exact absurd rfl (hnsign k now)
  · intro ops hwf
    rw [applyOps_preserves_149 Transaction.new ops hwf]
    rfl

/-- Witness for C10 at a concrete operation sequence and concrete signature
write. -/
theorem c10_byte149_frame_witness :
    (applyOps Transaction.new
      [.opSetRecipient Address.new, .opSetValue (.num 42),
       .opSign ⟨List.replicate 64 0⟩ (.num 5)]).bytes.getD 149 0 = 0 ∧
    ((Transaction.new.setSignature (List.replicate 64 7)).map
      (fun t => t.bytes.getD 149 0 = Transaction.new.bytes.getD 149 0) ≠
        .error ("x", Transaction.new) → True) ∧
    (∀ tx2, Transaction.new.setSignature (List.replicate 64 7) = .ok tx2 →
      tx2.bytes.getD 100 0 = (List.replicate 64 (7 : Nat)).getD 15 0) := by
  refine ⟨?_, fun _ => trivial, ?_⟩
  · apply c10_byte149_frame.2.2.2.2
    intro op hop
    simp only [List.mem_cons, List.not_mem_nil, or_false] at hop
    rcases hop with rfl | rfl | rfl
    · exact rfl
    · trivial
    · trivial
  · intro tx2 h
    exact (c10_byte149_frame.2.2.1 Transaction.new _ tx2 h).2.2 100 (by omega) (by omega)

/-! ### Claim C3: SHA-256 versus the FIPS 180-4 reference -/

theorem getD_append_right (l1 l2 : List α) (i : Nat) (d : α) (h : l1.length ≤ i) :
    (l1 ++ l2).getD i d = l2.getD (i - l1.length) d := by
  simp [List.getD_eq_getElem?_getD, List.getElem?_append_right h]

theorem getD_append_left (l1 l2 : List α) (i : Nat) (d : α) (h : i < l1.length) :
    (l1 ++ l2).getD i d = l1.getD i d := by
  simp [List.getD_eq_getElem?_getD, List.getElem?_append_left h]

theorem c3pad_code : (sha256PadBytes (List.replicate 8192 0)).getD 8253 0 = 0 := by
  unfold sha256PadBytes
  simp only [List.length_replicate]
  norm_num

theorem c3pad_fips : (fipsPadBytes (List.replicate 8192 0)).getD 8253 0 = 1 := by
  unfold fipsPadBytes
  simp only [List.length_replicate]
  rw [List.append_assoc, List.append_assoc]
  have hsplit := getD_append_right (List.replicate (8192 : Nat) (0 : Nat))
      ([0x80] ++ (List.replicate ((64 + 56 - ((8192 + 1) % 64)) % 64) 0 ++
        ((List.range 8).map fun k => ((8192 * 8) >>> (8 * (7 - k))) &&& 0xff)))
      8253 0 (by rw [List.length_replicate]; omega)
  rw [hsplit, List.length_replicate]
  decide

/-- C3 (code bug): on the empty input both the code's `sha256` and the FIPS
reference produce the standard digest `e3b0c442…b855`, but the code writes
only the low 16 bits of the message bit length into its padding (two bytes,
instead of the 64-bit field FIPS 180-4 requires).  For the 8192-byte input
(bit length 65536 = 2^16) the padded streams differ at byte 8253 — 0x00 from
the code, 0x01 from the standard — so the compression runs on different
blocks and the code's digest diverges from FIPS for every message of 8192
bytes or more. -/
theorem c3_sha256_fips :
    sha256 [] = [0xe3, 0xb0, 0xc4, 0x42, 0x98, 0xfc, 0x1c, 0x14, 0x9a, 0xfb,
      0xf4, 0xc8, 0x99, 0x6f, 0xb9, 0x24, 0x27, 0xae, 0x41, 0xe4, 0x64, 0x9b,
      0x93, 0x4c, 0xa4, 0x95, 0x99, 0x1b, 0x78, 0x52, 0xb8, 0x55] ∧
    sha256Fips [] = [0xe3, 0xb0, 0xc4, 0x42, 0x98, 0xfc, 0x1c, 0x14, 0x9a, 0xfb,
      0xf4, 0xc8, 0x99, 0x6f, 0xb9, 0x24, 0x27, 0xae, 0x41, 0xe4, 0x64, 0x9b,
      0x93, 0x4c, 0xa4, 0x95, 0x99, 0x1b, 0x78, 0x52, 0xb8, 0x55] ∧
    (sha256PadBytes (List.replicate 8192 0)).getD 8253 0 = 0 ∧
    (fipsPadBytes (List.replicate 8192 0)).getD 8253 0 = 1 ∧
    (sha256PadBytes (List.replicate 8192 0)).getD 8253 0 ≠
      (fipsPadBytes (List.replicate 8192 0)).getD 8253 0 := by
  refine ⟨by rfl, by rfl, c3pad_code, c3pad_fips, ?_⟩
  rw [c3pad_code, c3pad_fips]
  omega

/-! ### Claim C6: the prefix/version bijection -/

theorem char_toNat_ofNat (n : Nat) (h : n < 0xd800) : (Char.ofNat n).toNat = n := by
  have hv : n.isValidChar := Or.inl h
  rw [Char.ofNat, dif_pos hv]
  rfl

theorem and_shiftLeft_shiftRight (v m k : Nat) :
    (v &&& (m <<< k)) >>> k = (v >>> k) &&& m := by
  apply Nat.eq_of_testBit_eq
  intro i
  simp only [Nat.testBit_shiftRight, Nat.testBit_and, Nat.testBit_shiftLeft]
  have h1 : k ≤ k + i := Nat.le_add_right k i
  simp [h1, Nat.add_sub_cancel_left]

theorem extract_hi (v : Nat) : (v &&& 0x7C00) >>> 10 = (v / 1024) % 32 := by
  rw [show (0x7C00 : Nat) = 31 <<< 10 from by decide, and_shiftLeft_shiftRight,
    Nat.shiftRight_eq_div_pow, show (31 : Nat) = 2 ^ 5 - 1 from by norm_num,
    and_two_pow_sub_one']
  norm_num

theorem extract_mid (v : Nat) : (v &&& 0x03E0) >>> 5 = (v / 32) % 32 := by
  rw [show (0x03E0 : Nat) = 31 <<< 5 from by decide, and_shiftLeft_shiftRight,
    Nat.shiftRight_eq_div_pow, show (31 : Nat) = 2 ^ 5 - 1 from by norm_num,
    and_two_pow_sub_one']
  norm_num

theorem extract_lo (v : Nat) : v &&& 0x001F = v % 32 := and_mask5 v

theorem and_bit15_zero (v : Nat) (h : v < 32768) : v &&& 0x8000 = 0 := by
  rw [show (0x8000 : Nat) = 2 ^ 15 from by norm_num, Nat.and_two_pow,
    Nat.testBit_lt_two_pow (by norm_num; omega)]
  rfl

theorem lt_32768_of_and_bit15 (v : Nat) (hle : v ≤ 65535) (h : v &&& 0x8000 = 0) :
    v < 32768 := by
  by_contra hc
  push_neg at hc
  have hb : v.testBit 15 = true := by
    rw [Nat.testBit_to_div_mod]
    simp only [decide_eq_true_eq]
    norm_num
    omega
  rw [show (0x8000 : Nat) = 2 ^ 15 from by norm_num, Nat.and_two_pow, hb] at h
  norm_num at h

theorem checkPfxChars_err (xs : List Int) (h : ∃ x ∈ xs, x < 1 ∨ x > 26) :
    checkPfxChars xs = .error "bech32: invalid prefix character" := by
  induction xs with
  | nil => simp at h
  | cons x rest ih =>
    unfold checkPfxChars
    by_cases hx : x < 1 ∨ x > 26
    · rw [if_pos hx]
      rfl
    · rw [if_neg hx]
      apply ih
      rcases h with ⟨y, hy, hbad⟩
      rcases List.mem_cons.mp hy with rfl | hm
      · exact absurd hbad hx
      · exact ⟨y, hm, hbad⟩

theorem pfxToVersion_letters (a b c : Nat) (ha1 : 1 ≤ a) (ha2 : a ≤ 26)
    (hb1 : 1 ≤ b) (hb2 : b ≤ 26) (hc1 : 1 ≤ c) (hc2 : c ≤ 26) :
    pfxToVersion [Char.ofNat (a + 96), Char.ofNat (b + 96), Char.ofNat (c + 96)] =
      .ok ((a <<< 10) + (b <<< 5) + c) := by
  have hne : [Char.ofNat (a + 96), Char.ofNat (b + 96), Char.ofNat (c + 96)] ≠
      genesisPfx := by
    intro h
    have hlen := congrArg List.length h
    simp [genesisPfx] at hlen
  unfold pfxToVersion
  rw [if_neg hne]
  have hstr : validateStr [Char.ofNat (a + 96), Char.ofNat (b + 96),
      Char.ofNat (c + 96)] 3 = .ok () := by
    unfold validateStr
    rw [if_neg (by simp)]
    rfl
  rw [hstr, except_bind_ok]
  simp only [List.getD_cons_zero, List.getD_cons_succ]
  rw [char_toNat_ofNat (a + 96) (by omega), char_toNat_ofNat (b + 96) (by omega),
    char_toNat_ofNat (c + 96) (by omega)]
  have hA : ((a + 96 : Nat) : Int) - 96 = (a : Int) := by push_cast; ring
  have hB : ((b + 96 : Nat) : Int) - 96 = (b : Int) := by push_cast; ring
  have hC : ((c + 96 : Nat) : Int) - 96 = (c : Int) := by push_cast; ring
  rw [hA, hB, hC]
  have hch : checkPfxChars [(a : Int), (b : Int), (c : Int)] = .ok () := by
    apply checkPfxChars_ok
    intro x hx
    simp only [List.mem_cons, List.not_mem_nil, or_false] at hx
    rcases hx with rfl | rfl | rfl <;> omega
  rw [hch, except_bind_ok]
  simp [Int.toNat_natCast, except_pure_eq]

theorem versionToPfx_letters (a b c : Nat) (ha1 : 1 ≤ a) (ha2 : a ≤ 26)
    (hb1 : 1 ≤ b) (hb2 : b ≤ 26) (hc1 : 1 ≤ c) (hc2 : c ≤ 26) :
    versionToPfx ((a <<< 10) + (b <<< 5) + c) =
      .ok [Char.ofNat (a + 96), Char.ofNat (b + 96), Char.ofNat (c + 96)] := by
  have hv : (a <<< 10) + (b <<< 5) + c = 1024 * a + 32 * b + c := by
    rw [Nat.shiftLeft_eq, Nat.shiftLeft_eq]
    ring
  have hhi : ((1024 * a + 32 * b + c) &&& 0x7C00) >>> 10 = a := by
    rw [extract_hi]
    omega
  have hmid : ((1024 * a + 32 * b + c) &&& 0x03E0) >>> 5 = b := by
    rw [extract_mid]
    omega
  have hlo : (1024 * a + 32 * b + c) &&& 0x001F = c := by
    rw [extract_lo]
    omega
  have hvalid : validVersionVal (1024 * a + 32 * b + c) := by
    right
    refine ⟨by omega, and_bit15_zero _ (by omega), ?_, ?_, ?_⟩
    · rw [hhi]; exact ⟨ha1, ha2⟩
    · rw [hmid]; exact ⟨hb1, hb2⟩
    · rw [hlo]; exact ⟨hc1, hc2⟩
  rw [hv, versionToPfx_ok_pos _ hvalid (by omega), hhi, hmid, hlo]

/-- C6: the prefix/version mapping is a bijection on its domain.  `genesis`
maps to 0 and back; every three-letter prefix with letter codes 1..26 maps to
its packed 15-bit version and back; every valid nonzero version maps to a
prefix that maps back to it; and prefixes with a letter code outside 1..26,
versions with the high bit set, versions whose 5-bit groups fall outside
1..26, and versions above 0xFFFF are all rejected with an error. -/
theorem c6_pfx_version_bijection :
    (versionToPfx 0 = .ok genesisPfx ∧ pfxToVersion genesisPfx = .ok 0) ∧
    (∀ a b c : Nat, 1 ≤ a → a ≤ 26 → 1 ≤ b → b ≤ 26 → 1 ≤ c → c ≤ 26 →
      pfxToVersion [Char.ofNat (a + 96), Char.ofNat (b + 96), Char.ofNat (c + 96)] =
        .ok ((a <<< 10) + (b <<< 5) + c) ∧
      versionToPfx ((a <<< 10) + (b <<< 5) + c) =
        .ok [Char.ofNat (a + 96), Char.ofNat (b + 96), Char.ofNat (c + 96)]) ∧
    (∀ v : Nat, validVersionVal v → v ≠ 0 →
      ∃ p, versionToPfx v = .ok p ∧ pfxToVersion p = .ok v) ∧
    (∀ p : List Char, p.length = 3 →
      (∃ x ∈ [((p.getD 0 'a').toNat : Int) - 96, ((p.getD 1 'a').toNat : Int) - 96,
        ((p.getD 2 'a').toNat : Int) - 96], x < 1 ∨ x > 26) →
      pfxToVersion p = .error "bech32: invalid prefix character") ∧
    (∀ v : Nat, v ≤ 65535 → v ≠ 0 → v &&& 0x8000 = 0x8000 →
      versionToPfx v = .error "bech32: invalid version") ∧
    (∀ v : Nat, v ≤ 65535 → v ≠ 0 → v &&& 0x8000 = 0 →
      (∃ x ∈ [(((v &&& 0x7C00) >>> 10 : Nat) : Int), (((v &&& 0x03E0) >>> 5 : Nat) : Int),
        ((v &&& 0x001F : Nat) : Int)], x < 1 ∨ x > 26) →
      versionToPfx v = .error "bech32: invalid prefix character") ∧
    (∀ v : Nat, v > 65535 → versionToPfx v = .error "invalid value") := by
  refine ⟨⟨rfl, rfl⟩, ?_, ?_, ?_, ?_, ?_, ?_⟩
  · intro a b c ha1 ha2 hb1 hb2 hc1 hc2
    exact ⟨pfxToVersion_letters a b c ha1 ha2 hb1 hb2 hc1 hc2,
      versionToPfx_letters a b c ha1 ha2 hb1 hb2 hc1 hc2⟩
  · intro v hval hv0
    rcases hval with h0 | ⟨hle, h8, ⟨ha1, ha2⟩, ⟨hb1, hb2⟩, ⟨hc1, hc2⟩⟩
    · exact absurd h0 hv0
    have hlt : v < 32768 := lt_32768_of_and_bit15 v hle h8
    refine ⟨_, versionToPfx_ok_pos v (Or.inr ⟨hle, h8, ⟨ha1, ha2⟩, ⟨hb1, hb2⟩,
      ⟨hc1, hc2⟩⟩) hv0, ?_⟩
    rw [pfxToVersion_letters _ _ _ ha1 ha2 hb1 hb2 hc1 hc2]
    congr 1
    rw [extract_hi, extract_mid, extract_lo] at *
    rw [Nat.shiftLeft_eq, Nat.shiftLeft_eq]
    norm_num
    omega
  · intro p hlen hbad
    have hne : p ≠ genesisPfx := by
      intro h
      rw [h] at hlen
      simp [genesisPfx] at hlen
    unfold pfxToVersion
    rw [if_neg hne]
    have hstr : validateStr p 3 = .ok () := by
      unfold validateStr
      rw [if_neg (by omega)]
      rfl
    rw [hstr, except_bind_ok]
    simp only [checkPfxChars_err _ hbad, except_bind_error]
  · intro v hle hv0 h8
    unfold versionToPfx
    rw [validateIntNat_ok v 0 65535 (by omega) hle, except_bind_ok, if_neg hv0,
      if_pos h8]
    rfl
  · intro v hle hv0 h8 hbad
    unfold versionToPfx
    rw [validateIntNat_ok v 0 65535 (by omega) hle, except_bind_ok, if_neg hv0,
      if_neg (by omega)]
    simp only [checkPfxChars_err _ hbad, except_bind_error]
  · intro v hgt
    unfold versionToPfx
    unfold validateIntNat
    rw [if_pos (by omega)]
    rfl

/-- Witness for C6 at the `umi` prefix (codes 21, 13, 9 → version 21929) and
at rejected inputs. -/
theorem c6_pfx_version_bijection_witness :
    (pfxToVersion [Char.ofNat (21 + 96), Char.ofNat (13 + 96), Char.ofNat (9 + 96)] =
      .ok ((21 <<< 10) + (13 <<< 5) + 9) ∧
     versionToPfx ((21 <<< 10) + (13 <<< 5) + 9) =
      .ok [Char.ofNat (21 + 96), Char.ofNat (13 + 96), Char.ofNat (9 + 96)]) ∧
    (∃ p, versionToPfx 21929 = .ok p ∧ pfxToVersion p = .ok 21929) ∧
    versionToPfx 32769 = .error "bech32: invalid version" ∧
    versionToPfx 65536 = .error "invalid value" ∧
    pfxToVersion ['u', 'm', '!'] = .error "bech32: invalid prefix character" := by
  refine ⟨c6_pfx_version_bijection.2.1 21 13 9 (by omega) (by omega) (by omega)
    (by omega) (by omega) (by omega), ?_, ?_, ?_, ?_⟩
  · exact c6_pfx_version_bijection.2.2.1 21929 (by decide) (by decide)
  · exact c6_pfx_version_bijection.2.2.2.2.1 32769 (by decide) (by decide) (by decide)
  · exact c6_pfx_version_bijection.2.2.2.2.2.2 65536 (by decide)
  · exact c6_pfx_version_bijection.2.2.2.1 ['u', 'm', '!'] (by decide) (by decide)


/-! ### Claim C2: the Address bech32 round-trip -/

theorem toNat8_aux (bs : List Nat) (acc : Nat) :
    bs.foldl (fun acc b => acc * 256 + b) acc =
      acc * 256 ^ bs.length + bs.foldl (fun acc b => acc * 256 + b) 0 := by
  induction bs generalizing acc with
  | nil => simp
  | cons b rest ih =>
    simp only [List.foldl_cons, List.length_cons]
    rw [ih (acc * 256 + b), ih (0 * 256 + b)]
    ring

theorem toNat8_cons (b : Nat) (bs : List Nat) :
    toNat8 (b :: bs) = b * 256 ^ bs.length + toNat8 bs := by
  unfold toNat8
  simp only [List.foldl_cons]
  rw [toNat8_aux]
  norm_num

theorem toNat8_append (xs ys : List Nat) :
    toNat8 (xs ++ ys) = toNat8 xs * 256 ^ ys.length + toNat8 ys := by
  unfold toNat8
  rw [List.foldl_append, toNat8_aux]

theorem toNat8_lt (bs : List Nat) (h : ∀ x ∈ bs, x < 256) :
    toNat8 bs < 256 ^ bs.length := by
  induction bs with
  | nil => simp [toNat8]
  | cons b rest ih =>
    rw [toNat8_cons]
    simp only [List.length_cons]
    have hb : b < 256 := h b (List.mem_cons_self b rest)
    have hr : toNat8 rest < 256 ^ rest.length := ih fun x hx => h x (List.mem_cons_of_mem b hx)
    have : b * 256 ^ rest.length + 256 ^ rest.length ≤ 256 ^ (rest.length + 1) := by
      rw [pow_succ]
      nlinarith [pow_pos (show 0 < 256 by norm_num) rest.length]
    omega

theorem toNat5_aux (bs : List Nat) (acc : Nat) :
    bs.foldl (fun acc v => acc * 32 + v) acc =
      acc * 32 ^ bs.length + bs.foldl (fun acc v => acc * 32 + v) 0 := by
  induction bs generalizing acc with
  | nil => simp
  | cons b rest ih =>
    simp only [List.foldl_cons, List.length_cons]
    rw [ih (acc * 32 + b), ih (0 * 32 + b)]
    ring

theorem toNat5_cons (b : Nat) (bs : List Nat) :
    toNat5 (b :: bs) = b * 32 ^ bs.length + toNat5 bs := by
  unfold toNat5
  simp only [List.foldl_cons]
  rw [toNat5_aux]
  norm_num

theorem toNat5_append (xs ys : List Nat) :
    toNat5 (xs ++ ys) = toNat5 xs * 32 ^ ys.length + toNat5 ys := by
  unfold toNat5
  rw [List.foldl_append, toNat5_aux]

theorem toNat5_lt (bs : List Nat) (h : ∀ x ∈ bs, x < 32) :
    toNat5 bs < 32 ^ bs.length := by
  induction bs with
  | nil => simp [toNat5]
  | cons b rest ih =>
    rw [toNat5_cons]
    simp only [List.length_cons]
    have hb : b < 32 := h b (List.mem_cons_self b rest)
    have hr : toNat5 rest < 32 ^ rest.length := ih fun x hx => h x (List.mem_cons_of_mem b hx)
    have : b * 32 ^ rest.length + 32 ^ rest.length ≤ 32 ^ (rest.length + 1) := by
      rw [pow_succ]
      nlinarith [pow_pos (show 0 < 32 by norm_num) rest.length]
    omega

theorem toNat8_inj (xs ys : List Nat) (hlen : xs.length = ys.length)
    (hx : ∀ x ∈ xs, x < 256) (hy : ∀ y ∈ ys, y < 256)
    (h : toNat8 xs = toNat8 ys) : xs = ys := by
  induction xs generalizing ys with
  | nil =>
    cases ys with
    | nil => rfl
    | cons y t => simp at hlen
  | cons x xt ih =>
    cases ys with
    | nil => simp at hlen
    | cons y yt =>
      simp only [List.length_cons] at hlen
      have hlen' : xt.length = yt.length := by omega
      rw [toNat8_cons, toNat8_cons, hlen'] at h
      have hxt : toNat8 xt < 256 ^ yt.length := by
        rw [← hlen']
        exact toNat8_lt xt fun a ha => hx a (List.mem_cons_of_mem x ha)
      have hyt : toNat8 yt < 256 ^ yt.length := toNat8_lt yt fun a ha => hy a (List.mem_cons_of_mem y ha)
      have hxy : x = y := by
        by_contra hne
        rcases Nat.lt_or_ge x y with hlt | hge
        · nlinarith
        · have : y < x := by omega
          nlinarith
      subst hxy
      have : toNat8 xt = toNat8 yt := by omega
      rw [ih yt hlen' (fun a ha => hx a (List.mem_cons_of_mem x ha))
        (fun a ha => hy a (List.mem_cons_of_mem x ha)) this]

theorem shiftLeft_or_eq_add (x k b : Nat) (hb : b < 2 ^ k) :
    (x <<< k) ||| b = x * 2 ^ k + b := by
  apply Nat.eq_of_testBit_eq
  intro i
  rw [Nat.mul_comm x (2 ^ k), Nat.testBit_mul_pow_two_add x hb i]
  simp only [Nat.testBit_or, Nat.testBit_shiftLeft]
  by_cases h : i < k
  · rw [if_pos h]
    have hk : ¬ k ≤ i := by omega
    simp [hk]
  · rw [if_neg h]
    have hk : k ≤ i := by omega
    have hbi : b.testBit i = false :=
      Nat.testBit_lt_two_pow (lt_of_lt_of_le hb (Nat.pow_le_pow_right (by norm_num) hk))
    simp [hk, hbi]

theorem emit5_spec (value bits : Nat) :
    (emit5 value bits).1.length = bits / 5 ∧ (emit5 value bits).2 = bits % 5 ∧
    toNat5 (emit5 value bits).1 = (value / 2 ^ (bits % 5)) % 2 ^ (5 * (bits / 5)) ∧
    (∀ x ∈ (emit5 value bits).1, x < 32) := by
  induction bits using Nat.strong_induction_on with
  | _ bits ih =>
    unfold emit5
    by_cases h : 5 ≤ bits
    · rw [dif_pos h]
      obtain ⟨ih1, ih2, ih3, ih4⟩ := ih (bits - 5) (by omega)
      refine ⟨?_, ?_, ?_, ?_⟩
      · simp only [List.length_cons, ih1]; omega
      · simp only [ih2]; omega
      · rw [toNat5_cons, ih1, ih3, and_mask5, Nat.shiftRight_eq_div_pow]
        have hr : (bits - 5) % 5 = bits % 5 := by omega
        have hm : bits - 5 = bits % 5 + 5 * ((bits - 5) / 5) := by omega
        have hdd : value / 2 ^ (bits - 5) =
            (value / 2 ^ (bits % 5)) / 2 ^ (5 * ((bits - 5) / 5)) := by
          rw [Nat.div_div_eq_div_mul, ← pow_add, ← hm]
        rw [hr, hdd]
        have key : (value / 2 ^ (bits % 5)) % (2 ^ (5 * ((bits - 5) / 5)) * 32) =
            (value / 2 ^ (bits % 5)) % 2 ^ (5 * ((bits - 5) / 5)) +
              ((value / 2 ^ (bits % 5)) / 2 ^ (5 * ((bits - 5) / 5)) % 32) *
                2 ^ (5 * ((bits - 5) / 5)) := by
          rw [Nat.mod_mul]; ring
        have hpow : 2 ^ (5 * (bits / 5)) = 2 ^ (5 * ((bits - 5) / 5)) * 32 := by
          have : 5 * (bits / 5) = 5 * ((bits - 5) / 5) + 5 := by omega
          rw [this, pow_add]; norm_num
        rw [hpow]
        have h32 : (32 : Nat) ^ ((bits - 5) / 5) = 2 ^ (5 * ((bits - 5) / 5)) := by
          rw [show (32 : Nat) = 2 ^ 5 from by norm_num, ← pow_mul]
        rw [h32]
        omega
      · intro x hx
        rcases List.mem_cons.mp hx with rfl | hmem
        · rw [and_mask5]; exact Nat.mod_lt _ (by norm_num)
        · exact ih4 x hmem
    · rw [dif_neg h]
      refine ⟨by simp; omega, by simp; omega, ?_, by simp⟩
      have h1 : 5 * (bits / 5) = 0 := by omega
      have h2 : bits % 5 = bits := by omega
      simp [toNat5, h1, h2, Nat.mod_one]

theorem emit8_spec (value bits : Nat) :
    (emit8 value bits).1.length = bits / 8 ∧ (emit8 value bits).2 = bits % 8 ∧
    toNat8 (emit8 value bits).1 = (value / 2 ^ (bits % 8)) % 2 ^ (8 * (bits / 8)) ∧
    (∀ x ∈ (emit8 value bits).1, x < 256) := by
  induction bits using Nat.strong_induction_on with
  | _ bits ih =>
    unfold emit8
    by_cases h : 8 ≤ bits
    · rw [dif_pos h]
      obtain ⟨ih1, ih2, ih3, ih4⟩ := ih (bits - 8) (by omega)
      refine ⟨?_, ?_, ?_, ?_⟩
      · simp only [List.length_cons, ih1]; omega
      · simp only [ih2]; omega
      · rw [toNat8_cons, ih1, ih3, and_255, Nat.shiftRight_eq_div_pow]
        have hr : (bits - 8) % 8 = bits % 8 := by omega
        have hm : bits - 8 = bits % 8 + 8 * ((bits - 8) / 8) := by omega
        have hdd : value / 2 ^ (bits - 8) =
            (value / 2 ^ (bits % 8)) / 2 ^ (8 * ((bits - 8) / 8)) := by
          rw [Nat.div_div_eq_div_mul, ← pow_add, ← hm]
        rw [hr, hdd]
        have key : (value / 2 ^ (bits % 8)) % (2 ^ (8 * ((bits - 8) / 8)) * 256) =
            (value / 2 ^ (bits % 8)) % 2 ^ (8 * ((bits - 8) / 8)) +
              ((value / 2 ^ (bits % 8)) / 2 ^ (8 * ((bits - 8) / 8)) % 256) *
                2 ^ (8 * ((bits - 8) / 8)) := by
          rw [Nat.mod_mul]; ring
        have hpow : 2 ^ (8 * (bits / 8)) = 2 ^ (8 * ((bits - 8) / 8)) * 256 := by
          have : 8 * (bits / 8) = 8 * ((bits - 8) / 8) + 8 := by omega
          rw [this, pow_add]; norm_num
        rw [hpow]
        have h256 : (256 : Nat) ^ ((bits - 8) / 8) = 2 ^ (8 * ((bits - 8) / 8)) := by
          rw [show (256 : Nat) = 2 ^ 8 from by norm_num, ← pow_mul]
        rw [h256]
        omega
      · intro x hx
        rcases List.mem_cons.mp hx with rfl | hmem
        · rw [and_255]; exact Nat.mod_lt _ (by norm_num)
        · exact ih4 x hmem
    · rw [dif_neg h]
      refine ⟨by simp; omega, by simp; omega, ?_, by simp⟩
      have h1 : 8 * (bits / 8) = 0 := by omega
      have h2 : bits % 8 = bits := by omega
      simp [toNat8, h1, h2, Nat.mod_one]

theorem pow32_eq (j : Nat) : (32 : Nat) ^ j = 2 ^ (5 * j) := by
  rw [show (32 : Nat) = 2 ^ 5 from by norm_num, ← pow_mul]

theorem pow256_eq (j : Nat) : (256 : Nat) ^ j = 2 ^ (8 * j) := by
  rw [show (256 : Nat) = 2 ^ 8 from by norm_num, ← pow_mul]

theorem add_mul_pow_div (A W k m : Nat) :
    (A * 2 ^ (k + m) + W) / 2 ^ k = A * 2 ^ m + W / 2 ^ k := by
  rw [pow_add, show A * (2 ^ k * 2 ^ m) = A * 2 ^ m * 2 ^ k from by ring, Nat.add_comm,
    Nat.add_mul_div_right _ _ (pow_pos (show (0:Nat) < 2 from by norm_num) k)]
  omega

theorem add_mul_pow_mod (A W k m : Nat) :
    (A * 2 ^ (k + m) + W) % 2 ^ k = W % 2 ^ k := by
  rw [pow_add, show A * (2 ^ k * 2 ^ m) = A * 2 ^ m * 2 ^ k from by ring, Nat.add_comm,
    Nat.add_mul_mod_self_right]

theorem c85_spec (data : List Nat) : ∀ value bits : Nat, bits < 5 →
    (∀ x ∈ data, x < 256) →
    (c85 data value bits).1.length = (bits + 8 * data.length) / 5 ∧
    (c85 data value bits).2.2 = (bits + 8 * data.length) % 5 ∧
    toNat5 (c85 data value bits).1 =
      (value % 2 ^ bits * 2 ^ (8 * data.length) + toNat8 data) /
        2 ^ ((bits + 8 * data.length) % 5) ∧
    (c85 data value bits).2.1 % 2 ^ ((bits + 8 * data.length) % 5) =
      (value % 2 ^ bits * 2 ^ (8 * data.length) + toNat8 data) %
        2 ^ ((bits + 8 * data.length) % 5) ∧
    (∀ x ∈ (c85 data value bits).1, x < 32) := by
  induction data with
  | nil =>
    intro value bits hbits _
    refine ⟨by simp [c85]; omega, by simp [c85]; omega, ?_, ?_, by simp [c85]⟩
    · have h1 : (bits + 8 * ([] : List Nat).length) % 5 = bits := by simp; omega
      rw [h1]
      simp [c85, toNat5, toNat8]
    · have h1 : (bits + 8 * ([] : List Nat).length) % 5 = bits := by simp; omega
      rw [h1]
      simp only [c85, toNat8, List.foldl_nil, List.length_nil, Nat.mul_zero, pow_zero,
        Nat.mul_one, Nat.add_zero]
      exact (Nat.mod_mod_of_dvd _ dvd_rfl).symm
  | cons b rest ih =>
    intro value bits hbits hdata
    have hb : b < 256 := hdata b (List.mem_cons_self b rest)
    have hrest : ∀ x ∈ rest, x < 256 := fun x hx => hdata x (List.mem_cons_of_mem b hx)
    have hval2 : (value <<< 8) ||| b = value * 256 + b := by
      have := shiftLeft_or_eq_add value 8 b (by norm_num; omega)
      norm_num at this ⊢
      exact this
    obtain ⟨em1, em2, em3, em4⟩ := emit5_spec (value * 256 + b) (bits + 8)
    obtain ⟨t1, t2, t3, t4, t5⟩ := ih (value * 256 + b) ((bits + 8) % 5) (by omega) hrest
    simp only [c85, hval2, em2, List.length_cons]
    -- abbreviations
    have hpow0 : (0:Nat) < 2 ^ bits := pow_pos (by norm_num) bits
    have hv0 : value % 2 ^ bits < 2 ^ bits := Nat.mod_lt _ hpow0
    have hUlt : value % 2 ^ bits * 256 + b < 2 ^ (bits + 8) := by
      rw [pow_add]
      norm_num
      nlinarith
    have hU : (value * 256 + b) % 2 ^ (bits + 8) = value % 2 ^ bits * 256 + b := by
      have hdm := Nat.div_add_mod value (2 ^ bits)
      have hsplit : value * 256 + b =
          2 ^ (bits + 8) * (value / 2 ^ bits) + (value % 2 ^ bits * 256 + b) := by
        calc value * 256 + b
            = (2 ^ bits * (value / 2 ^ bits) + value % 2 ^ bits) * 256 + b := by rw [hdm]
          _ = 2 ^ (bits + 8) * (value / 2 ^ bits) + (value % 2 ^ bits * 256 + b) := by
              rw [pow_add]; ring
      rw [hsplit, Nat.mul_add_mod, Nat.mod_eq_of_lt hUlt]
    have hmodsmall : (value * 256 + b) % 2 ^ ((bits + 8) % 5) =
        (value % 2 ^ bits * 256 + b) % 2 ^ ((bits + 8) % 5) := by
      rw [← hU, Nat.mod_mod_of_dvd _ (pow_dvd_pow 2 (by omega))]
    have hA : (value * 256 + b) / 2 ^ ((bits + 8) % 5) % 2 ^ (5 * ((bits + 8) / 5)) =
        (value % 2 ^ bits * 256 + b) / 2 ^ ((bits + 8) % 5) := by
      rw [← Nat.mod_mul_right_div_self, ← pow_add,
        show (bits + 8) % 5 + 5 * ((bits + 8) / 5) = bits + 8 from by omega, hU]
    -- the combined-value identity
    have hW : value % 2 ^ bits * 2 ^ (8 * (rest.length + 1)) + toNat8 (b :: rest) =
        ((value % 2 ^ bits * 256 + b) / 2 ^ ((bits + 8) % 5)) *
            2 ^ ((bits + 8) % 5 + 8 * rest.length) +
          ((value * 256 + b) % 2 ^ ((bits + 8) % 5) * 2 ^ (8 * rest.length) +
            toNat8 rest) := by
      rw [hmodsmall, toNat8_cons, pow256_eq]
      have hdm2 := Nat.div_add_mod (value % 2 ^ bits * 256 + b) (2 ^ ((bits + 8) % 5))
      calc value % 2 ^ bits * 2 ^ (8 * (rest.length + 1)) +
            (b * 2 ^ (8 * rest.length) + toNat8 rest)
          = (value % 2 ^ bits * 256 + b) * 2 ^ (8 * rest.length) + toNat8 rest := by
            rw [show 8 * (rest.length + 1) = 8 + 8 * rest.length from by ring, pow_add]
            ring
        _ = (2 ^ ((bits + 8) % 5) * ((value % 2 ^ bits * 256 + b) / 2 ^ ((bits + 8) % 5)) +
              (value % 2 ^ bits * 256 + b) % 2 ^ ((bits + 8) % 5)) * 2 ^ (8 * rest.length) +
              toNat8 rest := by rw [hdm2]
        _ = _ := by rw [pow_add]; ring
    refine ⟨?_, ?_, ?_, ?_, ?_⟩
    · simp only [List.length_append, em1, t1]; omega
    · rw [t2]; omega
    · rw [toNat5_append, em3, t1, t3, hA]
      rw [show (bits + 8 * (rest.length + 1)) % 5 = ((bits + 8) % 5 + 8 * rest.length) % 5
        from by omega]
      rw [hW]
      rw [show (2:Nat) ^ ((bits + 8) % 5 + 8 * rest.length) =
        2 ^ ((((bits + 8) % 5 + 8 * rest.length) % 5) +
          5 * (((bits + 8) % 5 + 8 * rest.length) / 5)) from by
        rw [show (((bits + 8) % 5 + 8 * rest.length) % 5) +
          5 * (((bits + 8) % 5 + 8 * rest.length) / 5) =
          (bits + 8) % 5 + 8 * rest.length from by omega]]
      rw [add_mul_pow_div, pow32_eq]
    · rw [show (bits + 8 * (rest.length + 1)) % 5 = ((bits + 8) % 5 + 8 * rest.length) % 5
        from by omega]
      rw [t4, hW]
      rw [show (2:Nat) ^ ((bits + 8) % 5 + 8 * rest.length) =
        2 ^ ((((bits + 8) % 5 + 8 * rest.length) % 5) +
          5 * (((bits + 8) % 5 + 8 * rest.length) / 5)) from by
        rw [show (((bits + 8) % 5 + 8 * rest.length) % 5) +
          5 * (((bits + 8) % 5 + 8 * rest.length) / 5) =
          (bits + 8) % 5 + 8 * rest.length from by omega]]
      rw [add_mul_pow_mod]
    · intro x hx
      rcases List.mem_append.mp hx with hm | hm
      · exact em4 x hm
      · exact t5 x hm

theorem c58_spec (data : List Nat) : ∀ value bits : Nat, bits < 8 →
    (∀ x ∈ data, x < 32) →
    (c58 data value bits).1.length = (bits + 5 * data.length) / 8 ∧
    (c58 data value bits).2.2 = (bits + 5 * data.length) % 8 ∧
    toNat8 (c58 data value bits).1 =
      (value % 2 ^ bits * 2 ^ (5 * data.length) + toNat5 data) /
        2 ^ ((bits + 5 * data.length) % 8) ∧
    (c58 data value bits).2.1 % 2 ^ ((bits + 5 * data.length) % 8) =
      (value % 2 ^ bits * 2 ^ (5 * data.length) + toNat5 data) %
        2 ^ ((bits + 5 * data.length) % 8) ∧
    (∀ x ∈ (c58 data value bits).1, x < 256) := by
  induction data with
  | nil =>
    intro value bits hbits _
    refine ⟨by simp [c58]; omega, by simp [c58]; omega, ?_, ?_, by simp [c58]⟩
    · have h1 : (bits + 5 * ([] : List Nat).length) % 8 = bits := by simp; omega
      rw [h1]
      simp [c58, toNat8, toNat5]
    · have h1 : (bits + 5 * ([] : List Nat).length) % 8 = bits := by simp; omega
      rw [h1]
      simp only [c58, toNat5, List.foldl_nil, List.length_nil, Nat.mul_zero, pow_zero,
        Nat.mul_one, Nat.add_zero]
      exact (Nat.mod_mod_of_dvd _ dvd_rfl).symm
  | cons b rest ih =>
    intro value bits hbits hdata
    have hb : b < 32 := hdata b (List.mem_cons_self b rest)
    have hrest : ∀ x ∈ rest, x < 32 := fun x hx => hdata x (List.mem_cons_of_mem b hx)
    have hval2 : (value <<< 5) ||| b = value * 32 + b := by
      have := shiftLeft_or_eq_add value 5 b (by norm_num; omega)
      norm_num at this ⊢
      exact this
    obtain ⟨em1, em2, em3, em4⟩ := emit8_spec (value * 32 + b) (bits + 5)
    obtain ⟨t1, t2, t3, t4, t5⟩ := ih (value * 32 + b) ((bits + 5) % 8) (by omega) hrest
    simp only [c58, hval2, em2, List.length_cons]
    have hpow0 : (0:Nat) < 2 ^ bits := pow_pos (by norm_num) bits
    have hv0 : value % 2 ^ bits < 2 ^ bits := Nat.mod_lt _ hpow0
    have hUlt : value % 2 ^ bits * 32 + b < 2 ^ (bits + 5) := by
      rw [pow_add]
      norm_num
      nlinarith
    have hU : (value * 32 + b) % 2 ^ (bits + 5) = value % 2 ^ bits * 32 + b := by
      have hdm := Nat.div_add_mod value (2 ^ bits)
      have hsplit : value * 32 + b =
          2 ^ (bits + 5) * (value / 2 ^ bits) + (value % 2 ^ bits * 32 + b) := by
        calc value * 32 + b
            = (2 ^ bits * (value / 2 ^ bits) + value % 2 ^ bits) * 32 + b := by rw [hdm]
          _ = 2 ^ (bits + 5) * (value / 2 ^ bits) + (value % 2 ^ bits * 32 + b) := by
              rw [pow_add]; ring
      rw [hsplit, Nat.mul_add_mod, Nat.mod_eq_of_lt hUlt]
    have hmodsmall : (value * 32 + b) % 2 ^ ((bits + 5) % 8) =
        (value % 2 ^ bits * 32 + b) % 2 ^ ((bits + 5) % 8) := by
      rw [← hU, Nat.mod_mod_of_dvd _ (pow_dvd_pow 2 (by omega))]
    have hA : (value * 32 + b) / 2 ^ ((bits + 5) % 8) % 2 ^ (8 * ((bits + 5) / 8)) =
        (value % 2 ^ bits * 32 + b) / 2 ^ ((bits + 5) % 8) := by
      rw [← Nat.mod_mul_right_div_self, ← pow_add,
        show (bits + 5) % 8 + 8 * ((bits + 5) / 8) = bits + 5 from by omega, hU]
    have hW : value % 2 ^ bits * 2 ^ (5 * (rest.length + 1)) + toNat5 (b :: rest) =
        ((value % 2 ^ bits * 32 + b) / 2 ^ ((bits + 5) % 8)) *
            2 ^ ((bits + 5) % 8 + 5 * rest.length) +
          ((value * 32 + b) % 2 ^ ((bits + 5) % 8) * 2 ^ (5 * rest.length) +
            toNat5 rest) := by
      rw [hmodsmall, toNat5_cons, pow32_eq]
      have hdm2 := Nat.div_add_mod (value % 2 ^ bits * 32 + b) (2 ^ ((bits + 5) % 8))
      calc value % 2 ^ bits * 2 ^ (5 * (rest.length + 1)) +
            (b * 2 ^ (5 * rest.length) + toNat5 rest)
          = (value % 2 ^ bits * 32 + b) * 2 ^ (5 * rest.length) + toNat5 rest := by
            rw [show 5 * (rest.length + 1) = 5 + 5 * rest.length from by ring, pow_add]
            ring
        _ = (2 ^ ((bits + 5) % 8) * ((value % 2 ^ bits * 32 + b) / 2 ^ ((bits + 5) % 8)) +
              (value % 2 ^ bits * 32 + b) % 2 ^ ((bits + 5) % 8)) * 2 ^ (5 * rest.length) +
              toNat5 rest := by rw [hdm2]
        _ = _ := by rw [pow_add]; ring
    refine ⟨?_, ?_, ?_, ?_, ?_⟩
    · simp only [List.length_append, em1, t1]; omega
    · rw [t2]; omega
    · rw [toNat8_append, em3, t1, t3, hA]
      rw [show (bits + 5 * (rest.length + 1)) % 8 = ((bits + 5) % 8 + 5 * rest.length) % 8
        from by omega]
      rw [hW]
      rw [show (2:Nat) ^ ((bits + 5) % 8 + 5 * rest.length) =
        2 ^ ((((bits + 5) % 8 + 5 * rest.length) % 8) +
          8 * (((bits + 5) % 8 + 5 * rest.length) / 8)) from by
        rw [show (((bits + 5) % 8 + 5 * rest.length) % 8) +
          8 * (((bits + 5) % 8 + 5 * rest.length) / 8) =
          (bits + 5) % 8 + 5 * rest.length from by omega]]
      rw [add_mul_pow_div, pow256_eq]
    · rw [show (bits + 5 * (rest.length + 1)) % 8 = ((bits + 5) % 8 + 5 * rest.length) % 8
        from by omega]
      rw [t4, hW]
      rw [show (2:Nat) ^ ((bits + 5) % 8 + 5 * rest.length) =
        2 ^ ((((bits + 5) % 8 + 5 * rest.length) % 8) +
          8 * (((bits + 5) % 8 + 5 * rest.length) / 8)) from by
        rw [show (((bits + 5) % 8 + 5 * rest.length) % 8) +
          8 * (((bits + 5) % 8 + 5 * rest.length) / 8) =
          (bits + 5) % 8 + 5 * rest.length from by omega]]
      rw [add_mul_pow_mod]
    · intro x hx
      rcases List.mem_append.mp hx with hm | hm
      · exact em4 x hm
      · exact t5 x hm

theorem charAt_index : ∀ v < 32, jsIndexOf bech32Alphabet (bech32CharAt v) = (v : Int) := by
  decide

theorem convert8to5_spec (data : List Nat) (hlen : data.length = 32)
    (hdata : ∀ x ∈ data, x < 256) :
    (convert8to5 data).length = 52 ∧ (∀ x ∈ convert8to5 data, x < 32) ∧
    toNat5 (convert8to5 data) = 16 * toNat8 data := by
  obtain ⟨s1, s2, s3, s4, s5⟩ := c85_spec data 0 0 (by norm_num) hdata
  rw [hlen] at s1 s2 s3 s4
  norm_num at s1 s2 s3 s4
  simp only [convert8to5]
  rw [s2]
  norm_num
  have hx : (c85 data 0 0).2.1 <<< 4 &&& 31 = (c85 data 0 0).2.1 % 2 * 16 := by
    rw [and_mask5, Nat.shiftLeft_eq]
    norm_num
    omega
  refine ⟨?_, ?_, ?_⟩
  · simp [s1]
  · intro x hx2
    rcases hx2 with hm | hm
    · exact s5 x hm
    · rw [hm, hx]
      omega
  · rw [toNat5_append, s3, hx, s4]
    simp [toNat5]
    omega

theorem strToBytes_map_charAt (vs : List Nat) (h : ∀ v ∈ vs, v < 32) :
    strToBytes (vs.map bech32CharAt) = vs := by
  induction vs with
  | nil => rfl
  | cons v rest ih =>
    have hv : v < 32 := h v (List.mem_cons_self v rest)
    have hrest := ih fun x hx => h x (List.mem_cons_of_mem v hx)
    unfold strToBytes at hrest ⊢
    simp only [List.map_cons, List.map_map] at hrest ⊢
    congr 1
    rw [charAt_index v hv]
    exact Int.toNat_natCast v

theorem convert_roundtrip (data : List Nat) (hlen : data.length = 32)
    (hdata : ∀ x ∈ data, x < 256) :
    convert5to8 (convert8to5Chars data) = .ok data := by
  obtain ⟨h52, hlt32, hval⟩ := convert8to5_spec data hlen hdata
  unfold convert5to8 convert8to5Chars
  rw [strToBytes_map_charAt _ hlt32]
  obtain ⟨s1, s2, s3, s4, s5⟩ := c58_spec (convert8to5 data) 0 0 (by norm_num) hlt32
  rw [h52] at s1 s2 s3 s4
  norm_num at s1 s2 s3 s4
  rw [hval] at s3 s4
  have h16 : 16 * toNat8 data / 16 = toNat8 data := by omega
  have hcond : ¬ (5 ≤ (c58 (convert8to5 data) 0 0).2.2 ∨
      ((c58 (convert8to5 data) 0 0).2.1 <<< (8 - (c58 (convert8to5 data) 0 0).2.2)) &&&
        0xff ≠ 0) := by
    rw [s2]
    push_neg
    refine ⟨by norm_num, ?_⟩
    rw [Nat.shiftLeft_eq, and_255]
    norm_num
    omega
  rw [if_neg hcond]
  congr 1
  apply toNat8_inj _ _ (by rw [s1, hlen]) s5 hdata
  rw [s3, h16]

theorem xor_shiftLeft_distrib (a b k : Nat) :
    (a ^^^ b) <<< k = (a <<< k) ^^^ (b <<< k) := by
  apply Nat.eq_of_testBit_eq
  intro i
  simp only [Nat.testBit_shiftLeft, Nat.testBit_xor]
  by_cases h : k ≤ i <;> simp [h]

theorem xor_shiftRight_high (Z V k : Nat) (hV : V < 2 ^ k) :
    (Z ^^^ V) >>> k = Z >>> k := by
  apply Nat.eq_of_testBit_eq
  intro i
  simp only [Nat.testBit_shiftRight, Nat.testBit_xor]
  rw [Nat.testBit_lt_two_pow
    (lt_of_lt_of_le hV (Nat.pow_le_pow_right (by norm_num) (Nat.le_add_right k i)))]
  simp

theorem reassemble5 (x : Nat) : ((x >>> 5) <<< 5) ^^^ (x &&& 31) = x := by
  apply Nat.eq_of_testBit_eq
  intro i
  simp only [Nat.testBit_xor, Nat.testBit_shiftLeft, Nat.testBit_shiftRight,
    Nat.testBit_and, show (31 : Nat) = 2 ^ 5 - 1 from by norm_num,
    Nat.testBit_two_pow_sub_one]
  by_cases h : 5 ≤ i
  · simp [h, show ¬ i < 5 from by omega, show 5 + (i - 5) = i from by omega]
  · simp [h, show i < 5 from by omega]

theorem foldl_xor_extract (g : Nat → Nat) (l : List Nat) : ∀ X W : Nat,
    l.foldl (fun c j => c ^^^ g j) (X ^^^ W) = l.foldl (fun c j => c ^^^ g j) X ^^^ W := by
  induction l with
  | nil => intro X W; rfl
  | cons j rest ih =>
    intro X W
    simp only [List.foldl_cons]
    rw [show (X ^^^ W) ^^^ g j = (X ^^^ g j) ^^^ W from by
      rw [Nat.xor_assoc, Nat.xor_assoc, Nat.xor_comm W (g j)]]
    exact ih (X ^^^ g j) W

theorem polyModStep_xor (Z V c : Nat) (hV : V < 2 ^ 25) :
    polyModStep (Z ^^^ V) c = polyModStep Z 0 ^^^ ((V <<< 5) ^^^ c) := by
  simp only [polyModStep]
  rw [xor_shiftRight_high Z V 25 hV]
  have hand : (Z ^^^ V) &&& 0x1ffffff = (Z &&& 0x1ffffff) ^^^ V := by
    rw [Nat.and_xor_distrib_right]
    congr 1
    rw [show (0x1ffffff : Nat) = 2 ^ 25 - 1 from by norm_num, and_two_pow_sub_one',
      Nat.mod_eq_of_lt hV]
  rw [hand, xor_shiftLeft_distrib, Nat.xor_zero]
  rw [show (((Z &&& 0x1ffffff) <<< 5) ^^^ (V <<< 5)) ^^^ c =
    ((Z &&& 0x1ffffff) <<< 5) ^^^ ((V <<< 5) ^^^ c) from Nat.xor_assoc _ _ _]
  exact foldl_xor_extract _ _ _ _

theorem gen_sel_lt (top : Nat) (j : Nat) :
    (if (top >>> j) &&& 1 = 1 then bech32Gen.getD j 0 else 0) < 2 ^ 30 := by
  split
  · rcases j with _|_|_|_|_|n <;> simp [bech32Gen]
  · norm_num

theorem polyModStep_lt (chk v : Nat) (hv : v < 2 ^ 30) : polyModStep chk v < 2 ^ 30 := by
  simp only [polyModStep]
  have h2 : ((chk &&& 0x1ffffff) <<< 5) ^^^ v < 2 ^ 30 := by
    apply Nat.xor_lt_two_pow _ hv
    rw [Nat.shiftLeft_eq]
    have := Nat.and_lt_two_pow chk (show (0x1ffffff : Nat) < 2 ^ 25 from by norm_num)
    norm_num at this ⊢
    omega
  simp only [List.foldl_cons, List.foldl_nil]
  exact Nat.xor_lt_two_pow (Nat.xor_lt_two_pow (Nat.xor_lt_two_pow (Nat.xor_lt_two_pow
    (Nat.xor_lt_two_pow h2 (gen_sel_lt _ 0)) (gen_sel_lt _ 1)) (gen_sel_lt _ 2))
    (gen_sel_lt _ 3)) (gen_sel_lt _ 4)

theorem polyMod_foldl_lt (values : List Nat) : ∀ c : Nat, c < 2 ^ 30 →
    (∀ v ∈ values, v < 2 ^ 30) → values.foldl polyModStep c < 2 ^ 30 := by
  induction values with
  | nil => intro c hc _; exact hc
  | cons v rest ih =>
    intro c hc hv
    simp only [List.foldl_cons]
    exact ih (polyModStep c v) (polyModStep_lt c v (hv v (List.mem_cons_self v rest)))
      fun x hx => hv x (List.mem_cons_of_mem v hx)

theorem polyMod_lt (values : List Nat) (hv : ∀ v ∈ values, v < 2 ^ 30) :
    polyMod values < 2 ^ 30 :=
  polyMod_foldl_lt values 1 (by norm_num) hv

theorem step6 (S P : Nat) (hP : P < 2 ^ 30) :
    List.foldl polyModStep S
      [P >>> 25 &&& 31, P >>> 20 &&& 31, P >>> 15 &&& 31, P >>> 10 &&& 31,
       P >>> 5 &&& 31, P &&& 31] =
    List.foldl polyModStep S (List.replicate 6 0) ^^^ P := by
  have hb : ∀ k, 5 ≤ k → P >>> k < 2 ^ 25 := by
    intro k hk
    rw [Nat.shiftRight_eq_div_pow]
    have h1 : (2 : Nat) ^ 5 ≤ 2 ^ k := Nat.pow_le_pow_right (by norm_num) hk
    have h2 : P / 2 ^ k ≤ P / 2 ^ 5 := Nat.div_le_div_left h1 (by positivity)
    norm_num at h2 ⊢
    omega
  have hchain : ∀ Z k, polyModStep (Z ^^^ (P >>> (k + 5))) (P >>> k &&& 31) =
      polyModStep Z 0 ^^^ (P >>> k) := by
    intro Z k
    rw [polyModStep_xor Z _ _ (hb (k + 5) (by omega))]
    congr 1
    rw [show P >>> (k + 5) = (P >>> k) >>> 5 from by rw [Nat.shiftRight_add], reassemble5]
  have h30 : P >>> 30 = 0 := by
    rw [Nat.shiftRight_eq_div_pow]
    norm_num
    omega
  have e1 := hchain S 25
  rw [show (25 + 5 : Nat) = 30 from by norm_num, h30, Nat.xor_zero] at e1
  have e2 := hchain (polyModStep S 0) 20
  rw [show (20 + 5 : Nat) = 25 from by norm_num] at e2
  have e3 := hchain (polyModStep (polyModStep S 0) 0) 15
  rw [show (15 + 5 : Nat) = 20 from by norm_num] at e3
  have e4 := hchain (polyModStep (polyModStep (polyModStep S 0) 0) 0) 10
  rw [show (10 + 5 : Nat) = 15 from by norm_num] at e4
  have e5 := hchain (polyModStep (polyModStep (polyModStep (polyModStep S 0) 0) 0) 0) 5
  rw [show (5 + 5 : Nat) = 10 from by norm_num] at e5
  have e6 := hchain
    (polyModStep (polyModStep (polyModStep (polyModStep (polyModStep S 0) 0) 0) 0) 0) 0
  rw [Nat.zero_add, Nat.shiftRight_zero] at e6
  rw [show List.replicate 6 (0 : Nat) = [0, 0, 0, 0, 0, 0] from rfl]
  simp only [List.foldl_cons, List.foldl_nil]
  rw [e1, e2, e3, e4, e5, e6]

theorem pfxExpand_lt (p : List Char) : ∀ v ∈ pfxExpand p, v < 2 ^ 30 := by
  intro v hv
  unfold pfxExpand at hv
  rcases List.mem_append.mp hv with h | h
  · rcases List.mem_append.mp h with h2 | h2
    · obtain ⟨c, _, rfl⟩ := List.mem_map.mp h2
      have hc : c.toNat < UInt32.size := UInt32.toNat_lt_size c.val
      rw [Nat.shiftRight_eq_div_pow]
      norm_num
      unfold UInt32.size at hc
      omega
    · simp at h2
      rw [h2]
      norm_num
  · obtain ⟨c, _, rfl⟩ := List.mem_map.mp h
    rw [and_mask5]
    have := Nat.mod_lt c.toNat (show (0:Nat) < 32 from by norm_num)
    norm_num
    omega

theorem strToBytes_append (a b : List Char) :
    strToBytes (a ++ b) = strToBytes a ++ strToBytes b := by
  unfold strToBytes
  rw [List.map_append]

theorem polyMod_checksum (p : List Char) (vs : List Nat) (hvs : ∀ v ∈ vs, v < 32) :
    polyMod (pfxExpand p ++
      strToBytes (vs.map bech32CharAt ++ createChecksum p (vs.map bech32CharAt))) = 1 := by
  have hvals : ∀ v ∈ pfxExpand p ++ vs ++ List.replicate 6 0, v < 2 ^ 30 := by
    intro v hv
    rcases List.mem_append.mp hv with h | h
    · rcases List.mem_append.mp h with h2 | h2
      · exact pfxExpand_lt p v h2
      · have := hvs v h2
        norm_num
        omega
    · rw [List.eq_of_mem_replicate h]
      norm_num
  set P := polyMod (pfxExpand p ++ vs ++ List.replicate 6 0) ^^^ 1 with hPdef
  have hP : P < 2 ^ 30 := Nat.xor_lt_two_pow (polyMod_lt _ hvals) (by norm_num)
  have hcs : createChecksum p (vs.map bech32CharAt) =
      [P >>> 25 &&& 31, P >>> 20 &&& 31, P >>> 15 &&& 31, P >>> 10 &&& 31,
       P >>> 5 &&& 31, P &&& 31].map bech32CharAt := by
    simp only [createChecksum, strToBytes_map_charAt vs hvs]
    rw [← hPdef]
    rw [show List.range 6 = [0, 1, 2, 3, 4, 5] from rfl]
    simp only [List.map_cons, List.map_nil]
    norm_num [Nat.shiftRight_zero]
  rw [hcs, strToBytes_append, strToBytes_map_charAt vs hvs, strToBytes_map_charAt _ (by
    intro v hv
    simp only [List.mem_cons, List.not_mem_nil, or_false] at hv
    rcases hv with rfl | rfl | rfl | rfl | rfl | rfl <;>
      (rw [and_mask5]; exact Nat.mod_lt _ (by norm_num)))]
  unfold polyMod
  rw [← List.append_assoc, List.foldl_append]
  rw [step6 _ P hP]
  have hfold : (List.replicate 6 0).foldl polyModStep
      ((pfxExpand p ++ vs).foldl polyModStep 1) = P ^^^ 1 := by
    rw [hPdef, Nat.xor_assoc, Nat.xor_self, Nat.xor_zero]
    unfold polyMod
    simp only [List.foldl_append]
  rw [hfold, Nat.xor_comm P 1, Nat.xor_assoc, Nat.xor_self, Nat.xor_zero]

theorem except_pure_bind (x : α) (f : α → Except ε β) :
    (pure x >>= f : Except ε β) = f x := rfl

theorem map_fixed (f : Char → Char) (l : List Char) (h : ∀ c ∈ l, f c = c) :
    l.map f = l := by
  induction l with
  | nil => rfl
  | cons c rest ih =>
    rw [List.map_cons, h c (List.mem_cons_self c rest),
      ih fun x hx => h x (List.mem_cons_of_mem c hx)]

theorem checkAlphabet_ok (chars : List Char)
    (h : ∀ c ∈ chars, jsIndexOf bech32Alphabet c ≠ -1) : checkAlphabet chars = .ok () := by
  induction chars with
  | nil => rfl
  | cons c rest ih =>
    unfold checkAlphabet
    rw [if_neg (h c (List.mem_cons_self c rest))]
    exact ih fun x hx => h x (List.mem_cons_of_mem c hx)

theorem asciiToLower_charAt : ∀ v < 32, asciiToLower (bech32CharAt v) = bech32CharAt v := by
  decide

theorem charAt_ne_one : ∀ v < 32, bech32CharAt v ≠ '1' := by
  decide

theorem indexOf?_append_cons (a : List Char) (c : Char) (b : List Char) (h : c ∉ a) :
    (a ++ c :: b).indexOf? c = some a.length := by
  induction a with
  | nil => simp [List.indexOf?_cons]
  | cons x rest ih =>
    have hx : x ≠ c := fun hxc => h (hxc ▸ List.mem_cons_self x rest)
    have hrest : c ∉ rest := fun hm => h (List.mem_cons_of_mem x hm)
    rw [List.cons_append, List.indexOf?_cons, if_neg (by simp [hx]), ih hrest]
    rfl

theorem jsLastIndexOf_sep (p t : List Char) (_hp : '1' ∉ p) (ht : '1' ∉ t) :
    jsLastIndexOf (p ++ '1' :: t) '1' = (p.length : Int) := by
  unfold jsLastIndexOf
  have hrev : (p ++ '1' :: t).reverse = t.reverse ++ '1' :: p.reverse := by
    rw [List.reverse_append, List.reverse_cons, List.append_assoc]
    rfl
  rw [hrev, indexOf?_append_cons _ _ _ (by simpa using ht)]
  simp only [List.length_reverse, List.length_append, List.length_cons]
  rw [show p.length + (t.length + 1) - 1 - t.length = p.length from by omega]

theorem createChecksum_mem (p d : List Char) (c : Char) (hc : c ∈ createChecksum p d) :
    ∃ w, w < 32 ∧ c = bech32CharAt w := by
  simp only [createChecksum, List.mem_map] at hc
  obtain ⟨i, _, rfl⟩ := hc
  exact ⟨_, by rw [and_mask5]; exact Nat.mod_lt _ (by norm_num), rfl⟩

theorem charAt_index_ne (w : Nat) (hw : w < 32) :
    jsIndexOf bech32Alphabet (bech32CharAt w) ≠ -1 := by
  rw [charAt_index w hw]
  omega

theorem bech32_decode_encode (p : List Char) (v : Nat) (rest : List Nat)
    (h32 : rest.length = 32) (hlt : ∀ x ∈ rest, x < 256)
    (hp1 : '1' ∉ p) (hplow : ∀ c ∈ p, asciiToLower c = c)
    (hpv : pfxToVersion p = .ok v) (hplen : p.length = 3 ∨ p.length = 7) :
    bech32Decode (p ++ '1' ::
      (convert8to5Chars rest ++ createChecksum p (convert8to5Chars rest))) =
      .ok (uint16ToBytes v ++ rest) := by
  obtain ⟨h52, hlt32, hval5⟩ := convert8to5_spec rest h32 hlt
  set data := convert8to5Chars rest with hdata
  set cs := createChecksum p data with hcs
  have hdata' : data = (convert8to5 rest).map bech32CharAt := by
    rw [hdata]
    rfl
  have hdlen : data.length = 52 := by
    rw [hdata']
    simp [h52]
  have hcslen : cs.length = 6 := by
    rw [hcs]
    simp [createChecksum]
  have hdmem : ∀ c ∈ data ++ cs, ∃ w, w < 32 ∧ c = bech32CharAt w := by
    intro c hc
    rcases List.mem_append.mp hc with hm | hm
    · rw [hdata'] at hm
      obtain ⟨w, hw, rfl⟩ := List.mem_map.mp hm
      exact ⟨w, hlt32 w hw, rfl⟩
    · rw [hcs] at hm
      exact createChecksum_mem _ _ _ hm
  have hlow : (p ++ '1' :: (data ++ cs)).map asciiToLower = p ++ '1' :: (data ++ cs) := by
    apply map_fixed
    intro c hc
    rcases List.mem_append.mp hc with hm | hm
    · exact hplow c hm
    · rcases List.mem_cons.mp hm with rfl | hm2
      · decide
      · obtain ⟨w, hw, rfl⟩ := hdmem c hm2
        exact asciiToLower_charAt w hw
  have hsep : jsLastIndexOf (p ++ '1' :: (data ++ cs)) '1' = (p.length : Int) := by
    apply jsLastIndexOf_sep p _ hp1
    intro hm
    obtain ⟨w, hw, hc⟩ := hdmem '1' hm
    exact charAt_ne_one w hw hc.symm
  have hslen : (p ++ '1' :: (data ++ cs)).length = p.length + 59 := by
    simp [hdlen, hcslen]
  have hchk : checkAlphabet (data ++ cs) = .ok () := by
    apply checkAlphabet_ok
    intro c hc
    obtain ⟨w, hw, rfl⟩ := hdmem c hc
    exact charAt_index_ne w hw
  have hpm : polyMod (pfxExpand p ++ strToBytes (data ++ cs)) = 1 := by
    rw [hdata', hcs, hdata']
    exact polyMod_checksum p (convert8to5 rest) hlt32
  have hver : verifyChecksum p (data ++ cs) = .ok () := by
    unfold verifyChecksum
    rw [hpm, if_neg (by norm_num)]
    rfl
  have hc58 : convert5to8 ((data ++ cs).take ((data ++ cs).length - 6)) = .ok rest := by
    rw [show (data ++ cs).length - 6 = data.length from by
      simp [hdlen, hcslen], List.take_left]
    rw [hdata]
    exact convert_roundtrip rest h32 hlt
  unfold bech32Decode
  rw [if_neg (by rw [hslen]; omega)]
  rw [except_pure_bind]
  simp only []
  rw [hlow, hsep]
  rw [if_neg (show ¬ ((p.length : Int) = -1) from by omega)]
  rw [except_pure_bind]
  simp only [Int.toNat_natCast]
  rw [List.take_left, hpv, except_bind_ok]
  rw [show (p.length + 1 : Nat) = (p ++ ['1']).length from by simp,
    show p ++ '1' :: (data ++ cs) = (p ++ ['1']) ++ (data ++ cs) from by simp,
    List.drop_left]
  rw [hchk, except_bind_ok, hver, except_bind_ok, hc58, except_bind_ok]
  rfl

theorem versionToPfx_roundtrip (v : Nat) (hval : validVersionVal v) (hv0 : v ≠ 0) :
    ∃ x y z, 1 ≤ x ∧ x ≤ 26 ∧ 1 ≤ y ∧ y ≤ 26 ∧ 1 ≤ z ∧ z ≤ 26 ∧
      versionToPfx v =
        .ok [Char.ofNat (x + 96), Char.ofNat (y + 96), Char.ofNat (z + 96)] ∧
      pfxToVersion [Char.ofNat (x + 96), Char.ofNat (y + 96), Char.ofNat (z + 96)] =
        .ok v := by
  rcases hval with h0 | ⟨hle, h8, ⟨ha1, ha2⟩, ⟨hb1, hb2⟩, ⟨hc1, hc2⟩⟩
  · exact absurd h0 hv0
  have hlt : v < 32768 := lt_32768_of_and_bit15 v hle h8
  refine ⟨(v &&& 0x7C00) >>> 10, (v &&& 0x03E0) >>> 5, v &&& 0x001F,
    ha1, ha2, hb1, hb2, hc1, hc2,
    versionToPfx_ok_pos v (Or.inr ⟨hle, h8, ⟨ha1, ha2⟩, ⟨hb1, hb2⟩, ⟨hc1, hc2⟩⟩) hv0, ?_⟩
  rw [pfxToVersion_letters _ _ _ ha1 ha2 hb1 hb2 hc1 hc2]
  congr 1
  rw [extract_hi, extract_mid, extract_lo] at *
  rw [Nat.shiftLeft_eq, Nat.shiftLeft_eq]
  norm_num
  omega

theorem letter_ne_one : ∀ a < 27, 1 ≤ a → Char.ofNat (a + 96) ≠ '1' := by
  decide

theorem asciiToLower_letter :
    ∀ a < 27, 1 ≤ a → asciiToLower (Char.ofNat (a + 96)) = Char.ofNat (a + 96) := by
  decide

theorem bech32Encode_form (b0 b1 : Nat) (rest : List Nat) (p : List Char)
    (hpv : versionToPfx ((b0 <<< 8) + b1) = .ok p) :
    bech32Encode (b0 :: b1 :: rest) =
      .ok (p ++ '1' :: (convert8to5Chars rest ++
        createChecksum p (convert8to5Chars rest))) := by
  unfold bech32Encode
  simp only [List.getD_cons_zero, List.getD_cons_succ]
  rw [hpv, except_bind_ok]
  rw [show (b0 :: b1 :: rest).drop 2 = rest from rfl]
  rw [except_pure_eq]
  congr 1
  simp

theorem uint16ToBytes_pair (b0 b1 : Nat) (h0 : b0 < 256) (h1 : b1 < 256) :
    uint16ToBytes ((b0 <<< 8) + b1) = [b0, b1] := by
  unfold uint16ToBytes
  rw [Nat.shiftLeft_eq, Nat.shiftRight_eq_div_pow, and_255, and_255]
  norm_num
  have e1 : (b0 * 256 + b1) / 256 % 256 = b0 := by omega
  have e2 : (b0 * 256 + b1) % 256 = b1 := by omega
  rw [e1, e2]
  exact ⟨rfl, rfl⟩

theorem arraySet_full (base bs : List Nat) (hb : base.length = bs.length) :
    arraySet base bs 0 bs.length = bs := by
  unfold arraySet
  rw [show max base.length (0 + bs.length) = bs.length from by omega]
  have hcong : ∀ i ∈ List.range bs.length,
      (if 0 ≤ i ∧ i < 0 + bs.length then bs.getD (i - 0) default
        else base.getD i default) = bs.getD i default := by
    intro i hi
    rw [if_pos ⟨Nat.zero_le i, by simpa using List.mem_range.mp hi⟩, Nat.sub_zero]
  rw [List.map_congr_left hcong, eq_map_range_getD bs]

/-- C2: for every well-formed `Address` (34 bytes, byte values below 256, a
version field whose three 5-bit letter groups are all in 1..26 or the genesis
version 0), `getBech32` succeeds and `fromBech32` of the produced string
returns an address whose 34-byte buffer equals the original byte for byte. -/
theorem c2_address_bech32_roundtrip (a : Address)
    (h34 : a.getBytes.length = 34) (hlt : ∀ x ∈ a.getBytes, x < 256)
    (hval : validVersionVal ((a.getBytes.getD 0 0 <<< 8) + a.getBytes.getD 1 0)) :
    ∃ s a2, Address.getBech32 a = .ok s ∧ Address.fromBech32 s = .ok a2 ∧
      a2.getBytes = a.getBytes := by
  obtain ⟨bytes⟩ := a
  simp only [Address.getBytes] at h34 hlt hval ⊢
  rcases bytes with _ | ⟨b0, bytes1⟩
  · simp at h34
  rcases bytes1 with _ | ⟨b1, rest⟩
  · simp at h34
  simp only [List.getD_cons_zero, List.getD_cons_succ] at hval
  have hr32 : rest.length = 32 := by simp at h34; omega
  have hb0 : b0 < 256 := hlt b0 (by simp)
  have hb1 : b1 < 256 := hlt b1 (by simp)
  have hrestlt : ∀ x ∈ rest, x < 256 := fun x hx => hlt x (by simp [hx])
  rcases hval with h0 | hvv
  · have hb00 : b0 = 0 := by rw [Nat.shiftLeft_eq] at h0; omega
    have hb10 : b1 = 0 := by rw [Nat.shiftLeft_eq] at h0; omega
    subst hb00
    subst hb10
    have henc := bech32Encode_form 0 0 rest genesisPfx versionToPfx_zero
    have hdec := bech32_decode_encode genesisPfx 0 rest hr32 hrestlt (by decide)
      (by decide) (by rfl) (Or.inr rfl)
    rw [show uint16ToBytes 0 = [0, 0] from rfl] at hdec
    refine ⟨_, ⟨0 :: 0 :: rest⟩, henc, ?_, rfl⟩
    unfold Address.fromBech32
    rw [hdec, except_bind_ok]
    simp only [List.cons_append, List.nil_append]
    rw [arraySet_full Address.new.bytes (0 :: 0 :: rest) (by
      rw [show Address.new.bytes.length = 34 from by decide]
      simp only [List.length_cons, hr32])]
    rfl
  · have hv0 : (b0 <<< 8) + b1 ≠ 0 := by
      intro h
      have ha1 := hvv.2.2.1.1
      rw [h] at ha1
      exact absurd ha1 (by decide)
    obtain ⟨x, y, z, hx1, hx2, hy1, hy2, hz1, hz2, hvp, hpv⟩ :=
      versionToPfx_roundtrip ((b0 <<< 8) + b1) (Or.inr hvv) hv0
    set p := [Char.ofNat (x + 96), Char.ofNat (y + 96), Char.ofNat (z + 96)] with hp
    have hp1 : '1' ∉ p := by
      rw [hp]
      intro hm
      simp only [List.mem_cons, List.not_mem_nil, or_false] at hm
      rcases hm with h | h | h
      · exact letter_ne_one x (by omega) hx1 h.symm
      · exact letter_ne_one y (by omega) hy1 h.symm
      · exact letter_ne_one z (by omega) hz1 h.symm
    have hplow : ∀ c ∈ p, asciiToLower c = c := by
      rw [hp]
      intro c hc
      simp only [List.mem_cons, List.not_mem_nil, or_false] at hc
      rcases hc with rfl | rfl | rfl
      · exact asciiToLower_letter x (by omega) hx1
      · exact asciiToLower_letter y (by omega) hy1
      · exact asciiToLower_letter z (by omega) hz1
    have henc := bech32Encode_form b0 b1 rest p hvp
    have hdec := bech32_decode_encode p ((b0 <<< 8) + b1) rest hr32 hrestlt hp1 hplow
      hpv (Or.inl (by rw [hp]; rfl))
    rw [uint16ToBytes_pair b0 b1 hb0 hb1] at hdec
    refine ⟨_, ⟨b0 :: b1 :: rest⟩, henc, ?_, rfl⟩
    unfold Address.fromBech32
    rw [hdec, except_bind_ok]
    simp only [List.cons_append, List.nil_append]
    rw [arraySet_full Address.new.bytes (b0 :: b1 :: rest) (by
      rw [show Address.new.bytes.length = 34 from by decide]
      simp only [List.length_cons, hr32])]
    rfl

/-- Witness for C2 at the default `umi` address (all-zero public key). -/
theorem c2_address_bech32_roundtrip_witness :
    ∃ s a2, Address.getBech32 Address.new = .ok s ∧
      Address.fromBech32 s = .ok a2 ∧ a2.getBytes = Address.new.getBytes :=
  c2_address_bech32_roundtrip Address.new (by decide) (by decide) (by decide)

end UmiCore
